import Mathlib

/-!
# Waveform statistics kernel

A shallow embedding of `Waveform_StatisticsSup/Waveform_Statistics_Subroutines.c`
(the aSubRecord subroutine `Waveform_Statistics_Process` and its helper
`calcMedian`) together with theorems about it.

Conventions of the embedding.

* `epicsFloat64` values are elements of a linear ordered field `K` (exact
  arithmetic); the C library `sqrt` is a parameter `sqrt : K → K`. Theorems that
  use no property of `sqrt` hold for every `K` and every `sqrt`, in particular
  for the reals with `Real.sqrt`; the others are stated for `ℝ` and `Real.sqrt`.
* `int` / `epicsInt32` values are elements of `Int` in the range of 32-bit two's
  complement and the `epicsUInt32` counts `noa`, `noe` elements of `Nat` below
  `2 ^ 32`; the record carries these bounds. The narrowing of `noa` to `int`
  (line 232) and the subtraction `number_elements - offset` (line 245) wrap
  modulo `2 ^ 32` (`toInt32`), as they do in the compiled code. Past the range
  check the sums of the loops (`offset + size`, `j++`, `j - last_point`,
  `actual_size++`) are exact: with `offset < 0` they stay within `int`, and with
  `0 ≤ offset` they are at most `NOA` (`selectedSize_le`), within `int` for
  every count up to `INT_MAX`.
* A buffer is a `List`; an access outside the buffer ends the run with
  `Status.OutOfRange`, a division by zero with `Status.DivisionByZero`.
-/

namespace WaveformStatistics

/-- Field type tags of the host record (`menuFtype.h` of EPICS base). -/
inductive menuFtype where
  | STRING | CHAR | UCHAR | SHORT | USHORT | LONG | ULONG | INT64 | UINT64
  | FLOAT | DOUBLE | ENUM
  deriving DecidableEq, Repr

/-- How a run of `Waveform_Statistics_Process` ends. `OK` is `return 0`; the next
three are the three `errlogPrintf (...); return -1;` exits, in source order
(lines 221-228, 246-251, 303-308); the last two are the undefined behaviours the
embedding makes explicit. -/
inductive Status where
  | OK
  | TypeContractViolation
  | InvalidRange
  | EmptyAfterMask
  | OutOfRange
  | DivisionByZero
  deriving DecidableEq, Repr

/-- The value returned to the host, when the run returns at all. -/
def Status.returnCode : Status → Option Int
  | .OK => some 0
  | .TypeContractViolation => some (-1)
  | .InvalidRange => some (-1)
  | .EmptyAfterMask => some (-1)
  | .OutOfRange => none
  | .DivisionByZero => none

/-- The value a 32-bit two's complement `int` takes for the integer `z`: the
integer of `[-2^31, 2^31)` congruent to `z` modulo `2^32`. -/
def toInt32 (z : Int) : Int :=
  (z + 2147483648) % 4294967296 - 2147483648

/-- The fields of `aSubRecord` the subroutine touches. A buffer field holds the
view the subroutine takes of it: `a` as `epicsFloat64[]`, `b` and `c` as the
`epicsInt32` they point at (what `long_at` returns), `d` as the `epicsFloat64` it
points at (what `double_at` returns), `e` as `epicsInt32[]`, `vala` .. `valk` as
`epicsFloat64`, `vall` as `epicsInt32`. The last four fields are the ranges of the
C types of `noa`, `noe` (`epicsUInt32`) and of `b`, `c` (`epicsInt32`). -/
structure aSubRecord (K : Type) where
  fta : menuFtype
  ftb : menuFtype
  ftc : menuFtype
  ftd : menuFtype
  fte : menuFtype
  ftva : menuFtype
  ftvb : menuFtype
  ftvc : menuFtype
  ftvd : menuFtype
  ftve : menuFtype
  ftvf : menuFtype
  ftvg : menuFtype
  ftvh : menuFtype
  ftvi : menuFtype
  ftvj : menuFtype
  ftvk : menuFtype
  ftvl : menuFtype
  noa : Nat
  noe : Nat
  a : List K
  b : Int
  c : Int
  d : K
  e : List Int
  vala : K
  valb : K
  valc : K
  vald : K
  vale : K
  valf : K
  valg : K
  valh : K
  vali : K
  valj : K
  valk : K
  vall : Int
  noa_lt : noa < 4294967296
  noe_lt : noe < 4294967296
  b_range : -2147483648 ≤ b ∧ b < 2147483648
  c_range : -2147483648 ≤ c ∧ c < 2147483648

/-- The host allocates `noa` elements for field A and `noe` elements for field E. -/
def aSubRecord.WellFormed {K : Type} (precord : aSubRecord K) : Prop :=
  precord.a.length = precord.noa ∧
    (precord.fte = menuFtype.LONG → precord.e.length = precord.noe)

instance {K : Type} (precord : aSubRecord K) : Decidable precord.WellFormed := by
  unfold aSubRecord.WellFormed; exact inferInstance

/-- `#define ABS(a) ((a) >= 0 ? (a) : -(a))` -/
def ABS {α : Type} [LE α] [Zero α] [Neg α] [DecidableRel (fun x y : α => x ≤ y)]
    (a : α) : α :=
  if a ≥ 0 then a else -a

/-- `#define MIN(a, b) ((a) <= (b) ? (a) : (b))` -/
def MIN {α : Type} [LE α] [DecidableRel (fun x y : α => x ≤ y)] (a b : α) : α :=
  if a ≤ b then a else b

/-- `#define MAX(a, b) ((a) >= (b) ? (a) : (b))` -/
def MAX {α : Type} [LE α] [DecidableRel (fun x y : α => x ≤ y)] (a b : α) : α :=
  if a ≥ b then a else b

/-- The read `buf[i]`. -/
def readAt {α : Type} (buf : List α) (i : Int) : Except Status α :=
  if 0 ≤ i then
    match buf[i.toNat]? with
    | some v => .ok v
    | none => .error .OutOfRange
  else .error .OutOfRange

/-- The write `buf[i] = v`. -/
def writeAt {α : Type} (buf : List α) (i : Int) (v : α) : Except Status (List α) :=
  if 0 ≤ i ∧ i.toNat < buf.length then .ok (buf.set i.toNat v) else .error .OutOfRange

/-- The checked division `x / y`. -/
def fdiv {K : Type} [Field K] [DecidableEq K] (x y : K) : Except Status K :=
  if y = 0 then .error .DivisionByZero else .ok (x / y)

/-- The loop `for (j = ...; j < hi; j++) body`, entered with the current value of
`j` and the current state. -/
def forLoop {σ : Type} (hi : Int) (body : Int → σ → Except Status σ) (j : Int) (s : σ) :
    Except Status σ :=
  if j < hi then
    match body j s with
    | .error e => .error e
    | .ok s1 => forLoop hi body (j + 1) s1
  else .ok s
termination_by (hi - j).toNat
decreasing_by omega

/-- `static int cmp_double_p (const void* p1, const void* p2)` on the two values
pointed at. -/
def cmp_double_p {K : Type} [LinearOrder K] (d1 d2 : K) : Int :=
  if d1 < d2 then -1 else if d1 > d2 then 1 else 0

/-- The C library `qsort` with comparator `compar`: an ascending sort, here by
insertion. -/
def qsort {K : Type} (compar : K → K → Int) (base : List K) : List K :=
  List.insertionSort (fun p1 p2 => compar p1 p2 ≤ 0) base

/-- The body of the copy loop of lines 149-151, `work_list[j] = data_set [j]`. The
pointer `data_set` is the buffer `buf` with the element offset `first`. -/
def copyStep {K : Type} (buf : List K) (first : Int) (j : Int) (work_list : List K) :
    Except Status (List K) :=
  match readAt buf (first + j) with
  | .error e => .error e
  | .ok v => writeAt work_list j v

/-- `static epicsFloat64 calcMedian (const int n, const epicsFloat64* data_set)`.
The pointer `data_set` is the buffer `buf` with the element offset `first`; the
working copy starts as the zeroes `calloc` returns. -/
def calcMedian {K : Type} [LinearOrderedField K] (n : Int) (buf : List K) (first : Int) :
    Except Status K :=
  match forLoop n (copyStep buf first) 0 (List.replicate n.toNat (0 : K)) with
  | .error e => .error e
  | .ok work_list =>
    let sorted := qsort cmp_double_p work_list
    let mid_index := Int.tdiv n 2
    readAt sorted mid_index

/-- The macro `IN_USE(x)` of lines 273-275, with `m_ptr = precord->e`. The test
`(m_ptr [x] & 1) == 1` is on the least significant bit, `m % 2 = 1`. The host
declares `noe` unsigned: for `x ≥ 0` the comparison `x >= precord->noe` is the one
on integers, and for `x < 0` either reading of it ends in a read below a buffer
(of `m_ptr` here, of `a_ptr` otherwise). -/
def IN_USE {K : Type} (precord : aSubRecord K) (x : Int) : Except Status Bool :=
  if precord.fte ≠ menuFtype.LONG then .ok true
  else if x ≥ (precord.noe : Int) then .ok true
  else
    match readAt precord.e x with
    | .error e => .error e
    | .ok m => .ok (decide (m % 2 = 1))

/-- The locals carried round the accumulation loop of lines 278-301. `a_min`
starts at `+INFINITY` (`⊤`) and `a_max` at `-INFINITY` (`⊥`). -/
structure Sums (K : Type) where
  a_sum : K
  a_squared_sum : K
  a_min : WithTop K
  a_max : WithBot K
  a_max_abs : K
  x_sum : K
  xx_sum : K
  xa_sum : K
  actual_size : Int

/-- Lines 257-269: the initial values. -/
def Sums.init (K : Type) [LinearOrderedField K] : Sums K :=
  { a_sum := 0, a_squared_sum := 0, a_min := ⊤, a_max := ⊥, a_max_abs := 0,
    x_sum := 0, xx_sum := 0, xa_sum := 0, actual_size := 0 }

/-- The body of the loop of lines 278-301. -/
def accumulate {K : Type} [LinearOrderedField K] (precord : aSubRecord K)
    (last_point : Int) (sample_interval : K) (j : Int) (s : Sums K) :
    Except Status (Sums K) :=
  match IN_USE precord j with
  | .error e => .error e
  | .ok false => .ok s
  | .ok true =>
    match readAt precord.a j with
    | .error e => .error e
    | .ok a =>
      let x : K := ((j - last_point : Int) : K) * sample_interval
      .ok { a_sum := s.a_sum + a
            a_squared_sum := s.a_squared_sum + a * a
            a_min := MIN s.a_min (a : WithTop K)
            a_max := MAX s.a_max (a : WithBot K)
            a_max_abs := MAX s.a_max_abs (ABS a)
            x_sum := s.x_sum + x
            xx_sum := s.xx_sum + x * x
            xa_sum := s.xa_sum + x * a
            actual_size := s.actual_size + 1 }

/-- The body of the loop of lines 342-349; the state is `(t, a_ptr)`. -/
def shuffle {K : Type} (precord : aSubRecord K) (j : Int) (s : Int × List K) :
    Except Status (Int × List K) :=
  match IN_USE precord j with
  | .error e => .error e
  | .ok false => .ok s
  | .ok true =>
    match readAt s.2 j with
    | .error e => .error e
    | .ok v =>
      match writeAt s.2 s.1 v with
      | .error e => .error e
      | .ok buf => .ok (s.1 + 1, buf)

/-- The `epicsFloat64` a running minimum holds once a sample has been folded in.
The starting value `+INFINITY` is sent to 0; a run that reaches the output stage
has folded a sample in (`theSums_a_min`), so that case is not reported. -/
def ofTop {K : Type} [Zero K] : WithTop K → K
  | none => 0
  | some v => v

/-- The `epicsFloat64` a running maximum holds once a sample has been folded in.
The starting value `-INFINITY` is sent to 0; a run that reaches the output stage
has folded a sample in (`theSums_a_max`), so that case is not reported. -/
def ofBot {K : Type} [Zero K] : WithBot K → K
  | none => 0
  | some v => v

/-- The locals of `Waveform_Statistics_Process` when it reaches line 354, and the
buffer `a_ptr` points at. -/
structure Locals (K : Type) where
  number_elements : Int
  requested_size : Int
  offset : Int
  size : Int
  last_point : Int
  actual_size : Int
  sample_interval : K
  a_sum : K
  a_squared_sum : K
  a_mean : K
  a_median : K
  a_squared_mean : K
  a_min : K
  a_max : K
  a_max_abs : K
  a_rms : K
  pop_variance : K
  sam_variance : K
  pop_std_dev : K
  sam_std_dev : K
  x_sum : K
  xx_sum : K
  xa_sum : K
  delta : K
  slope : K
  intersect : K
  a_ptr : List K

/-- Lines 236-241: the sample interval in effect. -/
def sampleInterval {K : Type} [LinearOrderedField K] (precord : aSubRecord K) : K :=
  if precord.ftd = menuFtype.DOUBLE then
    (if precord.d = 0 then 1 else precord.d)
  else 1

/-- Line 232, `number_elements = precord->noa`: the unsigned count narrowed to
`int`. -/
def numberElements {K : Type} (precord : aSubRecord K) : Int :=
  toInt32 (precord.noa : Int)

/-- Line 245: `size = MIN (number_elements - offset, requested_size)`, the
subtraction being the one of 32-bit `int`. -/
def selectedSize {K : Type} (precord : aSubRecord K) : Int :=
  MIN (toInt32 (numberElements precord - precord.c)) precord.b

/-- Lines 339-353: the median, after the in-place shuffle when samples were
masked out. Returns the median and the buffer. -/
def medianStage {K : Type} [LinearOrderedField K] (precord : aSubRecord K)
    (offset size actual_size : Int) : Except Status (K × List K) :=
  if actual_size < size then
    match forLoop (offset + size) (shuffle precord) offset ((0 : Int), precord.a) with
    | .error e => .error e
    | .ok (_, buf) =>
      match calcMedian actual_size buf 0 with
      | .error e => .error e
      | .ok m => .ok (m, buf)
  else
    match calcMedian actual_size precord.a offset with
    | .error e => .error e
    | .ok m => .ok (m, precord.a)

/-- Lines 310-337: the statistics derived from the sums; `a_median` and `buf` are
the median and the buffer as they are at that point. -/
def finalize {K : Type} [LinearOrderedField K] (sqrt : K → K) (precord : aSubRecord K)
    (s : Sums K) (a_median : K) (buf : List K) : Except Status (Locals K) :=
  match fdiv s.a_sum (s.actual_size : K) with
  | .error e => .error e
  | .ok a_mean =>
  match fdiv s.a_squared_sum (s.actual_size : K) with
  | .error e => .error e
  | .ok a_squared_mean =>
  let pop_variance := a_squared_mean - a_mean * a_mean
  match (if s.actual_size ≥ 2 then
          fdiv ((s.actual_size : K) * pop_variance) ((s.actual_size : K) - 1)
        else .ok 0) with
  | .error e => .error e
  | .ok sam_variance =>
  let delta0 := (s.actual_size : K) * s.xx_sum - s.x_sum * s.x_sum
  let delta := if delta0 = 0 then 1 else delta0
  match fdiv ((s.actual_size : K) * s.xa_sum - s.x_sum * s.a_sum) delta with
  | .error e => .error e
  | .ok slope =>
  match fdiv (s.a_sum * s.xx_sum - s.x_sum * s.xa_sum) delta with
  | .error e => .error e
  | .ok intersect =>
    .ok { number_elements := numberElements precord
          requested_size := precord.b
          offset := precord.c
          size := selectedSize precord
          last_point := precord.c + selectedSize precord - 1
          actual_size := s.actual_size
          sample_interval := sampleInterval precord
          a_sum := s.a_sum
          a_squared_sum := s.a_squared_sum
          a_mean := a_mean
          a_median := a_median
          a_squared_mean := a_squared_mean
          a_min := ofTop s.a_min
          a_max := ofBot s.a_max
          a_max_abs := s.a_max_abs
          a_rms := sqrt a_squared_mean
          pop_variance := pop_variance
          sam_variance := sam_variance
          pop_std_dev := sqrt pop_variance
          sam_std_dev := sqrt sam_variance
          x_sum := s.x_sum
          xx_sum := s.xx_sum
          xa_sum := s.xa_sum
          delta := delta
          slope := slope
          intersect := intersect
          a_ptr := buf }

/-- Lines 219-353 of `Waveform_Statistics_Process`: everything before the writes
to the output fields. `b` and `c` are read with `long_at`, `d` with `double_at`;
`a_median` is 0 (line 262) until the median stage sets it. -/
def Waveform_Statistics_Compute {K : Type} [LinearOrderedField K] (sqrt : K → K)
    (precord : aSubRecord K) : Except Status (Locals K) :=
  if precord.fta ≠ menuFtype.DOUBLE ∨ precord.ftb ≠ menuFtype.LONG ∨
      precord.ftc ≠ menuFtype.LONG then
    .error .TypeContractViolation
  else
    let offset := precord.c
    let size := selectedSize precord
    if size < 1 then .error .InvalidRange
    else
      let last_point := offset + size - 1
      match forLoop (offset + size) (accumulate precord last_point (sampleInterval precord))
          offset (Sums.init K) with
      | .error e => .error e
      | .ok s =>
        if s.actual_size < 1 then .error .EmptyAfterMask
        else
          match finalize sqrt precord s 0 precord.a with
          | .error e => .error e
          | .ok l =>
            match medianStage precord offset size s.actual_size with
            | .error e => .error e
            | .ok (a_median, buf) => .ok { l with a_median := a_median, a_ptr := buf }

/-- Lines 355-415: the writes to the output fields, each behind its type tag. -/
def writeOutputs {K : Type} (precord : aSubRecord K) (l : Locals K) : aSubRecord K :=
  { precord with
    a := l.a_ptr
    vala := if precord.ftva = menuFtype.DOUBLE then l.a_mean else precord.vala
    valb := if precord.ftvb = menuFtype.DOUBLE then l.a_min else precord.valb
    valc := if precord.ftvc = menuFtype.DOUBLE then l.a_max else precord.valc
    vald := if precord.ftvd = menuFtype.DOUBLE then l.sam_std_dev else precord.vald
    vale := if precord.ftve = menuFtype.DOUBLE then l.a_sum else precord.vale
    valf := if precord.ftvf = menuFtype.DOUBLE then l.a_median else precord.valf
    valg := if precord.ftvg = menuFtype.DOUBLE then l.slope else precord.valg
    valh := if precord.ftvh = menuFtype.DOUBLE then l.intersect else precord.valh
    vali := if precord.ftvi = menuFtype.DOUBLE then l.a_max_abs else precord.vali
    valj := if precord.ftvj = menuFtype.DOUBLE then l.a_rms else precord.valj
    valk := if precord.ftvk = menuFtype.DOUBLE then l.pop_std_dev else precord.valk
    vall := if precord.ftvl = menuFtype.LONG then l.actual_size else precord.vall }

/-- `static long Waveform_Statistics_Init (aSubRecord* precord)`: a place holder
that returns 0. -/
def Waveform_Statistics_Init {K : Type} (_precord : aSubRecord K) : Int := 0

/-- `static long Waveform_Statistics_Process (aSubRecord* precord)`: how the run
ends and the record it leaves. -/
def Waveform_Statistics_Process {K : Type} [LinearOrderedField K] (sqrt : K → K)
    (precord : aSubRecord K) : Status × aSubRecord K :=
  match Waveform_Statistics_Compute sqrt precord with
  | .error e => (e, precord)
  | .ok l => (Status.OK, writeOutputs precord l)

/-! ## Vocabulary of the statements -/

/-- The sample `a_ptr[j]` of the record as it is before the call. -/
def sample {K : Type} [Zero K] (precord : aSubRecord K) (j : Int) : K :=
  precord.a.getD j.toNat 0

/-- The mask word `m_ptr[j]` of the record. -/
def maskWord {K : Type} (precord : aSubRecord K) (j : Int) : Int :=
  precord.e.getD j.toNat 0

/-- The in-use predicate in the words of the specification: the mask is not
advertised as a 32-bit integer sequence, or `j ≥ M`, or the least significant bit
of `mask[j]` is 1. -/
def spec_in_use {K : Type} (precord : aSubRecord K) (j : Int) : Prop :=
  precord.fte ≠ menuFtype.LONG ∨ j ≥ (precord.noe : Int) ∨ maskWord precord j % 2 = 1

instance {K : Type} (precord : aSubRecord K) (j : Int) : Decidable (spec_in_use precord j) := by
  unfold spec_in_use; exact inferInstance

/-- The integers `lo, lo + 1, .., hi - 1` in increasing order. -/
def intRange (lo hi : Int) : List Int :=
  (List.range (hi - lo).toNat).map (fun (k : Nat) => lo + (k : Int))

/-- The FTA/FTB/FTC type tags are the required ones. -/
def tagsCorrect {K : Type} (precord : aSubRecord K) : Prop :=
  precord.fta = menuFtype.DOUBLE ∧ precord.ftb = menuFtype.LONG ∧
    precord.ftc = menuFtype.LONG

instance {K : Type} (precord : aSubRecord K) : Decidable (tagsCorrect precord) := by
  unfold tagsCorrect; exact inferInstance

/-- The selection window `[offset, offset + size)` as a set of indices. -/
def window {K : Type} (precord : aSubRecord K) : Finset Int :=
  Finset.Ico precord.c (precord.c + selectedSize precord)

/-- The set `U` of in-use indices of the selection window. -/
def inUseSet {K : Type} (precord : aSubRecord K) : Finset Int :=
  (window precord).filter (fun j => spec_in_use precord j)

/-- The in-use indices of the window below `hi`, in increasing order. -/
def inUseBelow {K : Type} (precord : aSubRecord K) (hi : Int) : List Int :=
  (intRange precord.c hi).filter (fun j => decide (spec_in_use precord j))

/-- The in-use indices of the selection window, in increasing order. -/
def inUseList {K : Type} (precord : aSubRecord K) : List Int :=
  inUseBelow precord (precord.c + selectedSize precord)

/-- The in-use samples, in index order, as they are before the call. -/
def inUseValues {K : Type} [Zero K] (precord : aSubRecord K) : List K :=
  (inUseList precord).map (sample precord)

/-- The abscissa `x_j = (j - last_point) * interval` of line 295. -/
def abscissa {K : Type} [LinearOrderedField K] (precord : aSubRecord K) (j : Int) : K :=
  ((j - (precord.c + selectedSize precord - 1) : Int) : K) * sampleInterval precord

/-- The update of the sums by one in-use sample (lines 283-300), for the sample
`a` at index `j`. -/
def accStep {K : Type} [LinearOrderedField K] (precord : aSubRecord K) (s : Sums K)
    (j : Int) : Sums K :=
  { a_sum := s.a_sum + sample precord j
    a_squared_sum := s.a_squared_sum + sample precord j * sample precord j
    a_min := MIN s.a_min ((sample precord j : K) : WithTop K)
    a_max := MAX s.a_max ((sample precord j : K) : WithBot K)
    a_max_abs := MAX s.a_max_abs (ABS (sample precord j))
    x_sum := s.x_sum + abscissa precord j
    xx_sum := s.xx_sum + abscissa precord j * abscissa precord j
    xa_sum := s.xa_sum + abscissa precord j * sample precord j
    actual_size := s.actual_size + 1 }


/-- The sums the accumulation loop leaves: `accStep` folded over the in-use
indices, from the initial values. -/
def theSums {K : Type} [LinearOrderedField K] (precord : aSubRecord K) : Sums K :=
  (inUseList precord).foldl (accStep precord) (Sums.init K)

/-- The in-use samples in ascending order. -/
def sortedInUse {K : Type} [LinearOrderedField K] (precord : aSubRecord K) : List K :=
  Multiset.sort (fun x y => x ≤ y) ((inUseValues precord : List K) : Multiset K)

/-- The buffer of field A after a successful run: unchanged when no sample of the
window is masked out, else the in-use samples followed by what was there. -/
def bufferAfter {K : Type} [LinearOrderedField K] (precord : aSubRecord K) : List K :=
  if ((inUseList precord).length : Int) < selectedSize precord then
    inUseValues precord ++ precord.a.drop (inUseList precord).length
  else precord.a

/-- The relation between the sums `s`, the median, the buffer and the locals `l`
that lines 310-337 establish. -/
structure FinalizedFrom {K : Type} [LinearOrderedField K] (sqrt : K → K)
    (precord : aSubRecord K) (s : Sums K) (a_median : K) (buf : List K) (l : Locals K) :
    Prop where
  number_elements : l.number_elements = numberElements precord
  requested_size : l.requested_size = precord.b
  offset : l.offset = precord.c
  size : l.size = selectedSize precord
  last_point : l.last_point = precord.c + selectedSize precord - 1
  actual_size : l.actual_size = s.actual_size
  sample_interval : l.sample_interval = sampleInterval precord
  a_sum : l.a_sum = s.a_sum
  a_squared_sum : l.a_squared_sum = s.a_squared_sum
  a_mean : l.a_mean = s.a_sum / (s.actual_size : K)
  a_median : l.a_median = a_median
  a_squared_mean : l.a_squared_mean = s.a_squared_sum / (s.actual_size : K)
  a_min : l.a_min = ofTop s.a_min
  a_max : l.a_max = ofBot s.a_max
  a_max_abs : l.a_max_abs = s.a_max_abs
  a_rms : l.a_rms = sqrt l.a_squared_mean
  pop_variance : l.pop_variance = l.a_squared_mean - l.a_mean * l.a_mean
  sam_variance : l.sam_variance =
    if s.actual_size ≥ 2 then
      (s.actual_size : K) * l.pop_variance / ((s.actual_size : K) - 1)
    else 0
  pop_std_dev : l.pop_std_dev = sqrt l.pop_variance
  sam_std_dev : l.sam_std_dev = sqrt l.sam_variance
  x_sum : l.x_sum = s.x_sum
  xx_sum : l.xx_sum = s.xx_sum
  xa_sum : l.xa_sum = s.xa_sum
  delta : l.delta =
    if (s.actual_size : K) * s.xx_sum - s.x_sum * s.x_sum = 0 then 1
    else (s.actual_size : K) * s.xx_sum - s.x_sum * s.x_sum
  slope : l.slope = ((s.actual_size : K) * s.xa_sum - s.x_sum * s.a_sum) / l.delta
  intersect : l.intersect = (s.a_sum * s.xx_sum - s.x_sum * s.xa_sum) / l.delta
  a_ptr : l.a_ptr = buf


/-- A record whose input tags are the required ones, whose interval field is the
`epicsFloat64` 1 and whose output slots are all advertised with their types:
samples `a`, mask `e` advertised as `fte`, and the requested size and the offset
that an `epicsInt32` holds for `b` and `c`. -/
def recordOf (K : Type) [LinearOrderedField K] (a : List K) (b c : Int) (fte : menuFtype)
    (e : List Int) : aSubRecord K :=
  { fta := .DOUBLE, ftb := .LONG, ftc := .LONG, ftd := .DOUBLE, fte := fte
    ftva := .DOUBLE, ftvb := .DOUBLE, ftvc := .DOUBLE, ftvd := .DOUBLE, ftve := .DOUBLE
    ftvf := .DOUBLE, ftvg := .DOUBLE, ftvh := .DOUBLE, ftvi := .DOUBLE, ftvj := .DOUBLE
    ftvk := .DOUBLE, ftvl := .LONG
    noa := a.length % 4294967296, noe := e.length % 4294967296, a := a
    b := toInt32 b, c := toInt32 c, d := 1, e := e
    vala := 0, valb := 0, valc := 0, vald := 0, vale := 0, valf := 0, valg := 0
    valh := 0, vali := 0, valj := 0, valk := 0, vall := 0
    noa_lt := Nat.mod_lt _ (by decide)
    noe_lt := Nat.mod_lt _ (by decide)
    b_range := by unfold toInt32; omega
    c_range := by unfold toInt32; omega }

/-- The record with `f` applied to every sample. -/
def mapSamples {K : Type} (f : K → K) (precord : aSubRecord K) : aSubRecord K :=
  { precord with a := precord.a.map f }

/-- The record with `k` added to every sample. -/
def addToSamples {K : Type} [LinearOrderedField K] (k : K) (precord : aSubRecord K) :
    aSubRecord K :=
  mapSamples (fun v => v + k) precord

/-- The record with every sample multiplied by `alpha`. -/
def scaleSamples {K : Type} [LinearOrderedField K] (alpha : K) (precord : aSubRecord K) :
    aSubRecord K :=
  mapSamples (fun v => alpha * v) precord

/-- The record with the value of the interval field D multiplied by `beta`. -/
def scaleInterval {K : Type} [LinearOrderedField K] (beta : K) (precord : aSubRecord K) :
    aSubRecord K :=
  { precord with d := beta * precord.d }

/-- The record whose samples within the selection window `[offset, offset + size)`
are in reversed order, the samples outside it being as they were. -/
def reverseWindow {K : Type} (precord : aSubRecord K) : aSubRecord K :=
  { precord with
    a := precord.a.take precord.c.toNat
      ++ ((precord.a.drop precord.c.toNat).take (selectedSize precord).toNat).reverse
      ++ precord.a.drop (precord.c.toNat + (selectedSize precord).toNat) }

/-! ## The loop -/

theorem intRange_of_le {lo hi : Int} (h : hi ≤ lo) : intRange lo hi = [] := by
  have : (hi - lo).toNat = 0 := by omega
  simp [intRange, this]

theorem intRange_self (lo : Int) : intRange lo lo = [] := intRange_of_le le_rfl

theorem intRange_succ {lo j : Int} (h : lo ≤ j) : intRange lo (j + 1) = intRange lo j ++ [j] := by
  have h1 : (j + 1 - lo).toNat = (j - lo).toNat + 1 := by omega
  have h2 : lo + (((j - lo).toNat : Nat) : Int) = j := by omega
  simp only [intRange, h1, List.range_succ, List.map_append, List.map_singleton, h2]

theorem mem_intRange {lo hi j : Int} : j ∈ intRange lo hi ↔ lo ≤ j ∧ j < hi := by
  simp only [intRange, List.mem_map, List.mem_range]
  constructor
  · rintro ⟨k, hk, rfl⟩
    omega
  · rintro ⟨h1, h2⟩
    exact ⟨(j - lo).toNat, by omega, by omega⟩

theorem length_intRange (lo hi : Int) : (intRange lo hi).length = (hi - lo).toNat := by
  simp [intRange]

theorem sorted_intRange (lo hi : Int) : (intRange lo hi).Sorted (fun x y => x < y) := by
  unfold intRange
  generalize (hi - lo).toNat = n
  induction n with
  | zero => simp
  | succ n ih =>
    rw [List.range_succ, List.map_append, List.map_singleton]
    refine List.pairwise_append.mpr ⟨ih, List.pairwise_singleton _ _, ?_⟩
    intro a ha b hb
    simp only [List.mem_map, List.mem_range, List.mem_singleton] at ha hb
    obtain ⟨k, hk, rfl⟩ := ha
    subst hb
    omega

theorem nodup_intRange (lo hi : Int) : (intRange lo hi).Nodup :=
  (sorted_intRange lo hi).nodup

/-- Hoare rule for the loop: an invariant kept by every iteration holds at exit. -/
theorem forLoop_inv {σ : Type} (hi : Int) (body : Int → σ → Except Status σ)
    (Inv : Int → σ → Prop)
    (hstep : ∀ j s, j < hi → Inv j s → ∃ s1, body j s = .ok s1 ∧ Inv (j + 1) s1) :
    ∀ (n : Nat) (lo : Int) (s : σ), (hi - lo).toNat = n → lo ≤ hi → Inv lo s →
      ∃ s1, forLoop hi body lo s = .ok s1 ∧ Inv hi s1 := by
  intro n
  induction n with
  | zero =>
    intro lo s hn hle h0
    have : lo = hi := by omega
    subst this
    refine ⟨s, ?_, h0⟩
    rw [forLoop]; simp
  | succ n ih =>
    intro lo s hn hle h0
    have hlt : lo < hi := by omega
    obtain ⟨s1, hb, h1⟩ := hstep lo s hlt h0
    obtain ⟨s2, hf, h2⟩ := ih (lo + 1) s1 (by omega) (by omega) h1
    refine ⟨s2, ?_, h2⟩
    rw [forLoop]; simp [hlt, hb, hf]

/-- A failing iteration ends the loop with its failure. -/
theorem forLoop_first_error {σ : Type} (hi : Int) (body : Int → σ → Except Status σ)
    (lo : Int) (s : σ) (e : Status) (hlt : lo < hi) (hb : body lo s = .error e) :
    forLoop hi body lo s = .error e := by
  rw [forLoop]; simp [hlt, hb]

theorem readAt_ok {α : Type} (buf : List α) (i : Int) (d : α) (h0 : 0 ≤ i)
    (h1 : i < buf.length) : readAt buf i = .ok (buf.getD i.toNat d) := by
  have : i.toNat < buf.length := by omega
  simp [readAt, h0, List.getD, List.getElem?_eq_getElem this]

theorem readAt_neg {α : Type} (buf : List α) (i : Int) (h : i < 0) :
    readAt buf i = .error .OutOfRange := by
  simp [readAt, not_le.mpr h]

theorem IN_USE_eq {K : Type} (precord : aSubRecord K) (hwf : precord.WellFormed) (j : Int)
    (h0 : 0 ≤ j) : IN_USE precord j = .ok (decide (spec_in_use precord j)) := by
  unfold IN_USE spec_in_use
  by_cases h1 : precord.fte = menuFtype.LONG
  · by_cases h2 : j ≥ (precord.noe : Int)
    · simp [h1, h2]
    · have hlen := hwf.2 h1
      rw [readAt_ok precord.e j 0 h0 (by omega)]
      simp [h1, h2, maskWord]
  · simp [h1]

theorem accumulate_eq {K : Type} [LinearOrderedField K] (precord : aSubRecord K)
    (hwf : precord.WellFormed) (j : Int) (h0 : 0 ≤ j) (h1 : j < precord.noa) (s : Sums K) :
    accumulate precord (precord.c + selectedSize precord - 1) (sampleInterval precord) j s
      = .ok (if spec_in_use precord j then accStep precord s j else s) := by
  unfold accumulate
  rw [IN_USE_eq precord hwf j h0, readAt_ok precord.a j 0 h0 (by rw [hwf.1]; exact h1)]
  by_cases h : spec_in_use precord j
  · simp [h, accStep, sample, abscissa]
  · simp [h]

/-! ## The macros -/

theorem MIN_eq_min {α : Type} [LinearOrder α] (a b : α) : MIN a b = min a b := by
  unfold MIN; rw [min_def]

theorem MAX_eq_max {α : Type} [LinearOrder α] (a b : α) : MAX a b = max a b := by
  unfold MAX
  rcases lt_trichotomy a b with h | h | h
  · simp [max_eq_right h.le, not_le.mpr h]
  · simp [h]
  · simp [max_eq_left h.le, h.le]

theorem ABS_eq_abs {K : Type} [LinearOrderedField K] (a : K) : ABS a = |a| := by
  unfold ABS
  by_cases h : a ≥ 0
  · simp [h, abs_of_nonneg h]
  · simp [h, abs_of_neg (not_le.mp h)]

/-! ## The selected size in 32-bit arithmetic -/

theorem toInt32_range (z : Int) : -2147483648 ≤ toInt32 z ∧ toInt32 z < 2147483648 := by
  unfold toInt32; omega

theorem selectedSize_eq32 {K : Type} (precord : aSubRecord K) :
    selectedSize precord
      = min (toInt32 (toInt32 (precord.noa : Int) - precord.c)) precord.b :=
  MIN_eq_min _ _

theorem selectedSize_range {K : Type} (precord : aSubRecord K) :
    -2147483648 ≤ selectedSize precord ∧ selectedSize precord < 2147483648 := by
  have hb := precord.b_range
  have ht := toInt32_range (toInt32 (precord.noa : Int) - precord.c)
  rw [selectedSize_eq32]
  omega

/-- With an offset that is not negative, a size that is not negative is the exact
minimum. -/
theorem selectedSize_eq {K : Type} (precord : aSubRecord K) (hc : 0 ≤ precord.c)
    (hs : 0 ≤ selectedSize precord) :
    selectedSize precord = min ((precord.noa : Int) - precord.c) precord.b := by
  have hn := precord.noa_lt
  have hcr := precord.c_range
  have hb := precord.b_range
  rw [selectedSize_eq32] at hs ⊢
  unfold toInt32 at hs ⊢
  omega

theorem selectedSize_le {K : Type} (precord : aSubRecord K) (hc : 0 ≤ precord.c)
    (hs : 0 ≤ selectedSize precord) :
    precord.c + selectedSize precord ≤ precord.noa := by
  rw [selectedSize_eq precord hc hs]; omega

/-! ## The accumulation loop -/

theorem inUseBelow_succ {K : Type} (precord : aSubRecord K) (j : Int) (h : precord.c ≤ j) :
    inUseBelow precord (j + 1)
      = inUseBelow precord j ++ (if spec_in_use precord j then [j] else []) := by
  unfold inUseBelow
  rw [intRange_succ h, List.filter_append]
  by_cases hj : spec_in_use precord j <;> simp [hj]

theorem mem_inUseBelow {K : Type} (precord : aSubRecord K) (hi j : Int) :
    j ∈ inUseBelow precord hi ↔ (precord.c ≤ j ∧ j < hi) ∧ spec_in_use precord j := by
  simp [inUseBelow, mem_intRange]

theorem mem_inUseList {K : Type} (precord : aSubRecord K) (j : Int) :
    j ∈ inUseList precord ↔
      (precord.c ≤ j ∧ j < precord.c + selectedSize precord) ∧ spec_in_use precord j :=
  mem_inUseBelow precord _ j

theorem nodup_inUseList {K : Type} (precord : aSubRecord K) : (inUseList precord).Nodup :=
  (nodup_intRange _ _).filter _

theorem sorted_inUseList {K : Type} (precord : aSubRecord K) :
    (inUseList precord).Sorted (fun x y => x < y) :=
  (sorted_intRange _ _).filter _

theorem toFinset_inUseList {K : Type} (precord : aSubRecord K) :
    (inUseList precord).toFinset = inUseSet precord := by
  ext j
  simp [mem_inUseList, inUseSet, window]

theorem length_inUseList {K : Type} (precord : aSubRecord K) :
    (inUseList precord).length = (inUseSet precord).card := by
  rw [← toFinset_inUseList, List.toFinset_card_of_nodup (nodup_inUseList precord)]

theorem sum_inUseList {K : Type} {M : Type} [AddCommMonoid M] (precord : aSubRecord K)
    (f : Int → M) : ((inUseList precord).map f).sum = ∑ j in inUseSet precord, f j := by
  rw [← toFinset_inUseList, List.sum_toFinset f (nodup_inUseList precord)]

/-- The accumulation loop of lines 278-301 folds `accStep` over the in-use indices. -/
theorem accumulate_loop {K : Type} [LinearOrderedField K] (precord : aSubRecord K)
    (hwf : precord.WellFormed) (hc : 0 ≤ precord.c) (hs : 0 ≤ selectedSize precord) :
    forLoop (precord.c + selectedSize precord)
        (accumulate precord (precord.c + selectedSize precord - 1) (sampleInterval precord))
        precord.c (Sums.init K)
      = .ok ((inUseList precord).foldl (accStep precord) (Sums.init K)) := by
  obtain ⟨s1, h1, h2⟩ := forLoop_inv (precord.c + selectedSize precord)
    (accumulate precord (precord.c + selectedSize precord - 1) (sampleInterval precord))
    (fun j s => precord.c ≤ j ∧ s = (inUseBelow precord j).foldl (accStep precord) (Sums.init K))
    (by
      rintro j s hj ⟨hcj, rfl⟩
      have hN := selectedSize_le precord hc hs
      refine ⟨_, accumulate_eq precord hwf j (by omega) (by omega) _, by omega, ?_⟩
      rw [inUseBelow_succ precord j hcj, List.foldl_append]
      by_cases hu : spec_in_use precord j <;> simp [hu])
    _ precord.c (Sums.init K) rfl (by omega)
    ⟨le_rfl, by simp [inUseBelow, intRange_self]⟩
  rw [h1, h2.2]; rfl

/-! ## What the fold leaves in each sum -/

theorem foldl_accStep_sums {K : Type} [LinearOrderedField K] (precord : aSubRecord K)
    (L : List Int) : ∀ s : Sums K,
    (L.foldl (accStep precord) s).a_sum = s.a_sum + (L.map (sample precord)).sum ∧
    (L.foldl (accStep precord) s).a_squared_sum
      = s.a_squared_sum + (L.map (fun j => sample precord j * sample precord j)).sum ∧
    (L.foldl (accStep precord) s).x_sum = s.x_sum + (L.map (abscissa precord)).sum ∧
    (L.foldl (accStep precord) s).xx_sum
      = s.xx_sum + (L.map (fun j => abscissa precord j * abscissa precord j)).sum ∧
    (L.foldl (accStep precord) s).xa_sum
      = s.xa_sum + (L.map (fun j => abscissa precord j * sample precord j)).sum ∧
    (L.foldl (accStep precord) s).actual_size = s.actual_size + L.length := by
  induction L with
  | nil => intro s; simp
  | cons j L ih =>
    intro s
    obtain ⟨h1, h2, h3, h4, h5, h6⟩ := ih (accStep precord s j)
    simp only [List.foldl_cons, List.map_cons, List.sum_cons, List.length_cons]
    refine ⟨?_, ?_, ?_, ?_, ?_, ?_⟩
    · rw [h1]; simp [accStep]; ring
    · rw [h2]; simp [accStep]; ring
    · rw [h3]; simp [accStep]; ring
    · rw [h4]; simp [accStep]; ring
    · rw [h5]; simp [accStep]; ring
    · rw [h6]; simp [accStep]; ring

theorem foldl_accStep_min {K : Type} [LinearOrderedField K] (precord : aSubRecord K)
    (L : List Int) : ∀ s : Sums K,
    ((L.foldl (accStep precord) s).a_min ≤ s.a_min ∧
      ∀ j ∈ L, (L.foldl (accStep precord) s).a_min ≤ ((sample precord j : K) : WithTop K)) ∧
    ((L.foldl (accStep precord) s).a_min = s.a_min ∨
      ∃ j ∈ L, (L.foldl (accStep precord) s).a_min = ((sample precord j : K) : WithTop K)) := by
  induction L with
  | nil => intro s; simp
  | cons j L ih =>
    intro s
    obtain ⟨⟨h1, h2⟩, h3⟩ := ih (accStep precord s j)
    have hm : (accStep precord s j).a_min = min s.a_min ((sample precord j : K) : WithTop K) := by
      simp [accStep, MIN_eq_min]
    simp only [List.foldl_cons]
    rw [hm] at h1 h3
    refine ⟨⟨h1.trans (min_le_left _ _), ?_⟩, ?_⟩
    · intro i hi
      rcases List.mem_cons.mp hi with rfl | hi
      · exact h1.trans (min_le_right _ _)
      · exact h2 i hi
    · rcases h3 with h3 | ⟨i, hi, h3⟩
      · rcases min_choice s.a_min ((sample precord j : K) : WithTop K) with hc | hc
        · left; rw [h3, hc]
        · right; exact ⟨j, List.mem_cons_self _ _, by rw [h3, hc]⟩
      · right; exact ⟨i, List.mem_cons_of_mem _ hi, h3⟩

theorem foldl_accStep_max {K : Type} [LinearOrderedField K] (precord : aSubRecord K)
    (L : List Int) : ∀ s : Sums K,
    (s.a_max ≤ (L.foldl (accStep precord) s).a_max ∧
      ∀ j ∈ L, ((sample precord j : K) : WithBot K) ≤ (L.foldl (accStep precord) s).a_max) ∧
    ((L.foldl (accStep precord) s).a_max = s.a_max ∨
      ∃ j ∈ L, (L.foldl (accStep precord) s).a_max = ((sample precord j : K) : WithBot K)) := by
  induction L with
  | nil => intro s; simp
  | cons j L ih =>
    intro s
    obtain ⟨⟨h1, h2⟩, h3⟩ := ih (accStep precord s j)
    have hm : (accStep precord s j).a_max = max s.a_max ((sample precord j : K) : WithBot K) := by
      simp [accStep, MAX_eq_max]
    simp only [List.foldl_cons]
    rw [hm] at h1 h3
    refine ⟨⟨(le_max_left _ _).trans h1, ?_⟩, ?_⟩
    · intro i hi
      rcases List.mem_cons.mp hi with rfl | hi
      · exact (le_max_right _ _).trans h1
      · exact h2 i hi
    · rcases h3 with h3 | ⟨i, hi, h3⟩
      · rcases max_choice s.a_max ((sample precord j : K) : WithBot K) with hc | hc
        · left; rw [h3, hc]
        · right; exact ⟨j, List.mem_cons_self _ _, by rw [h3, hc]⟩
      · right; exact ⟨i, List.mem_cons_of_mem _ hi, h3⟩

theorem foldl_accStep_max_abs {K : Type} [LinearOrderedField K] (precord : aSubRecord K)
    (L : List Int) : ∀ s : Sums K,
    (s.a_max_abs ≤ (L.foldl (accStep precord) s).a_max_abs ∧
      ∀ j ∈ L, |sample precord j| ≤ (L.foldl (accStep precord) s).a_max_abs) ∧
    ((L.foldl (accStep precord) s).a_max_abs = s.a_max_abs ∨
      ∃ j ∈ L, (L.foldl (accStep precord) s).a_max_abs = |sample precord j|) := by
  induction L with
  | nil => intro s; simp
  | cons j L ih =>
    intro s
    obtain ⟨⟨h1, h2⟩, h3⟩ := ih (accStep precord s j)
    have hm : (accStep precord s j).a_max_abs = max s.a_max_abs |sample precord j| := by
      simp [accStep, MAX_eq_max, ABS_eq_abs]
    simp only [List.foldl_cons]
    rw [hm] at h1 h3
    refine ⟨⟨(le_max_left _ _).trans h1, ?_⟩, ?_⟩
    · intro i hi
      rcases List.mem_cons.mp hi with rfl | hi
      · exact (le_max_right _ _).trans h1
      · exact h2 i hi
    · rcases h3 with h3 | ⟨i, hi, h3⟩
      · rcases max_choice s.a_max_abs |sample precord j| with hc | hc
        · left; rw [h3, hc]
        · right; exact ⟨j, List.mem_cons_self _ _, by rw [h3, hc]⟩
      · right; exact ⟨i, List.mem_cons_of_mem _ hi, h3⟩

/-! ## The median -/

theorem cmp_double_p_le {K : Type} [LinearOrder K] (d1 d2 : K) :
    cmp_double_p d1 d2 ≤ 0 ↔ d1 ≤ d2 := by
  unfold cmp_double_p
  rcases lt_trichotomy d1 d2 with h | h | h
  · simp [h, h.le]
  · simp [h]
  · simp [h, not_lt.mpr h.le, not_le.mpr h]

theorem qsort_perm {K : Type} [LinearOrder K] (l : List K) : (qsort cmp_double_p l).Perm l :=
  List.perm_insertionSort _ l

theorem qsort_sorted {K : Type} [LinearOrder K] (l : List K) :
    (qsort cmp_double_p l).Sorted (fun x y => x ≤ y) := by
  have hto : IsTotal K (fun p1 p2 : K => cmp_double_p p1 p2 ≤ 0) :=
    ⟨fun a b => by simp only [cmp_double_p_le]; exact le_total a b⟩
  have htr : IsTrans K (fun p1 p2 : K => cmp_double_p p1 p2 ≤ 0) :=
    ⟨fun a b c => by simp only [cmp_double_p_le]; exact le_trans⟩
  have h := @List.sorted_insertionSort K (fun p1 p2 : K => cmp_double_p p1 p2 ≤ 0) _ hto htr l
  exact h.imp (fun hab => (cmp_double_p_le _ _).mp hab)

theorem qsort_eq_sort {K : Type} [LinearOrder K] (l : List K) :
    qsort cmp_double_p l = Multiset.sort (fun x y => x ≤ y) (l : Multiset K) := by
  refine List.eq_of_perm_of_sorted ?_ (qsort_sorted l) (Multiset.sort_sorted _ _)
  have h1 : ((Multiset.sort (fun x y : K => x ≤ y) (l : Multiset K) : List K) : Multiset K)
      = (l : Multiset K) := Multiset.sort_eq _ _
  exact (qsort_perm l).trans (Quotient.exact h1).symm

/-- The copy loop of lines 149-151 leaves the `n` elements from `first` on. -/
theorem copy_loop {K : Type} [LinearOrderedField K] (buf : List K) (first : Nat) (n : Nat)
    (h : first + n ≤ buf.length) :
    forLoop (n : Int) (copyStep buf (first : Int)) 0 (List.replicate n (0 : K)) = .ok ((buf.drop first).take n) := by
  obtain ⟨s1, h1, h2⟩ := forLoop_inv (n : Int) (copyStep buf (first : Int))
    (fun j wl => 0 ≤ j ∧ wl = (buf.drop first).take j.toNat ++ List.replicate (n - j.toNat) 0)
    (by
      rintro j wl hj ⟨h0, rfl⟩
      obtain ⟨k, rfl⟩ := Int.eq_ofNat_of_zero_le h0
      have hk : k < n := by omega
      have hr : readAt buf ((first : Int) + (k : Int)) = .ok (buf.getD (first + k) 0) := by
        have := readAt_ok buf ((first : Int) + (k : Int)) 0 (by omega) (by omega)
        simpa using this
      have hlen : ((buf.drop first).take k).length = k := by
        simp; omega
      have hrep : List.replicate (n - k) (0 : K) = 0 :: List.replicate (n - (k + 1)) 0 := by
        have : n - k = (n - (k + 1)) + 1 := by omega
        rw [this, List.replicate_succ]
      have hget : (buf.drop first)[k]? = some (buf.getD (first + k) 0) := by
        have hlt : first + k < buf.length := by omega
        rw [List.getElem?_drop, List.getD_eq_getElem _ _ hlt, List.getElem?_eq_getElem hlt]
      refine ⟨(buf.drop first).take (k + 1) ++ List.replicate (n - (k + 1)) 0, ?_, by omega, ?_⟩
      · simp only [copyStep, hr]
        have hw : ((k : Int)).toNat = k := by simp
        unfold writeAt
        rw [if_pos ⟨by omega, by simp [hw]; omega⟩, hw]
        congr 1
        rw [List.set_append_right _ _ (by omega), hlen, hrep, Nat.sub_self, List.set_cons_zero,
          List.take_succ, hget]
        simp
      · have : ((k : Int) + 1).toNat = k + 1 := by omega
        rw [this])
    n 0 (List.replicate n (0 : K)) (by simp) (by omega) ⟨le_rfl, by simp⟩
  rw [h1, h2.2]
  simp

theorem calcMedian_eq {K : Type} [LinearOrderedField K] (buf : List K) (first : Int) (n : Int)
    (h0 : 0 ≤ first) (hn : 1 ≤ n) (h : first + n ≤ buf.length) :
    calcMedian n buf first
      = .ok ((qsort cmp_double_p ((buf.drop first.toNat).take n.toNat)).getD (n / 2).toNat 0) := by
  obtain ⟨f, rfl⟩ := Int.eq_ofNat_of_zero_le h0
  obtain ⟨m, rfl⟩ := Int.eq_ofNat_of_zero_le (by omega : 0 ≤ n)
  unfold calcMedian
  have hc := copy_loop buf f m (by omega)
  simp only [Int.toNat_ofNat]
  rw [hc]
  simp only
  rw [Int.tdiv_eq_ediv (by omega) (by omega)]
  apply readAt_ok
  · omega
  · have : (qsort cmp_double_p ((buf.drop f).take m)).length = m := by
      rw [(qsort_perm _).length_eq]; simp; omega
    rw [this]; omega

/-! ## The shuffle -/

theorem length_inUseBelow_le {K : Type} (precord : aSubRecord K) (j : Int)
    (h : precord.c ≤ j) : ((inUseBelow precord j).length : Int) ≤ j - precord.c := by
  have h1 : (inUseBelow precord j).length ≤ (intRange precord.c j).length :=
    List.length_filter_le _ _
  rw [length_intRange] at h1
  omega

/-- The shuffle loop of lines 342-349 moves the in-use samples to the front, in
index order, and leaves the rest of the buffer as it was. -/
theorem shuffle_loop {K : Type} [LinearOrderedField K] (precord : aSubRecord K)
    (hwf : precord.WellFormed) (hc : 0 ≤ precord.c) (hs : 0 ≤ selectedSize precord) :
    forLoop (precord.c + selectedSize precord) (shuffle precord) precord.c
        ((0 : Int), precord.a)
      = .ok (((inUseList precord).length : Int),
          inUseValues precord ++ precord.a.drop (inUseList precord).length) := by
  obtain ⟨s1, h1, h2⟩ := forLoop_inv (precord.c + selectedSize precord) (shuffle precord)
    (fun j s => precord.c ≤ j ∧
      s = (((inUseBelow precord j).length : Int),
            (inUseBelow precord j).map (sample precord)
              ++ precord.a.drop (inUseBelow precord j).length))
    (by
      rintro j s hj ⟨hcj, rfl⟩
      have hN := selectedSize_le precord hc hs
      have hlen := hwf.1
      have ht := length_inUseBelow_le precord j hcj
      refine ⟨_, ?_, by omega, rfl⟩
      unfold shuffle
      rw [IN_USE_eq precord hwf j (by omega), inUseBelow_succ precord j hcj]
      by_cases hu : spec_in_use precord j
      · simp only [hu, decide_True, if_true]
        set t := (inUseBelow precord j).length with htdef
        have htl : t < precord.a.length := by omega
        have hjl : j.toNat < precord.a.length := by omega
        have hr : readAt ((inUseBelow precord j).map (sample precord) ++ precord.a.drop t) j
            = .ok (sample precord j) := by
          have := readAt_ok ((inUseBelow precord j).map (sample precord) ++ precord.a.drop t) j 0
            (by omega) (by simp; omega)
          rw [this]
          congr 1
          rw [List.getD_eq_getElem?_getD, List.getElem?_append_right (by simp; omega),
            List.getElem?_drop]
          simp only [List.length_map]
          have : t + (j.toNat - t) = j.toNat := by omega
          rw [this, sample, List.getD_eq_getElem?_getD]
        rw [hr]
        simp only
        unfold writeAt
        rw [if_pos ⟨by omega, by simp; omega⟩]
        simp only [Int.toNat_ofNat, List.length_append, List.length_singleton, List.map_append,
          List.map_singleton, Nat.cast_add, Nat.cast_one]
        congr 2
        rw [List.set_append_right _ _ (by simp), List.length_map, Nat.sub_self,
          List.drop_eq_getElem_cons htl, List.set_cons_zero]
        simp
      · simp [hu])
    _ precord.c ((0 : Int), precord.a) rfl (by omega)
    ⟨le_rfl, by simp [inUseBelow, intRange_self]⟩
  rw [h1, h2.2]; rfl

theorem take_drop_eq_map {K : Type} [Zero K] (a : List K) (c n : Nat) (h : c + n ≤ a.length) :
    (a.drop c).take n = (intRange (c : Int) ((c : Int) + (n : Int))).map
      (fun j => a.getD j.toNat 0) := by
  induction n with
  | zero => simp [intRange_self]
  | succ n ih =>
    have hlt : c + n < a.length := by omega
    have h1 : ((c : Int) + ((n + 1 : Nat) : Int)) = ((c : Int) + (n : Int)) + 1 := by
      push_cast; ring
    rw [h1, intRange_succ (by omega), List.take_succ, ih (by omega), List.getElem?_drop,
      List.getElem?_eq_getElem hlt]
    have h2 : ((c : Int) + (n : Int)).toNat = c + n := by omega
    simp [h2, List.getElem?_eq_getElem hlt]

theorem length_inUseList_le {K : Type} (precord : aSubRecord K)
    (hs : 0 ≤ selectedSize precord) :
    ((inUseList precord).length : Int) ≤ selectedSize precord := by
  have := length_inUseBelow_le precord (precord.c + selectedSize precord) (by omega)
  unfold inUseList; omega

theorem length_inUseValues {K : Type} [Zero K] (precord : aSubRecord K) :
    (inUseValues precord).length = (inUseList precord).length := by
  simp [inUseValues]

theorem inUseList_eq_of_length {K : Type} (precord : aSubRecord K)
    (hs : 0 ≤ selectedSize precord)
    (h : ¬ ((inUseList precord).length : Int) < selectedSize precord) :
    inUseList precord = intRange precord.c (precord.c + selectedSize precord) := by
  have h1 := length_inUseList_le precord hs
  have h2 : (inUseList precord).length
      = (intRange precord.c (precord.c + selectedSize precord)).length := by
    rw [length_intRange]; omega
  unfold inUseList inUseBelow at h2 ⊢
  exact List.filter_eq_self.mpr (List.filter_length_eq_length.mp h2)

/-- The median stage returns the middle element of the sorted in-use samples and
leaves the buffer `bufferAfter`. -/
theorem medianStage_eq {K : Type} [LinearOrderedField K] (precord : aSubRecord K)
    (hwf : precord.WellFormed) (hc : 0 ≤ precord.c) (hs : 0 ≤ selectedSize precord)
    (hn : inUseList precord ≠ []) :
    medianStage precord precord.c (selectedSize precord) ((inUseList precord).length : Int)
      = .ok ((sortedInUse precord).getD ((inUseList precord).length / 2) 0,
          bufferAfter precord) := by
  have hpos : 1 ≤ (inUseList precord).length := by
    rcases hl : inUseList precord with _ | ⟨x, xs⟩
    · exact absurd hl hn
    · simp
  have hN := selectedSize_le precord hc hs
  have hle := length_inUseList_le precord hs
  have hlen := hwf.1
  have hdiv : (((inUseList precord).length : Int) / 2).toNat = (inUseList precord).length / 2 := by
    omega
  unfold medianStage bufferAfter
  by_cases hlt : ((inUseList precord).length : Int) < selectedSize precord
  · rw [if_pos hlt, if_pos hlt, shuffle_loop precord hwf hc hs]
    simp only
    rw [calcMedian_eq _ 0 _ le_rfl (by omega) (by simp [length_inUseValues])]
    simp only [Int.toNat_zero, List.drop_zero, Int.toNat_ofNat, hdiv]
    rw [List.take_left' (length_inUseValues precord), qsort_eq_sort]
    rfl
  · rw [if_neg hlt, if_neg hlt]
    rw [calcMedian_eq _ precord.c _ hc (by omega) (by omega)]
    simp only [Int.toNat_ofNat, hdiv]
    have hL := inUseList_eq_of_length precord hs hlt
    have htd : (precord.a.drop precord.c.toNat).take (inUseList precord).length
        = inUseValues precord := by
      have h1 := take_drop_eq_map precord.a precord.c.toNat (inUseList precord).length (by omega)
      have h2 : ((precord.c.toNat : Nat) : Int) = precord.c := by omega
      have h3 : ((inUseList precord).length : Int) = selectedSize precord := by omega
      rw [h2, h3, ← hL] at h1
      rw [h1]; rfl
    rw [htd, qsort_eq_sort]
    rfl

theorem finalize_ok {K : Type} [LinearOrderedField K] (sqrt : K → K) (precord : aSubRecord K)
    (s : Sums K) (a_median : K) (buf : List K) (h : 1 ≤ s.actual_size) :
    ∃ l, finalize sqrt precord s a_median buf = .ok l ∧
      FinalizedFrom sqrt precord s a_median buf l := by
  have h1 : (s.actual_size : K) ≠ 0 := by
    have : (0 : K) < (s.actual_size : K) := by exact_mod_cast (by omega : 0 < s.actual_size)
    exact this.ne'
  have h2 : s.actual_size ≥ 2 → (s.actual_size : K) - 1 ≠ 0 := by
    intro h2
    have : (1 : K) < (s.actual_size : K) := by exact_mod_cast (by omega : 1 < s.actual_size)
    exact (sub_pos.mpr this).ne'
  have h3 : (if (s.actual_size : K) * s.xx_sum - s.x_sum * s.x_sum = 0 then (1 : K)
      else (s.actual_size : K) * s.xx_sum - s.x_sum * s.x_sum) ≠ 0 := by
    split_ifs with h0
    · exact one_ne_zero
    · exact h0
  unfold finalize fdiv
  by_cases hge : s.actual_size ≥ 2
  · simp only [if_neg h1, if_pos hge, if_neg (h2 hge), if_neg h3]
    exact ⟨_, rfl, by constructor <;> simp [hge]⟩
  · simp only [if_neg h1, if_neg hge, if_neg h3]
    exact ⟨_, rfl, by constructor <;> simp [hge]⟩

/-! ## The exits of `Waveform_Statistics_Compute` -/

theorem theSums_actual_size {K : Type} [LinearOrderedField K] (precord : aSubRecord K) :
    (theSums precord).actual_size = ((inUseList precord).length : Int) := by
  have := (foldl_accStep_sums precord (inUseList precord) (Sums.init K)).2.2.2.2.2
  simpa [theSums, Sums.init] using this

theorem Compute_tags {K : Type} [LinearOrderedField K] (sqrt : K → K) (precord : aSubRecord K)
    (h : ¬ tagsCorrect precord) :
    Waveform_Statistics_Compute sqrt precord = .error .TypeContractViolation := by
  unfold Waveform_Statistics_Compute
  have : precord.fta ≠ menuFtype.DOUBLE ∨ precord.ftb ≠ menuFtype.LONG ∨
      precord.ftc ≠ menuFtype.LONG := by
    unfold tagsCorrect at h
    by_contra hc
    push_neg at hc
    exact h hc
  rw [if_pos this]

theorem not_bad_tags {K : Type} (precord : aSubRecord K) (h : tagsCorrect precord) :
    ¬ (precord.fta ≠ menuFtype.DOUBLE ∨ precord.ftb ≠ menuFtype.LONG ∨
      precord.ftc ≠ menuFtype.LONG) := by
  obtain ⟨h1, h2, h3⟩ := h
  simp [h1, h2, h3]

theorem Compute_range {K : Type} [LinearOrderedField K] (sqrt : K → K) (precord : aSubRecord K)
    (h : tagsCorrect precord) (hs : selectedSize precord < 1) :
    Waveform_Statistics_Compute sqrt precord = .error .InvalidRange := by
  unfold Waveform_Statistics_Compute
  rw [if_neg (not_bad_tags precord h)]
  simp only
  rw [if_pos hs]

theorem accumulate_neg {K : Type} [LinearOrderedField K] (precord : aSubRecord K)
    (lp : Int) (si : K) (j : Int) (hj : j < 0) (s : Sums K) :
    accumulate precord lp si j s = .error .OutOfRange := by
  unfold accumulate IN_USE
  by_cases h1 : precord.fte = menuFtype.LONG
  · have h2 : ¬ j ≥ (precord.noe : Int) := by omega
    simp [h1, h2, readAt_neg _ j hj]
  · simp [h1, readAt_neg _ j hj]

theorem Compute_neg {K : Type} [LinearOrderedField K] (sqrt : K → K) (precord : aSubRecord K)
    (h : tagsCorrect precord) (hs : 1 ≤ selectedSize precord) (hc : precord.c < 0) :
    Waveform_Statistics_Compute sqrt precord = .error .OutOfRange := by
  unfold Waveform_Statistics_Compute
  rw [if_neg (not_bad_tags precord h)]
  simp only
  rw [if_neg (by omega), forLoop_first_error _ _ _ _ .OutOfRange (by omega)
    (accumulate_neg precord _ _ _ hc _)]

theorem Compute_empty {K : Type} [LinearOrderedField K] (sqrt : K → K) (precord : aSubRecord K)
    (hwf : precord.WellFormed) (h : tagsCorrect precord) (hs : 1 ≤ selectedSize precord)
    (hc : 0 ≤ precord.c) (hn : inUseList precord = []) :
    Waveform_Statistics_Compute sqrt precord = .error .EmptyAfterMask := by
  unfold Waveform_Statistics_Compute
  rw [if_neg (not_bad_tags precord h)]
  simp only
  rw [if_neg (by omega), accumulate_loop precord hwf hc (by omega)]
  simp only
  have := theSums_actual_size precord
  rw [theSums, hn] at this
  rw [hn]
  simp only [List.foldl_nil] at this ⊢
  rw [if_pos (by rw [this]; simp)]

theorem FinalizedFrom.update {K : Type} [LinearOrderedField K] {sqrt : K → K}
    {precord : aSubRecord K} {s : Sums K} {m0 : K} {b0 : List K} {l : Locals K}
    (hf : FinalizedFrom sqrt precord s m0 b0 l) (m : K) (b : List K) :
    FinalizedFrom sqrt precord s m b { l with a_median := m, a_ptr := b } := by
  obtain ⟨h1, h2, h3, h4, h5, h6, h7, h8, h9, h10, _, h12, h13, h14, h15, h16, h17, h18,
    h19, h20, h21, h22, h23, h24, h25, h26, _⟩ := hf
  exact ⟨h1, h2, h3, h4, h5, h6, h7, h8, h9, h10, rfl, h12, h13, h14, h15, h16, h17, h18,
    h19, h20, h21, h22, h23, h24, h25, h26, rfl⟩

theorem Compute_ok {K : Type} [LinearOrderedField K] (sqrt : K → K) (precord : aSubRecord K)
    (hwf : precord.WellFormed) (h : tagsCorrect precord) (hs : 1 ≤ selectedSize precord)
    (hc : 0 ≤ precord.c) (hn : inUseList precord ≠ []) :
    ∃ l, Waveform_Statistics_Compute sqrt precord = .ok l ∧
      FinalizedFrom sqrt precord (theSums precord)
        ((sortedInUse precord).getD ((inUseList precord).length / 2) 0)
        (bufferAfter precord) l := by
  have hpos : 1 ≤ (inUseList precord).length := by
    rcases hl : inUseList precord with _ | ⟨x, xs⟩
    · exact absurd hl hn
    · simp
  have hsz := theSums_actual_size precord
  obtain ⟨l, hl, hf⟩ := finalize_ok sqrt precord (theSums precord) 0 precord.a
    (by rw [hsz]; omega)
  refine ⟨_, ?_, hf.update ((sortedInUse precord).getD ((inUseList precord).length / 2) 0)
    (bufferAfter precord)⟩
  unfold Waveform_Statistics_Compute
  rw [if_neg (not_bad_tags precord h)]
  simp only
  rw [if_neg (by omega), accumulate_loop precord hwf hc (by omega)]
  simp only
  rw [← theSums, if_neg (by rw [hsz]; omega), hl]
  simp only
  rw [hsz, medianStage_eq precord hwf hc (by omega) hn]

/-- A successful run went through every check. -/
theorem Compute_ok_inv {K : Type} [LinearOrderedField K] (sqrt : K → K)
    (precord : aSubRecord K) (hwf : precord.WellFormed) (l : Locals K)
    (hok : Waveform_Statistics_Compute sqrt precord = .ok l) :
    tagsCorrect precord ∧ 1 ≤ selectedSize precord ∧ 0 ≤ precord.c ∧
      inUseList precord ≠ [] ∧
      FinalizedFrom sqrt precord (theSums precord)
        ((sortedInUse precord).getD ((inUseList precord).length / 2) 0)
        (bufferAfter precord) l := by
  by_cases h : tagsCorrect precord
  swap
  · rw [Compute_tags sqrt precord h] at hok; cases hok
  by_cases hs : selectedSize precord < 1
  · rw [Compute_range sqrt precord h hs] at hok; cases hok
  by_cases hc : precord.c < 0
  · rw [Compute_neg sqrt precord h (by omega) hc] at hok; cases hok
  by_cases hn : inUseList precord = []
  · rw [Compute_empty sqrt precord hwf h (by omega) (by omega) hn] at hok; cases hok
  obtain ⟨l1, h1, h2⟩ := Compute_ok sqrt precord hwf h (by omega) (by omega) hn
  rw [h1] at hok
  cases hok
  exact ⟨h, by omega, by omega, hn, h2⟩

/-! ## The exits of `Waveform_Statistics_Process` -/

theorem Process_of_error {K : Type} [LinearOrderedField K] (sqrt : K → K)
    (precord : aSubRecord K) (e : Status)
    (h : Waveform_Statistics_Compute sqrt precord = .error e) :
    Waveform_Statistics_Process sqrt precord = (e, precord) := by
  unfold Waveform_Statistics_Process; rw [h]

theorem Process_of_ok {K : Type} [LinearOrderedField K] (sqrt : K → K)
    (precord : aSubRecord K) (l : Locals K)
    (h : Waveform_Statistics_Compute sqrt precord = .ok l) :
    Waveform_Statistics_Process sqrt precord = (Status.OK, writeOutputs precord l) := by
  unfold Waveform_Statistics_Process; rw [h]

/-! ## The failures a stage can end with -/

theorem readAt_error {α : Type} (buf : List α) (i : Int) (e : Status)
    (h : readAt buf i = .error e) : e = Status.OutOfRange := by
  unfold readAt at h
  split_ifs at h
  · split at h
    · cases h
    · cases h; rfl
  · cases h; rfl

theorem writeAt_error {α : Type} (buf : List α) (i : Int) (v : α) (e : Status)
    (h : writeAt buf i v = .error e) : e = Status.OutOfRange := by
  unfold writeAt at h
  split_ifs at h
  cases h; rfl

theorem IN_USE_error {K : Type} (precord : aSubRecord K) (j : Int) (e : Status)
    (h : IN_USE precord j = .error e) : e = Status.OutOfRange := by
  unfold IN_USE at h
  split_ifs at h
  rcases hr : readAt precord.e j with e1 | m
  · rw [hr] at h; cases h; exact readAt_error _ _ _ hr
  · rw [hr] at h; cases h

theorem accumulate_error {K : Type} [LinearOrderedField K] (precord : aSubRecord K)
    (lp : Int) (si : K) (j : Int) (s : Sums K) (e : Status)
    (h : accumulate precord lp si j s = .error e) : e = Status.OutOfRange := by
  unfold accumulate at h
  rcases hu : IN_USE precord j with e1 | u
  · rw [hu] at h; cases h; exact IN_USE_error _ _ _ hu
  · rw [hu] at h
    cases u
    · cases h
    · rcases hr : readAt precord.a j with e1 | v
      · rw [hr] at h; cases h; exact readAt_error _ _ _ hr
      · rw [hr] at h; cases h

theorem shuffle_error {K : Type} (precord : aSubRecord K) (j : Int) (s : Int × List K)
    (e : Status) (h : shuffle precord j s = .error e) : e = Status.OutOfRange := by
  unfold shuffle at h
  rcases hu : IN_USE precord j with e1 | u
  · rw [hu] at h; cases h; exact IN_USE_error _ _ _ hu
  · rw [hu] at h
    cases u
    · cases h
    · rcases hr : readAt s.2 j with e1 | v
      · rw [hr] at h; cases h; exact readAt_error _ _ _ hr
      · rw [hr] at h
        simp only at h
        rcases hw : writeAt s.2 s.1 v with e1 | b
        · rw [hw] at h; cases h; exact writeAt_error _ _ _ _ hw
        · rw [hw] at h; cases h

theorem copyStep_error {K : Type} (buf : List K) (first j : Int) (wl : List K) (e : Status)
    (h : copyStep buf first j wl = .error e) : e = Status.OutOfRange := by
  unfold copyStep at h
  rcases hr : readAt buf (first + j) with e1 | v
  · rw [hr] at h; cases h; exact readAt_error _ _ _ hr
  · rw [hr] at h; exact writeAt_error _ _ _ _ h

/-- A loop fails only with a failure of its body. -/
theorem forLoop_error {σ : Type} (hi : Int) (body : Int → σ → Except Status σ)
    (P : Status → Prop) (hbody : ∀ j s e, body j s = .error e → P e) :
    ∀ (n : Nat) (lo : Int) (s : σ) (e : Status), (hi - lo).toNat = n →
      forLoop hi body lo s = .error e → P e := by
  intro n
  induction n with
  | zero =>
    intro lo s e hn h
    rw [forLoop, if_neg (by omega)] at h
    cases h
  | succ n ih =>
    intro lo s e hn h
    rw [forLoop, if_pos (by omega)] at h
    split at h
    · rename_i e1 h1
      cases h
      exact hbody _ _ _ h1
    · exact ih (lo + 1) _ e (by omega) h

theorem calcMedian_error {K : Type} [LinearOrderedField K] (n : Int) (buf : List K)
    (first : Int) (e : Status) (h : calcMedian n buf first = .error e) :
    e = Status.OutOfRange := by
  unfold calcMedian at h
  rcases hl : forLoop n (copyStep buf first) 0 (List.replicate n.toNat (0 : K)) with e1 | wl
  · rw [hl] at h; cases h
    exact forLoop_error n (copyStep buf first) (fun e => e = Status.OutOfRange)
      (fun j s e => copyStep_error buf first j s e) _ 0 _ _ rfl hl
  · rw [hl] at h; exact readAt_error _ _ _ h

theorem medianStage_error {K : Type} [LinearOrderedField K] (precord : aSubRecord K)
    (offset size n : Int) (e : Status) (h : medianStage precord offset size n = .error e) :
    e = Status.OutOfRange := by
  unfold medianStage at h
  split_ifs at h
  · rcases hl : forLoop (offset + size) (shuffle precord) offset ((0 : Int), precord.a)
      with e1 | ⟨t, buf⟩
    · rw [hl] at h; cases h
      exact forLoop_error _ (shuffle precord) (fun e => e = Status.OutOfRange)
        (fun j s e => shuffle_error precord j s e) _ _ _ _ rfl hl
    · rw [hl] at h
      simp only at h
      rcases hm : calcMedian n buf 0 with e1 | m
      · rw [hm] at h; cases h; exact calcMedian_error _ _ _ _ hm
      · rw [hm] at h; cases h
  · rcases hm : calcMedian n precord.a offset with e1 | m
    · rw [hm] at h; cases h; exact calcMedian_error _ _ _ _ hm
    · rw [hm] at h; cases h

theorem fdiv_error {K : Type} [Field K] [DecidableEq K] (x y : K) (e : Status)
    (h : fdiv x y = .error e) : e = Status.DivisionByZero := by
  unfold fdiv at h
  split_ifs at h
  cases h; rfl

theorem finalize_error {K : Type} [LinearOrderedField K] (sqrt : K → K)
    (precord : aSubRecord K) (s : Sums K) (m : K) (buf : List K) (e : Status)
    (h : finalize sqrt precord s m buf = .error e) : e = Status.DivisionByZero := by
  unfold finalize at h
  rcases h1 : fdiv s.a_sum (s.actual_size : K) with e1 | a_mean
  · rw [h1] at h; cases h; exact fdiv_error _ _ _ h1
  rw [h1] at h
  rcases h2 : fdiv s.a_squared_sum (s.actual_size : K) with e1 | a_squared_mean
  · rw [h2] at h; cases h; exact fdiv_error _ _ _ h2
  rw [h2] at h
  simp only at h
  rcases h3 : (if s.actual_size ≥ 2 then
      fdiv ((s.actual_size : K) * (a_squared_mean - a_mean * a_mean)) ((s.actual_size : K) - 1)
      else .ok 0) with e1 | sam_variance
  · rw [h3] at h; cases h
    split_ifs at h3
    exact fdiv_error _ _ _ h3
  rw [h3] at h
  simp only at h
  rcases h4 : fdiv ((s.actual_size : K) * s.xa_sum - s.x_sum * s.a_sum)
      (if (s.actual_size : K) * s.xx_sum - s.x_sum * s.x_sum = 0 then 1
        else (s.actual_size : K) * s.xx_sum - s.x_sum * s.x_sum) with e1 | slope
  · rw [h4] at h; cases h; exact fdiv_error _ _ _ h4
  rw [h4] at h
  simp only at h
  rcases h5 : fdiv (s.a_sum * s.xx_sum - s.x_sum * s.xa_sum)
      (if (s.actual_size : K) * s.xx_sum - s.x_sum * s.x_sum = 0 then 1
        else (s.actual_size : K) * s.xx_sum - s.x_sum * s.x_sum) with e1 | intersect
  · rw [h5] at h; cases h; exact fdiv_error _ _ _ h5
  rw [h5] at h
  cases h

/-- C2 at the failing input: samples `[1, 2, 3, 4, 5]`, offset -1, requested size
3. The tags are correct and the offset is negative; `size = min (5 + 1) 3 = 3`
passes the range check, the loop starts at `j = -1` and the run ends in the read
of `a_ptr[-1]`, not with `InvalidRange`. -/
theorem C2_negative_offset_passes_range_check :
    tagsCorrect (recordOf ℝ [1, 2, 3, 4, 5] 3 (-1) menuFtype.DOUBLE [0]) ∧
      (recordOf ℝ [1, 2, 3, 4, 5] 3 (-1) menuFtype.DOUBLE [0]).c < 0 ∧
      selectedSize (recordOf ℝ [1, 2, 3, 4, 5] 3 (-1) menuFtype.DOUBLE [0]) = 3 ∧
      (Waveform_Statistics_Process Real.sqrt
          (recordOf ℝ [1, 2, 3, 4, 5] 3 (-1) menuFtype.DOUBLE [0])).1 = Status.OutOfRange ∧
      (Waveform_Statistics_Process Real.sqrt
          (recordOf ℝ [1, 2, 3, 4, 5] 3 (-1) menuFtype.DOUBLE [0])).1 ≠ Status.InvalidRange := by
  have ht : tagsCorrect (recordOf ℝ [1, 2, 3, 4, 5] 3 (-1) menuFtype.DOUBLE [0]) := by decide
  have hs : selectedSize (recordOf ℝ [1, 2, 3, 4, 5] 3 (-1) menuFtype.DOUBLE [0]) = 3 := by
    decide
  have hc : (recordOf ℝ [1, 2, 3, 4, 5] 3 (-1) menuFtype.DOUBLE [0]).c < 0 := by decide
  have h := Process_of_error Real.sqrt _ _
    (Compute_neg Real.sqrt (recordOf ℝ [1, 2, 3, 4, 5] 3 (-1) menuFtype.DOUBLE [0]) ht
      (by rw [hs]; decide) hc)
  refine ⟨ht, hc, hs, by rw [h], by rw [h]; decide⟩

theorem theSums_a_sum {K : Type} [LinearOrderedField K] (precord : aSubRecord K) :
    (theSums precord).a_sum = ∑ j in inUseSet precord, sample precord j := by
  have := (foldl_accStep_sums precord (inUseList precord) (Sums.init K)).1
  rw [← sum_inUseList]
  simpa [theSums, Sums.init] using this

theorem theSums_a_squared_sum {K : Type} [LinearOrderedField K] (precord : aSubRecord K) :
    (theSums precord).a_squared_sum
      = ∑ j in inUseSet precord, sample precord j * sample precord j := by
  have := (foldl_accStep_sums precord (inUseList precord) (Sums.init K)).2.1
  rw [← sum_inUseList]
  simpa [theSums, Sums.init] using this

theorem theSums_x_sum {K : Type} [LinearOrderedField K] (precord : aSubRecord K) :
    (theSums precord).x_sum = ∑ j in inUseSet precord, abscissa precord j := by
  have := (foldl_accStep_sums precord (inUseList precord) (Sums.init K)).2.2.1
  rw [← sum_inUseList]
  simpa [theSums, Sums.init] using this

theorem theSums_xx_sum {K : Type} [LinearOrderedField K] (precord : aSubRecord K) :
    (theSums precord).xx_sum
      = ∑ j in inUseSet precord, abscissa precord j * abscissa precord j := by
  have := (foldl_accStep_sums precord (inUseList precord) (Sums.init K)).2.2.2.1
  rw [← sum_inUseList]
  simpa [theSums, Sums.init] using this

theorem theSums_xa_sum {K : Type} [LinearOrderedField K] (precord : aSubRecord K) :
    (theSums precord).xa_sum
      = ∑ j in inUseSet precord, abscissa precord j * sample precord j := by
  have := (foldl_accStep_sums precord (inUseList precord) (Sums.init K)).2.2.2.2.1
  rw [← sum_inUseList]
  simpa [theSums, Sums.init] using this

theorem theSums_card {K : Type} [LinearOrderedField K] (precord : aSubRecord K) :
    (theSums precord).actual_size = ((inUseSet precord).card : Int) := by
  rw [theSums_actual_size, length_inUseList]

theorem mem_inUseSet_iff_mem_list {K : Type} (precord : aSubRecord K) (j : Int) :
    j ∈ inUseSet precord ↔ j ∈ inUseList precord := by
  rw [← toFinset_inUseList, List.mem_toFinset]

theorem exists_mem_of_ne_nil {K : Type} (precord : aSubRecord K)
    (hn : inUseList precord ≠ []) : ∃ j, j ∈ inUseList precord := by
  rcases hl : inUseList precord with _ | ⟨x, xs⟩
  · exact absurd hl hn
  · exact ⟨x, List.mem_cons_self _ _⟩

/-- The running minimum ends at the least in-use sample. -/
theorem theSums_a_min {K : Type} [LinearOrderedField K] (precord : aSubRecord K)
    (hn : inUseList precord ≠ []) :
    (∃ j ∈ inUseSet precord, ofTop (theSums precord).a_min = sample precord j) ∧
      ∀ j ∈ inUseSet precord, ofTop (theSums precord).a_min ≤ sample precord j := by
  obtain ⟨⟨_, h2⟩, h3⟩ := foldl_accStep_min precord (inUseList precord) (Sums.init K)
  obtain ⟨j0, hj0⟩ := exists_mem_of_ne_nil precord hn
  have hex : ∃ j ∈ inUseList precord,
      (theSums precord).a_min = ((sample precord j : K) : WithTop K) := by
    rcases h3 with h3 | h3
    · exfalso
      have := h2 j0 hj0
      rw [h3] at this
      simp [Sums.init] at this
    · exact h3
  obtain ⟨j1, hj1, heq⟩ := hex
  have hval : ofTop (theSums precord).a_min = sample precord j1 := by rw [heq]; rfl
  refine ⟨⟨j1, (mem_inUseSet_iff_mem_list _ _).mpr hj1, hval⟩, fun j hj => ?_⟩
  have := h2 j ((mem_inUseSet_iff_mem_list _ _).mp hj)
  rw [← theSums, heq] at this
  rw [hval]
  exact WithTop.coe_le_coe.mp this

/-- The running maximum ends at the greatest in-use sample. -/
theorem theSums_a_max {K : Type} [LinearOrderedField K] (precord : aSubRecord K)
    (hn : inUseList precord ≠ []) :
    (∃ j ∈ inUseSet precord, ofBot (theSums precord).a_max = sample precord j) ∧
      ∀ j ∈ inUseSet precord, sample precord j ≤ ofBot (theSums precord).a_max := by
  obtain ⟨⟨_, h2⟩, h3⟩ := foldl_accStep_max precord (inUseList precord) (Sums.init K)
  obtain ⟨j0, hj0⟩ := exists_mem_of_ne_nil precord hn
  have hex : ∃ j ∈ inUseList precord,
      (theSums precord).a_max = ((sample precord j : K) : WithBot K) := by
    rcases h3 with h3 | h3
    · exfalso
      have := h2 j0 hj0
      rw [h3] at this
      simp [Sums.init] at this
    · exact h3
  obtain ⟨j1, hj1, heq⟩ := hex
  have hval : ofBot (theSums precord).a_max = sample precord j1 := by rw [heq]; rfl
  refine ⟨⟨j1, (mem_inUseSet_iff_mem_list _ _).mpr hj1, hval⟩, fun j hj => ?_⟩
  have := h2 j ((mem_inUseSet_iff_mem_list _ _).mp hj)
  rw [← theSums, heq] at this
  rw [hval]
  exact WithBot.coe_le_coe.mp this

/-- The running maximum of absolute values ends at the greatest `|a_j|`. -/
theorem theSums_a_max_abs {K : Type} [LinearOrderedField K] (precord : aSubRecord K)
    (hn : inUseList precord ≠ []) :
    (∃ j ∈ inUseSet precord, (theSums precord).a_max_abs = |sample precord j|) ∧
      ∀ j ∈ inUseSet precord, |sample precord j| ≤ (theSums precord).a_max_abs := by
  obtain ⟨⟨_, h2⟩, h3⟩ := foldl_accStep_max_abs precord (inUseList precord) (Sums.init K)
  obtain ⟨j0, hj0⟩ := exists_mem_of_ne_nil precord hn
  refine ⟨?_, fun j hj => h2 j ((mem_inUseSet_iff_mem_list _ _).mp hj)⟩
  rcases h3 with h3 | ⟨j1, hj1, heq⟩
  · refine ⟨j0, (mem_inUseSet_iff_mem_list _ _).mpr hj0, ?_⟩
    have h4 := h2 j0 hj0
    rw [← theSums] at h3 h4
    have h5 : (theSums precord).a_max_abs = 0 := by rw [h3]; rfl
    rw [h5] at h4 ⊢
    exact (le_antisymm h4 (abs_nonneg _)).symm
  · exact ⟨j1, (mem_inUseSet_iff_mem_list _ _).mpr hj1, heq⟩

theorem inUseSet_card_pos {K : Type} (precord : aSubRecord K) (hn : inUseList precord ≠ []) :
    0 < (inUseSet precord).card := by
  rw [← length_inUseList]
  exact List.length_pos.mpr hn

/-! ## Mean, extrema and sum -/

/-- C4: after a successful run on a well-formed record, `a_min`, `a_max` and `a_sum`
are the minimum, the maximum and the sum of the in-use samples, the count is the
number of in-use samples, and `a_min ≤ a_mean ≤ a_max` and
`a_sum = a_mean * count` (over any linear ordered field, so over the reals). -/
theorem C4_min_le_mean_le_max_and_sum {K : Type} [LinearOrderedField K] (sqrt : K → K)
    (precord : aSubRecord K) (hwf : precord.WellFormed) (l : Locals K)
    (hok : Waveform_Statistics_Compute sqrt precord = .ok l) :
    ((∃ j ∈ inUseSet precord, l.a_min = sample precord j) ∧
      ∀ j ∈ inUseSet precord, l.a_min ≤ sample precord j) ∧
    ((∃ j ∈ inUseSet precord, l.a_max = sample precord j) ∧
      ∀ j ∈ inUseSet precord, sample precord j ≤ l.a_max) ∧
    l.a_sum = ∑ j in inUseSet precord, sample precord j ∧
    l.actual_size = ((inUseSet precord).card : Int) ∧
    l.a_min ≤ l.a_mean ∧ l.a_mean ≤ l.a_max ∧
    l.a_sum = l.a_mean * (l.actual_size : K) := by
  obtain ⟨_, _, _, hn, hf⟩ := Compute_ok_inv sqrt precord hwf l hok
  have hmin := theSums_a_min precord hn
  have hmax := theSums_a_max precord hn
  have hcard := inUseSet_card_pos precord hn
  have hcK : (0 : K) < ((inUseSet precord).card : K) := by exact_mod_cast hcard
  have hsz : (l.actual_size : K) = ((inUseSet precord).card : K) := by
    rw [hf.actual_size, theSums_card]; simp
  have hmean : l.a_mean = (∑ j in inUseSet precord, sample precord j)
      / ((inUseSet precord).card : K) := by
    rw [hf.a_mean, theSums_a_sum, theSums_card]; simp
  rw [← hf.a_min] at hmin
  rw [← hf.a_max] at hmax
  refine ⟨hmin, hmax, by rw [hf.a_sum, theSums_a_sum],
    by rw [hf.actual_size, theSums_card], ?_, ?_, ?_⟩
  · rw [hmean, le_div_iff₀ hcK]
    have := Finset.card_nsmul_le_sum (inUseSet precord) (sample precord) l.a_min hmin.2
    rw [nsmul_eq_mul] at this
    linarith
  · rw [hmean, div_le_iff₀ hcK]
    have := Finset.sum_le_card_nsmul (inUseSet precord) (sample precord) l.a_max hmax.2
    rw [nsmul_eq_mul] at this
    linarith
  · rw [hsz, hmean, hf.a_sum, theSums_a_sum, div_mul_cancel₀ _ hcK.ne']

/-- C4 at the record with samples `[1, 2, 3, 4, 5]`, the whole window and no mask. -/
theorem C4_min_le_mean_le_max_witness :
    (recordOf ℚ [1, 2, 3, 4, 5] 5 0 menuFtype.DOUBLE [0]).WellFormed ∧
      ∃ l, Waveform_Statistics_Compute id (recordOf ℚ [1, 2, 3, 4, 5] 5 0 menuFtype.DOUBLE [0])
          = .ok l ∧
        l.a_min ≤ l.a_mean ∧ l.a_mean ≤ l.a_max ∧ l.a_sum = l.a_mean * (l.actual_size : ℚ) := by
  obtain ⟨l, hl, _⟩ := Compute_ok id (recordOf ℚ [1, 2, 3, 4, 5] 5 0 menuFtype.DOUBLE [0])
    (by decide) (by decide) (by decide) (by decide) (by decide)
  have h := C4_min_le_mean_le_max_and_sum id
    (recordOf ℚ [1, 2, 3, 4, 5] 5 0 menuFtype.DOUBLE [0]) (by decide) l hl
  exact ⟨by decide, l, hl, h.2.2.2.2.1, h.2.2.2.2.2.1, h.2.2.2.2.2.2⟩

/-! ## The median -/

theorem inUseSet_val {K : Type} (precord : aSubRecord K) :
    (inUseSet precord).val = ((inUseList precord : List Int) : Multiset Int) := by
  rw [← toFinset_inUseList, List.toFinset_val, (nodup_inUseList precord).dedup]

theorem sortedInUse_eq {K : Type} [LinearOrderedField K] (precord : aSubRecord K) :
    sortedInUse precord
      = Multiset.sort (fun x y => x ≤ y) ((inUseSet precord).val.map (sample precord)) := by
  rw [inUseSet_val, Multiset.map_coe]; rfl

theorem length_sortedInUse {K : Type} [LinearOrderedField K] (precord : aSubRecord K) :
    (sortedInUse precord).length = (inUseSet precord).card := by
  rw [sortedInUse, Multiset.length_sort, Multiset.coe_card, length_inUseValues,
    length_inUseList]

theorem mem_sortedInUse {K : Type} [LinearOrderedField K] (precord : aSubRecord K) (v : K) :
    v ∈ sortedInUse precord ↔ ∃ j ∈ inUseSet precord, sample precord j = v := by
  rw [sortedInUse, Multiset.mem_sort, Multiset.mem_coe, inUseValues, List.mem_map]
  simp only [mem_inUseSet_iff_mem_list]

/-- C6: after a successful run on a well-formed record with `n` in-use samples, the
median is the element at index `n / 2` of the ascending sort of the multiset of
the in-use samples of the record as it was before the call, whether or not samples
were masked out; it lies between `a_min` and `a_max`, and for even `n` it is the
upper of the two middle elements (the element at index `n / 2 - 1` is below it). -/
theorem C6_median_is_upper_middle_of_sorted {K : Type} [LinearOrderedField K] (sqrt : K → K)
    (precord : aSubRecord K) (hwf : precord.WellFormed) (l : Locals K)
    (hok : Waveform_Statistics_Compute sqrt precord = .ok l) :
    0 ≤ precord.c ∧
    l.actual_size = ((inUseSet precord).card : Int) ∧
    (Multiset.sort (fun x y => x ≤ y) ((inUseSet precord).val.map (sample precord)))[
        (inUseSet precord).card / 2]? = some l.a_median ∧
    l.a_min ≤ l.a_median ∧ l.a_median ≤ l.a_max ∧
    (∀ v, (inUseSet precord).card % 2 = 0 →
      (Multiset.sort (fun x y => x ≤ y) ((inUseSet precord).val.map (sample precord)))[
        (inUseSet precord).card / 2 - 1]? = some v → v ≤ l.a_median) := by
  obtain ⟨_, _, hc, hn, hf⟩ := Compute_ok_inv sqrt precord hwf l hok
  have hcard := inUseSet_card_pos precord hn
  have hlen := length_sortedInUse precord
  have hlt : (inUseSet precord).card / 2 < (sortedInUse precord).length := by
    rw [hlen]; omega
  have hmed : l.a_median = (sortedInUse precord)[(inUseSet precord).card / 2] := by
    rw [hf.a_median, length_inUseList, List.getD_eq_getElem _ _ hlt]
  have hmem : l.a_median ∈ sortedInUse precord := by
    rw [hmed]; exact List.getElem_mem _
  obtain ⟨j, hj, hjv⟩ := (mem_sortedInUse precord _).mp hmem
  have hmin := (theSums_a_min precord hn).2 j hj
  have hmax := (theSums_a_max precord hn).2 j hj
  rw [← hf.a_min, hjv] at hmin
  rw [← hf.a_max, hjv] at hmax
  rw [← sortedInUse_eq]
  refine ⟨hc, by rw [hf.actual_size, theSums_card], ?_, hmin, hmax, fun v _ hv => ?_⟩
  · rw [List.getElem?_eq_getElem hlt, hmed]
  · have hlt1 : (inUseSet precord).card / 2 - 1 < (sortedInUse precord).length := by omega
    rw [List.getElem?_eq_getElem hlt1] at hv
    cases hv
    rw [hmed]
    have hs : (sortedInUse precord).Sorted (fun x y => x ≤ y) := Multiset.sort_sorted _ _
    exact hs.rel_get_of_le (a := ⟨_, hlt1⟩) (b := ⟨_, hlt⟩) (by simp)

/-- C6 at the record with samples `[1, 2, 3, 4, 5]` and mask `[1, 0, 1, 0, 1]`, where
samples are masked out and the buffer is compacted: the median lies between the
minimum and the maximum. -/
theorem C6_median_witness :
    (recordOf ℚ [1, 2, 3, 4, 5] 5 0 menuFtype.LONG [1, 0, 1, 0, 1]).WellFormed ∧
      ∃ l, Waveform_Statistics_Compute id
          (recordOf ℚ [1, 2, 3, 4, 5] 5 0 menuFtype.LONG [1, 0, 1, 0, 1]) = .ok l ∧
        l.a_min ≤ l.a_median ∧ l.a_median ≤ l.a_max := by
  obtain ⟨l, hl, _⟩ := Compute_ok id
    (recordOf ℚ [1, 2, 3, 4, 5] 5 0 menuFtype.LONG [1, 0, 1, 0, 1])
    (by decide) (by decide) (by decide) (by decide) (by decide)
  have h := C6_median_is_upper_middle_of_sorted id
    (recordOf ℚ [1, 2, 3, 4, 5] 5 0 menuFtype.LONG [1, 0, 1, 0, 1]) (by decide) l hl
  exact ⟨by decide, l, hl, h.2.2.2.1, h.2.2.2.2.1⟩

/-! ## The same run on transformed samples -/

theorem inUseList_mapSamples {K : Type} (f : K → K) (precord : aSubRecord K) :
    inUseList (mapSamples f precord) = inUseList precord := rfl

theorem inUseSet_mapSamples {K : Type} (f : K → K) (precord : aSubRecord K) :
    inUseSet (mapSamples f precord) = inUseSet precord := rfl

theorem abscissa_mapSamples {K : Type} [LinearOrderedField K] (f : K → K)
    (precord : aSubRecord K) (j : Int) :
    abscissa (mapSamples f precord) j = abscissa precord j := rfl

theorem wellFormed_mapSamples {K : Type} (f : K → K) (precord : aSubRecord K)
    (hwf : precord.WellFormed) : (mapSamples f precord).WellFormed := by
  refine ⟨?_, hwf.2⟩
  show (precord.a.map f).length = precord.noa
  rw [List.length_map]; exact hwf.1

theorem sample_mapSamples {K : Type} [Zero K] (f : K → K) (precord : aSubRecord K) (j : Int)
    (h : j.toNat < precord.a.length) :
    sample (mapSamples f precord) j = f (sample precord j) := by
  show (precord.a.map f).getD j.toNat 0 = f (precord.a.getD j.toNat 0)
  rw [List.getD_eq_getElem _ _ (by rw [List.length_map]; exact h), List.getD_eq_getElem _ _ h,
    List.getElem_map]

theorem inUse_index_lt {K : Type} (precord : aSubRecord K) (hwf : precord.WellFormed)
    (hc : 0 ≤ precord.c) (j : Int) (hj : j ∈ inUseSet precord) :
    j.toNat < precord.a.length := by
  have h1 := (mem_inUseList precord j).mp ((mem_inUseSet_iff_mem_list precord j).mp hj)
  have h2 := selectedSize_le precord hc (by omega)
  have h3 := hwf.1
  omega

theorem sample_mapSamples_of_mem {K : Type} [Zero K] (f : K → K) (precord : aSubRecord K)
    (hwf : precord.WellFormed) (hc : 0 ≤ precord.c) (j : Int) (hj : j ∈ inUseSet precord) :
    sample (mapSamples f precord) j = f (sample precord j) :=
  sample_mapSamples f precord j (inUse_index_lt precord hwf hc j hj)

/-- A run that succeeds on a record succeeds on the record with transformed samples. -/
theorem Compute_mapSamples {K : Type} [LinearOrderedField K] (sqrt : K → K) (f : K → K)
    (precord : aSubRecord K) (hwf : precord.WellFormed) (l : Locals K)
    (hok : Waveform_Statistics_Compute sqrt precord = .ok l) :
    ∃ l1, Waveform_Statistics_Compute sqrt (mapSamples f precord) = .ok l1 ∧
      FinalizedFrom sqrt (mapSamples f precord) (theSums (mapSamples f precord))
        ((sortedInUse (mapSamples f precord)).getD ((inUseList precord).length / 2) 0)
        (bufferAfter (mapSamples f precord)) l1 := by
  obtain ⟨ht, hs, hc, hn, _⟩ := Compute_ok_inv sqrt precord hwf l hok
  exact Compute_ok sqrt (mapSamples f precord) (wellFormed_mapSamples f precord hwf) ht hs hc hn

theorem sum_mapSamples {K : Type} [LinearOrderedField K] (f : K → K) (precord : aSubRecord K)
    (hwf : precord.WellFormed) (hc : 0 ≤ precord.c) (g : Int → K → K) :
    ∑ j in inUseSet precord, g j (sample (mapSamples f precord) j)
      = ∑ j in inUseSet precord, g j (f (sample precord j)) :=
  Finset.sum_congr rfl (fun j hj => by rw [sample_mapSamples_of_mem f precord hwf hc j hj])

/-! ## The least-squares denominator -/

theorem sum_sq_diff {ι K : Type} [LinearOrderedField K] (s : Finset ι) (x : ι → K) :
    ∑ i in s, ∑ j in s, (x i - x j) ^ 2
      = 2 * ((s.card : K) * ∑ i in s, x i * x i - (∑ i in s, x i) * (∑ i in s, x i)) := by
  have h1 : ∀ i ∈ s, ∑ j in s, (x i - x j) ^ 2
      = (s.card : K) * (x i * x i) - 2 * x i * (∑ j in s, x j) + ∑ j in s, x j * x j := by
    intro i _
    have : ∀ j ∈ s, (x i - x j) ^ 2 = x i * x i - 2 * x i * x j + x j * x j := by
      intro j _; ring
    rw [Finset.sum_congr rfl this, Finset.sum_add_distrib, Finset.sum_sub_distrib,
      Finset.sum_const, nsmul_eq_mul, ← Finset.mul_sum]
  rw [Finset.sum_congr rfl h1, Finset.sum_add_distrib, Finset.sum_sub_distrib,
    Finset.sum_const, nsmul_eq_mul, ← Finset.mul_sum, ← Finset.sum_mul, ← Finset.mul_sum]
  ring

theorem delta_nonneg {ι K : Type} [LinearOrderedField K] (s : Finset ι) (x : ι → K) :
    0 ≤ (s.card : K) * ∑ i in s, x i * x i - (∑ i in s, x i) * (∑ i in s, x i) := by
  have h := sum_sq_diff s x
  have h2 : 0 ≤ ∑ i in s, ∑ j in s, (x i - x j) ^ 2 :=
    Finset.sum_nonneg (fun i _ => Finset.sum_nonneg (fun j _ => sq_nonneg _))
  linarith

theorem delta_pos {ι K : Type} [LinearOrderedField K] (s : Finset ι) (x : ι → K)
    (hinj : ∀ i ∈ s, ∀ j ∈ s, x i = x j → i = j) (h2 : 2 ≤ s.card) :
    0 < (s.card : K) * ∑ i in s, x i * x i - (∑ i in s, x i) * (∑ i in s, x i) := by
  have h := sum_sq_diff s x
  obtain ⟨a, ha, b, hb, hab⟩ := Finset.one_lt_card.mp (by omega : 1 < s.card)
  have hpos : 0 < ∑ i in s, ∑ j in s, (x i - x j) ^ 2 := by
    refine Finset.sum_pos' (fun i _ => Finset.sum_nonneg (fun j _ => sq_nonneg _)) ⟨a, ha, ?_⟩
    refine Finset.sum_pos' (fun j _ => sq_nonneg _) ⟨b, hb, ?_⟩
    have : x a - x b ≠ 0 := fun h0 => hab (hinj a ha b hb (sub_eq_zero.mp h0))
    positivity
  linarith

theorem sampleInterval_ne_zero {K : Type} [LinearOrderedField K] (precord : aSubRecord K) :
    sampleInterval precord ≠ 0 := by
  unfold sampleInterval
  split_ifs with h1 h2
  · exact one_ne_zero
  · exact h2
  · exact one_ne_zero

theorem abscissa_injective {K : Type} [LinearOrderedField K] (precord : aSubRecord K)
    (i j : Int) (h : abscissa precord i = abscissa precord j) : i = j := by
  unfold abscissa at h
  have h1 := mul_right_cancel₀ (sampleInterval_ne_zero precord) h
  have h2 : i - (precord.c + selectedSize precord - 1) = j - (precord.c + selectedSize precord - 1) :=
    Int.cast_injective h1
  omega

/-- With two or more in-use samples the denominator `n * xx_sum - x_sum * x_sum` is
positive. -/
theorem theSums_delta_pos {K : Type} [LinearOrderedField K] (precord : aSubRecord K)
    (h2 : 2 ≤ (inUseSet precord).card) :
    0 < ((theSums precord).actual_size : K) * (theSums precord).xx_sum
      - (theSums precord).x_sum * (theSums precord).x_sum := by
  rw [theSums_card, theSums_xx_sum, theSums_x_sum]
  have := delta_pos (inUseSet precord) (abscissa precord)
    (fun i _ j _ h => abscissa_injective precord i j h) h2
  simpa using this

/-- With one in-use sample the denominator is zero and so is the numerator of the
intercept. -/
theorem theSums_single {K : Type} [LinearOrderedField K] (precord : aSubRecord K)
    (h1 : (inUseSet precord).card = 1) :
    ((theSums precord).actual_size : K) * (theSums precord).xx_sum
      - (theSums precord).x_sum * (theSums precord).x_sum = 0 ∧
    (theSums precord).a_sum * (theSums precord).xx_sum
      - (theSums precord).x_sum * (theSums precord).xa_sum = 0 := by
  obtain ⟨j, hj⟩ := Finset.card_eq_one.mp h1
  rw [theSums_card, theSums_xx_sum, theSums_x_sum, theSums_a_sum, theSums_xa_sum, hj]
  simp only [Finset.sum_singleton, Finset.card_singleton]
  constructor
  · push_cast; ring
  · ring

/-! ## The least-squares fit -/

theorem normal_equations {K : Type} [LinearOrderedField K] (n Sx Sxx Sxa Sa : K)
    (hD : n * Sxx - Sx * Sx ≠ 0) :
    (n * Sxa - Sx * Sa) / (n * Sxx - Sx * Sx) * Sxx
        + (Sa * Sxx - Sx * Sxa) / (n * Sxx - Sx * Sx) * Sx = Sxa ∧
    (n * Sxa - Sx * Sa) / (n * Sxx - Sx * Sx) * Sx
        + (Sa * Sxx - Sx * Sxa) / (n * Sxx - Sx * Sx) * n = Sa := by
  constructor
  · field_simp; ring
  · field_simp; ring

theorem residual_expansion {ι K : Type} [LinearOrderedField K] (s : Finset ι) (a x : ι → K)
    (m c : K) :
    ∑ j in s, (a j - (m * x j + c)) ^ 2
      = ∑ j in s, a j * a j - 2 * m * ∑ j in s, x j * a j - 2 * c * ∑ j in s, a j
        + m ^ 2 * ∑ j in s, x j * x j + 2 * m * c * ∑ j in s, x j + (s.card : K) * c ^ 2 := by
  have : ∀ j ∈ s, (a j - (m * x j + c)) ^ 2
      = a j * a j - 2 * m * (x j * a j) - 2 * c * a j + m ^ 2 * (x j * x j)
        + 2 * m * c * x j + c ^ 2 := by
    intro j _; ring
  rw [Finset.sum_congr rfl this]
  simp only [Finset.sum_add_distrib, Finset.sum_sub_distrib, ← Finset.mul_sum,
    Finset.sum_const, nsmul_eq_mul]

theorem quadratic_form_nonneg {K : Type} [LinearOrderedField K] (n Sx Sxx u v : K)
    (hn : 0 < n) (hD : 0 ≤ n * Sxx - Sx * Sx) :
    0 ≤ u ^ 2 * Sxx + 2 * u * v * Sx + n * v ^ 2 := by
  have key : n * (u ^ 2 * Sxx + 2 * u * v * Sx + n * v ^ 2)
      = (n * v + u * Sx) ^ 2 + u ^ 2 * (n * Sxx - Sx * Sx) := by ring
  have h1 : 0 ≤ n * (u ^ 2 * Sxx + 2 * u * v * Sx + n * v ^ 2) := by
    rw [key]; positivity
  exact (mul_nonneg_iff_of_pos_left hn).mp h1

/-- What a successful run with two or more in-use samples leaves in `delta`,
`slope` and `intersect`. -/
theorem fit_of_two {K : Type} [LinearOrderedField K] (sqrt : K → K) (precord : aSubRecord K)
    (s : Sums K) (m : K) (buf : List K) (l : Locals K)
    (hf : FinalizedFrom sqrt precord s m buf l)
    (hD : (s.actual_size : K) * s.xx_sum - s.x_sum * s.x_sum ≠ 0) :
    l.delta = (s.actual_size : K) * s.xx_sum - s.x_sum * s.x_sum ∧
    l.slope = ((s.actual_size : K) * s.xa_sum - s.x_sum * s.a_sum)
      / ((s.actual_size : K) * s.xx_sum - s.x_sum * s.x_sum) ∧
    l.intersect = (s.a_sum * s.xx_sum - s.x_sum * s.xa_sum)
      / ((s.actual_size : K) * s.xx_sum - s.x_sum * s.x_sum) := by
  have hd : l.delta = (s.actual_size : K) * s.xx_sum - s.x_sum * s.x_sum := by
    rw [hf.delta, if_neg hD]
  exact ⟨hd, by rw [hf.slope, hd], by rw [hf.intersect, hd]⟩

/-- C5: after a successful run on a well-formed record with two or more in-use
samples, with `x_j = (j - last_point) * interval` and
`last_point = offset + size - 1`, the pair `(slope, intersect)` minimises the sum
over the in-use `j` of `(a_j - (m * x_j + c)) ^ 2` over all `m` and `c`; and if the
in-use samples lie on a line `a_j = m * x_j + c` then `slope = m` and
`intersect = c` (over any linear ordered field, so over the reals). -/
theorem C5_slope_intercept_least_squares {K : Type} [LinearOrderedField K] (sqrt : K → K)
    (precord : aSubRecord K) (hwf : precord.WellFormed) (l : Locals K)
    (hok : Waveform_Statistics_Compute sqrt precord = .ok l) (h2 : 2 ≤ l.actual_size) :
    l.last_point = l.offset + l.size - 1 ∧
    l.offset = precord.c ∧
    l.size = min ((precord.noa : Int) - precord.c) precord.b ∧
    (∀ m1 c1 : K,
      ∑ j in inUseSet precord,
          (sample precord j
            - (l.slope * (((j - l.last_point : Int) : K) * l.sample_interval) + l.intersect)) ^ 2
        ≤ ∑ j in inUseSet precord,
          (sample precord j
            - (m1 * (((j - l.last_point : Int) : K) * l.sample_interval) + c1)) ^ 2) ∧
    (∀ m c : K,
      (∀ j ∈ inUseSet precord,
        sample precord j = m * (((j - l.last_point : Int) : K) * l.sample_interval) + c) →
      l.slope = m ∧ l.intersect = c) := by
  obtain ⟨_, hsz, hoff, hn, hf⟩ := Compute_ok_inv sqrt precord hwf l hok
  have hx : ∀ j : Int, ((j - l.last_point : Int) : K) * l.sample_interval = abscissa precord j := by
    intro j; rw [hf.last_point, hf.sample_interval]; rfl
  simp only [hx]
  have hcard2 : 2 ≤ (inUseSet precord).card := by
    have := hf.actual_size
    rw [theSums_card] at this
    omega
  have hDpos := theSums_delta_pos precord hcard2
  obtain ⟨_, hslope, hicpt⟩ := fit_of_two sqrt precord _ _ _ l hf hDpos.ne'
  have hne := normal_equations ((theSums precord).actual_size : K) (theSums precord).x_sum
    (theSums precord).xx_sum (theSums precord).xa_sum (theSums precord).a_sum hDpos.ne'
  rw [← hslope, ← hicpt] at hne
  have hnK : ((theSums precord).actual_size : K) = ((inUseSet precord).card : K) := by
    rw [theSums_card]; simp
  have hnpos : (0 : K) < ((inUseSet precord).card : K) := by
    have : 0 < (inUseSet precord).card := by omega
    exact_mod_cast this
  rw [hnK, theSums_x_sum, theSums_xx_sum, theSums_xa_sum, theSums_a_sum] at hne
  rw [hnK, theSums_x_sum, theSums_xx_sum] at hDpos
  obtain ⟨hN1, hN2⟩ := hne
  refine ⟨by rw [hf.last_point, hf.offset, hf.size], hf.offset,
    by rw [hf.size, selectedSize_eq precord hoff (by omega)], fun m1 c1 => ?_,
    fun m c hline => ?_⟩
  · rw [residual_expansion, residual_expansion]
    have hq := quadratic_form_nonneg ((inUseSet precord).card : K)
      (∑ j in inUseSet precord, abscissa precord j)
      (∑ j in inUseSet precord, abscissa precord j * abscissa precord j)
      (m1 - l.slope) (c1 - l.intersect) hnpos hDpos.le
    rw [← hN1, ← hN2]
    nlinarith [hq]
  · have hSa : ∑ j in inUseSet precord, sample precord j
        = m * ∑ j in inUseSet precord, abscissa precord j + ((inUseSet precord).card : K) * c := by
      rw [Finset.sum_congr rfl hline, Finset.sum_add_distrib, ← Finset.mul_sum,
        Finset.sum_const, nsmul_eq_mul]
    have hSxa : ∑ j in inUseSet precord, abscissa precord j * sample precord j
        = m * ∑ j in inUseSet precord, abscissa precord j * abscissa precord j
          + c * ∑ j in inUseSet precord, abscissa precord j := by
      have : ∀ j ∈ inUseSet precord, abscissa precord j * sample precord j
          = m * (abscissa precord j * abscissa precord j) + c * abscissa precord j := by
        intro j hj; rw [hline j hj]; ring
      rw [Finset.sum_congr rfl this, Finset.sum_add_distrib, ← Finset.mul_sum,
        ← Finset.mul_sum]
    rw [hslope, hicpt, hnK, theSums_x_sum, theSums_xx_sum, theSums_xa_sum, theSums_a_sum,
      hSa, hSxa]
    constructor
    · rw [div_eq_iff hDpos.ne']; ring
    · rw [div_eq_iff hDpos.ne']; ring

/-- C5 at the record with samples `[1, 2, 3, 4, 5]`, the whole window, no mask and
interval 1, whose samples lie on the line `a_j = 1 * x_j + 5`: the run reports
slope 1 and intercept 5. -/
theorem C5_least_squares_witness :
    (recordOf ℚ [1, 2, 3, 4, 5] 5 0 menuFtype.DOUBLE [0]).WellFormed ∧
      ∃ l, Waveform_Statistics_Compute id (recordOf ℚ [1, 2, 3, 4, 5] 5 0 menuFtype.DOUBLE [0])
          = .ok l ∧ 2 ≤ l.actual_size ∧ l.slope = 1 ∧ l.intersect = 5 := by
  obtain ⟨l, hl, hf⟩ := Compute_ok id (recordOf ℚ [1, 2, 3, 4, 5] 5 0 menuFtype.DOUBLE [0])
    (by decide) (by decide) (by decide) (by decide) (by decide)
  have h2 : 2 ≤ l.actual_size := by
    rw [hf.actual_size, theSums_card]; decide
  have hlp : l.last_point = 4 := by rw [hf.last_point]; decide
  have hsi : l.sample_interval = 1 := by
    rw [hf.sample_interval]; simp [sampleInterval, recordOf]
  have h := (C5_slope_intercept_least_squares id
    (recordOf ℚ [1, 2, 3, 4, 5] 5 0 menuFtype.DOUBLE [0]) (by decide) l hl h2).2.2.2.2 1 5
    (by
      intro j hj
      have hj1 : 0 ≤ j ∧ j < 5 := by
        have := (Finset.mem_filter.mp hj).1
        rw [window, Finset.mem_Ico] at this
        have hs : selectedSize (recordOf ℚ [1, 2, 3, 4, 5] 5 0 menuFtype.DOUBLE [0]) = 5 := by
          decide
        rw [hs] at this
        exact this
      rw [hlp, hsi]
      obtain ⟨h0, h5⟩ := hj1
      interval_cases j <;> simp [sample, recordOf] <;> norm_num)
  exact ⟨by decide, l, hl, h2, h.1, h.2⟩

/-! ## A single sample -/

/-- A record holding the single sample `v`, with offset 0, requested size 1 and no
mask: what the run leaves. -/
theorem single_sample_run {K : Type} [LinearOrderedField K] (sqrt : K → K)
    (precord : aSubRecord K) (v : K) (htags : tagsCorrect precord) (ha : precord.a = [v])
    (hnoa : precord.noa = 1) (hb : precord.b = 1) (hc : precord.c = 0)
    (hmask : precord.fte ≠ menuFtype.LONG) :
    ∃ l, Waveform_Statistics_Compute sqrt precord = .ok l ∧
      (Waveform_Statistics_Process sqrt precord).1 = Status.OK ∧
      l.actual_size = 1 ∧
      (l.actual_size : K) * l.xx_sum - l.x_sum * l.x_sum = 0 ∧ l.delta = 1 ∧
      l.slope = 0 ∧ l.intersect = 0 ∧ l.a_mean = v := by
  have hwf : precord.WellFormed := ⟨by rw [ha, hnoa]; rfl, fun h => absurd h hmask⟩
  have hsize : selectedSize precord = 1 := by
    rw [selectedSize_eq32, hnoa, hb, hc]; decide
  have hset : inUseSet precord = {0} := by
    ext j
    simp only [inUseSet, window, Finset.mem_filter, Finset.mem_Ico, Finset.mem_singleton,
      hc, hsize, spec_in_use]
    constructor
    · rintro ⟨h, _⟩; omega
    · rintro rfl; exact ⟨by omega, Or.inl hmask⟩
  have hn : inUseList precord ≠ [] := by
    intro h
    have := toFinset_inUseList precord
    rw [h, hset] at this
    exact Finset.singleton_ne_empty (0 : Int) (by rw [← this]; rfl)
  obtain ⟨l, hl, hf⟩ := Compute_ok sqrt precord hwf htags (by omega) (by omega) hn
  have hcard : (inUseSet precord).card = 1 := by rw [hset]; rfl
  obtain ⟨hd0, hi0⟩ := theSums_single precord hcard
  have hx0 : abscissa precord 0 = 0 := by
    simp [abscissa, hc, hsize]
  have hxs : (theSums precord).x_sum = 0 := by
    rw [theSums_x_sum, hset, Finset.sum_singleton, hx0]
  have hxa : (theSums precord).xa_sum = 0 := by
    rw [theSums_xa_sum, hset, Finset.sum_singleton, hx0, zero_mul]
  have hdelta : l.delta = 1 := by rw [hf.delta, if_pos hd0]
  have hsz : l.actual_size = 1 := by rw [hf.actual_size, theSums_card, hcard]; rfl
  refine ⟨l, hl, by rw [Process_of_ok sqrt precord l hl], hsz, ?_, hdelta, ?_, ?_, ?_⟩
  · rw [hf.actual_size, hf.xx_sum, hf.x_sum]; exact hd0
  · rw [hf.slope, hdelta, hxs, hxa]; simp
  · rw [hf.intersect, hdelta, hi0]; simp
  · rw [hf.a_mean, theSums_a_sum, theSums_card, hcard, hset, Finset.sum_singleton]
    simp [sample, ha]

/-- C7, as amended: for the record holding the single sample `v`, with offset 0,
requested size 1 and no mask, the run succeeds with count 1, the denominator is 0
and is replaced by 1, and the run reports slope 0 and intercept 0 (the mean is
`v`). -/
theorem C7_single_sample_slope_zero_intercept_zero {K : Type} [LinearOrderedField K]
    (sqrt : K → K) (precord : aSubRecord K) (v : K) (htags : tagsCorrect precord)
    (ha : precord.a = [v]) (hnoa : precord.noa = 1) (hb : precord.b = 1) (hc : precord.c = 0)
    (hmask : precord.fte ≠ menuFtype.LONG) :
    ∃ l, Waveform_Statistics_Compute sqrt precord = .ok l ∧
      (Waveform_Statistics_Process sqrt precord).1 = Status.OK ∧
      l.actual_size = 1 ∧
      (l.actual_size : K) * l.xx_sum - l.x_sum * l.x_sum = 0 ∧ l.delta = 1 ∧
      l.slope = 0 ∧ l.intersect = 0 ∧ l.a_mean = v :=
  single_sample_run sqrt precord v htags ha hnoa hb hc hmask

/-- C7 at `v = 7`. -/
theorem C7_single_sample_witness :
    tagsCorrect (recordOf ℝ [7] 1 0 menuFtype.DOUBLE [0]) ∧
      ∃ l, Waveform_Statistics_Compute Real.sqrt (recordOf ℝ [7] 1 0 menuFtype.DOUBLE [0])
          = .ok l ∧ l.actual_size = 1 ∧ l.slope = 0 ∧ l.intersect = 0 := by
  obtain ⟨l, hl, _, h1, _, _, h2, h3, _⟩ := C7_single_sample_slope_zero_intercept_zero
    Real.sqrt (recordOf ℝ [7] 1 0 menuFtype.DOUBLE [0]) 7 (by decide) rfl rfl rfl rfl
    (by decide)
  exact ⟨by decide, l, hl, h1, h2, h3⟩

/-- C7 as stated fails at `v = 7`: for samples `[7]`, offset 0, requested size 1 and
no mask the run succeeds with count 1 and slope 0, and the intercept it computes
and writes to OUTH is 0, not 7. -/
theorem C7_single_sample_intercept_not_v :
    ∃ l, Waveform_Statistics_Compute Real.sqrt (recordOf ℝ [7] 1 0 menuFtype.DOUBLE [0])
        = .ok l ∧ l.actual_size = 1 ∧ l.slope = 0 ∧ l.intersect ≠ 7 ∧
      (Waveform_Statistics_Process Real.sqrt
        (recordOf ℝ [7] 1 0 menuFtype.DOUBLE [0])).2.valh ≠ 7 := by
  obtain ⟨l, hl, _, h1, _, _, h2, h3, _⟩ := single_sample_run
    Real.sqrt (recordOf ℝ [7] 1 0 menuFtype.DOUBLE [0]) 7 (by decide) rfl rfl rfl rfl
    (by decide)
  refine ⟨l, hl, h1, h2, by rw [h3]; norm_num, ?_⟩
  rw [Process_of_ok Real.sqrt _ l hl]
  simp [writeOutputs, recordOf, h3]

/-! ## Sums, extrema and median of transformed samples -/

theorem theSums_mapSamples_shape {K : Type} [LinearOrderedField K] (f : K → K)
    (precord : aSubRecord K) :
    (theSums (mapSamples f precord)).actual_size = (theSums precord).actual_size ∧
    (theSums (mapSamples f precord)).x_sum = (theSums precord).x_sum ∧
    (theSums (mapSamples f precord)).xx_sum = (theSums precord).xx_sum := by
  refine ⟨?_, ?_, ?_⟩
  · rw [theSums_card, theSums_card]; rfl
  · rw [theSums_x_sum, theSums_x_sum]; rfl
  · rw [theSums_xx_sum, theSums_xx_sum]; rfl

theorem theSums_addToSamples {K : Type} [LinearOrderedField K] (k : K)
    (precord : aSubRecord K) (hwf : precord.WellFormed) (hc : 0 ≤ precord.c) :
    (theSums (addToSamples k precord)).a_sum
      = (theSums precord).a_sum + ((theSums precord).actual_size : K) * k ∧
    (theSums (addToSamples k precord)).a_squared_sum
      = (theSums precord).a_squared_sum + 2 * k * (theSums precord).a_sum
        + ((theSums precord).actual_size : K) * k ^ 2 ∧
    (theSums (addToSamples k precord)).xa_sum
      = (theSums precord).xa_sum + k * (theSums precord).x_sum := by
  have hn : ((theSums precord).actual_size : K) = ((inUseSet precord).card : K) := by
    rw [theSums_card]; simp
  unfold addToSamples
  refine ⟨?_, ?_, ?_⟩
  · rw [theSums_a_sum, theSums_a_sum, hn, inUseSet_mapSamples,
      sum_mapSamples _ precord hwf hc (fun _ v => v), Finset.sum_add_distrib,
      Finset.sum_const, nsmul_eq_mul]
  · rw [theSums_a_squared_sum, theSums_a_squared_sum, theSums_a_sum, hn, inUseSet_mapSamples,
      sum_mapSamples _ precord hwf hc (fun _ v => v * v)]
    have : ∀ j ∈ inUseSet precord, (sample precord j + k) * (sample precord j + k)
        = sample precord j * sample precord j + 2 * k * sample precord j + k ^ 2 := by
      intro j _; ring
    rw [Finset.sum_congr rfl this, Finset.sum_add_distrib, Finset.sum_add_distrib,
      ← Finset.mul_sum, Finset.sum_const, nsmul_eq_mul]
  · rw [theSums_xa_sum, theSums_xa_sum, theSums_x_sum, inUseSet_mapSamples]
    have h1 := sum_mapSamples (fun v => v + k) precord hwf hc
      (fun j v => abscissa precord j * v)
    simp only [abscissa_mapSamples]
    rw [h1]
    have : ∀ j ∈ inUseSet precord, abscissa precord j * (sample precord j + k)
        = abscissa precord j * sample precord j + k * abscissa precord j := by
      intro j _; ring
    rw [Finset.sum_congr rfl this, Finset.sum_add_distrib, ← Finset.mul_sum]

theorem theSums_scaleSamples {K : Type} [LinearOrderedField K] (alpha : K)
    (precord : aSubRecord K) (hwf : precord.WellFormed) (hc : 0 ≤ precord.c) :
    (theSums (scaleSamples alpha precord)).a_sum = alpha * (theSums precord).a_sum ∧
    (theSums (scaleSamples alpha precord)).a_squared_sum
      = alpha ^ 2 * (theSums precord).a_squared_sum ∧
    (theSums (scaleSamples alpha precord)).xa_sum = alpha * (theSums precord).xa_sum := by
  unfold scaleSamples
  refine ⟨?_, ?_, ?_⟩
  · rw [theSums_a_sum, theSums_a_sum, inUseSet_mapSamples,
      sum_mapSamples _ precord hwf hc (fun _ v => v), Finset.mul_sum]
  · rw [theSums_a_squared_sum, theSums_a_squared_sum, inUseSet_mapSamples,
      sum_mapSamples _ precord hwf hc (fun _ v => v * v), Finset.mul_sum]
    exact Finset.sum_congr rfl (fun j _ => by ring)
  · rw [theSums_xa_sum, theSums_xa_sum, inUseSet_mapSamples]
    have h1 := sum_mapSamples (fun v => alpha * v) precord hwf hc
      (fun j v => abscissa precord j * v)
    simp only [abscissa_mapSamples]
    rw [h1, Finset.mul_sum]
    exact Finset.sum_congr rfl (fun j _ => by ring)

/-- The least value of a family over a finite set is unique. -/
theorem least_unique {ι K : Type} [LinearOrder K] (s : Finset ι) (g : ι → K) (m1 m2 : K)
    (h1 : (∃ j ∈ s, m1 = g j) ∧ ∀ j ∈ s, m1 ≤ g j)
    (h2 : (∃ j ∈ s, m2 = g j) ∧ ∀ j ∈ s, m2 ≤ g j) : m1 = m2 := by
  obtain ⟨⟨j1, hj1, e1⟩, l1⟩ := h1
  obtain ⟨⟨j2, hj2, e2⟩, l2⟩ := h2
  exact le_antisymm (e2 ▸ l1 j2 hj2) (e1 ▸ l2 j1 hj1)

/-- The greatest value of a family over a finite set is unique. -/
theorem greatest_unique {ι K : Type} [LinearOrder K] (s : Finset ι) (g : ι → K) (m1 m2 : K)
    (h1 : (∃ j ∈ s, m1 = g j) ∧ ∀ j ∈ s, g j ≤ m1)
    (h2 : (∃ j ∈ s, m2 = g j) ∧ ∀ j ∈ s, g j ≤ m2) : m1 = m2 := by
  obtain ⟨⟨j1, hj1, e1⟩, l1⟩ := h1
  obtain ⟨⟨j2, hj2, e2⟩, l2⟩ := h2
  exact le_antisymm (e1 ▸ l2 j1 hj1) (e2 ▸ l1 j2 hj2)

theorem a_min_map_mono {K : Type} [LinearOrderedField K] (f : K → K) (hf : Monotone f)
    (precord : aSubRecord K) (hwf : precord.WellFormed) (hc : 0 ≤ precord.c)
    (hn : inUseList precord ≠ []) :
    ofTop (theSums (mapSamples f precord)).a_min = f (ofTop (theSums precord).a_min) := by
  obtain ⟨⟨j0, hj0, e0⟩, hle⟩ := theSums_a_min precord hn
  refine least_unique (inUseSet precord) (sample (mapSamples f precord)) _ _
    (theSums_a_min (mapSamples f precord) hn) ⟨⟨j0, hj0, ?_⟩, fun j hj => ?_⟩
  · rw [sample_mapSamples_of_mem f precord hwf hc j0 hj0, e0]
  · rw [sample_mapSamples_of_mem f precord hwf hc j hj]; exact hf (hle j hj)

theorem a_max_map_mono {K : Type} [LinearOrderedField K] (f : K → K) (hf : Monotone f)
    (precord : aSubRecord K) (hwf : precord.WellFormed) (hc : 0 ≤ precord.c)
    (hn : inUseList precord ≠ []) :
    ofBot (theSums (mapSamples f precord)).a_max = f (ofBot (theSums precord).a_max) := by
  obtain ⟨⟨j0, hj0, e0⟩, hle⟩ := theSums_a_max precord hn
  refine greatest_unique (inUseSet precord) (sample (mapSamples f precord)) _ _
    (theSums_a_max (mapSamples f precord) hn) ⟨⟨j0, hj0, ?_⟩, fun j hj => ?_⟩
  · rw [sample_mapSamples_of_mem f precord hwf hc j0 hj0, e0]
  · rw [sample_mapSamples_of_mem f precord hwf hc j hj]; exact hf (hle j hj)

theorem a_min_map_anti {K : Type} [LinearOrderedField K] (f : K → K) (hf : Antitone f)
    (precord : aSubRecord K) (hwf : precord.WellFormed) (hc : 0 ≤ precord.c)
    (hn : inUseList precord ≠ []) :
    ofTop (theSums (mapSamples f precord)).a_min = f (ofBot (theSums precord).a_max) := by
  obtain ⟨⟨j0, hj0, e0⟩, hle⟩ := theSums_a_max precord hn
  refine least_unique (inUseSet precord) (sample (mapSamples f precord)) _ _
    (theSums_a_min (mapSamples f precord) hn) ⟨⟨j0, hj0, ?_⟩, fun j hj => ?_⟩
  · rw [sample_mapSamples_of_mem f precord hwf hc j0 hj0, e0]
  · rw [sample_mapSamples_of_mem f precord hwf hc j hj]; exact hf (hle j hj)

theorem a_max_map_anti {K : Type} [LinearOrderedField K] (f : K → K) (hf : Antitone f)
    (precord : aSubRecord K) (hwf : precord.WellFormed) (hc : 0 ≤ precord.c)
    (hn : inUseList precord ≠ []) :
    ofBot (theSums (mapSamples f precord)).a_max = f (ofTop (theSums precord).a_min) := by
  obtain ⟨⟨j0, hj0, e0⟩, hle⟩ := theSums_a_min precord hn
  refine greatest_unique (inUseSet precord) (sample (mapSamples f precord)) _ _
    (theSums_a_max (mapSamples f precord) hn) ⟨⟨j0, hj0, ?_⟩, fun j hj => ?_⟩
  · rw [sample_mapSamples_of_mem f precord hwf hc j0 hj0, e0]
  · rw [sample_mapSamples_of_mem f precord hwf hc j hj]; exact hf (hle j hj)

theorem a_max_abs_scale {K : Type} [LinearOrderedField K] (alpha : K)
    (precord : aSubRecord K) (hwf : precord.WellFormed) (hc : 0 ≤ precord.c)
    (hn : inUseList precord ≠ []) :
    (theSums (scaleSamples alpha precord)).a_max_abs
      = |alpha| * (theSums precord).a_max_abs := by
  obtain ⟨⟨j0, hj0, e0⟩, hle⟩ := theSums_a_max_abs precord hn
  unfold scaleSamples
  refine greatest_unique (inUseSet precord)
    (fun j => |sample (mapSamples (fun v => alpha * v) precord) j|) _ _
    (theSums_a_max_abs (mapSamples (fun v => alpha * v) precord) hn)
    ⟨⟨j0, hj0, ?_⟩, fun j hj => ?_⟩
  · simp only
    rw [sample_mapSamples_of_mem _ precord hwf hc j0 hj0, e0, abs_mul]
  · simp only
    rw [sample_mapSamples_of_mem _ precord hwf hc j hj, abs_mul]
    exact mul_le_mul_of_nonneg_left (hle j hj) (abs_nonneg _)

theorem inUseValues_mapSamples {K : Type} [LinearOrderedField K] (f : K → K)
    (precord : aSubRecord K) (hwf : precord.WellFormed) (hc : 0 ≤ precord.c) :
    inUseValues (mapSamples f precord) = (inUseValues precord).map f := by
  unfold inUseValues
  rw [inUseList_mapSamples, List.map_map]
  refine List.map_congr_left (fun j hj => ?_)
  exact sample_mapSamples_of_mem f precord hwf hc j ((mem_inUseSet_iff_mem_list _ _).mpr hj)

theorem sort_map_mono {K : Type} [LinearOrder K] (f : K → K) (hf : Monotone f) (vals : List K) :
    Multiset.sort (fun x y => x ≤ y) ((vals.map f : List K) : Multiset K)
      = (Multiset.sort (fun x y => x ≤ y) (vals : Multiset K)).map f := by
  refine List.eq_of_perm_of_sorted ?_ (Multiset.sort_sorted _ _) ?_
  · have h1 : (Multiset.sort (fun x y : K => x ≤ y) ((vals.map f : List K) : Multiset K)).Perm
        (vals.map f) := Quotient.exact (Multiset.sort_eq _ _)
    have h2 : (Multiset.sort (fun x y : K => x ≤ y) (vals : Multiset K)).Perm vals :=
      Quotient.exact (Multiset.sort_eq _ _)
    exact h1.trans (h2.map f).symm
  · have hs : (Multiset.sort (fun x y : K => x ≤ y) (vals : Multiset K)).Sorted
        (fun x y => x ≤ y) := Multiset.sort_sorted _ _
    exact List.Pairwise.map f (fun a b hab => hf hab) hs

theorem sort_map_anti {K : Type} [LinearOrder K] (f : K → K) (hf : Antitone f) (vals : List K) :
    Multiset.sort (fun x y => x ≤ y) ((vals.map f : List K) : Multiset K)
      = ((Multiset.sort (fun x y => x ≤ y) (vals : Multiset K)).map f).reverse := by
  refine List.eq_of_perm_of_sorted ?_ (Multiset.sort_sorted _ _) ?_
  · have h1 : (Multiset.sort (fun x y : K => x ≤ y) ((vals.map f : List K) : Multiset K)).Perm
        (vals.map f) := Quotient.exact (Multiset.sort_eq _ _)
    have h2 : (Multiset.sort (fun x y : K => x ≤ y) (vals : Multiset K)).Perm vals :=
      Quotient.exact (Multiset.sort_eq _ _)
    exact h1.trans ((List.reverse_perm _).trans (h2.map f)).symm
  · have hs : (Multiset.sort (fun x y : K => x ≤ y) (vals : Multiset K)).Sorted
        (fun x y => x ≤ y) := Multiset.sort_sorted _ _
    rw [List.Sorted, List.pairwise_reverse]
    exact List.Pairwise.map f (fun a b hab => hf hab) hs

theorem sortedInUse_map_mono {K : Type} [LinearOrderedField K] (f : K → K) (hf : Monotone f)
    (precord : aSubRecord K) (hwf : precord.WellFormed) (hc : 0 ≤ precord.c) :
    sortedInUse (mapSamples f precord) = (sortedInUse precord).map f := by
  unfold sortedInUse
  rw [inUseValues_mapSamples f precord hwf hc, sort_map_mono f hf]

theorem sortedInUse_map_anti {K : Type} [LinearOrderedField K] (f : K → K) (hf : Antitone f)
    (precord : aSubRecord K) (hwf : precord.WellFormed) (hc : 0 ≤ precord.c) :
    sortedInUse (mapSamples f precord) = ((sortedInUse precord).map f).reverse := by
  unfold sortedInUse
  rw [inUseValues_mapSamples f precord hwf hc, sort_map_anti f hf]

/-! ## Adding a constant to every sample -/

/-- C8, as amended: when a run succeeds on a well-formed record, the run on the
record with `k` added to every sample succeeds too, with `a_mean`, `a_min` and
`a_max` greater by `k` and `slope`, `pop_std_dev` and `sam_std_dev` unchanged, for
every count; the intercept is greater by `k` when the count is at least 2, and is
0 in both runs when the count is 1 (over any linear ordered field, so over the
reals, and for any `sqrt`). -/
theorem C8_add_constant_shifts_location {K : Type} [LinearOrderedField K] (sqrt : K → K)
    (precord : aSubRecord K) (hwf : precord.WellFormed) (l : Locals K)
    (hok : Waveform_Statistics_Compute sqrt precord = .ok l) (k : K) :
    ∃ l1, Waveform_Statistics_Compute sqrt (addToSamples k precord) = .ok l1 ∧
      l1.actual_size = l.actual_size ∧
      l1.a_mean = l.a_mean + k ∧ l1.a_min = l.a_min + k ∧ l1.a_max = l.a_max + k ∧
      l1.slope = l.slope ∧ l1.pop_std_dev = l.pop_std_dev ∧
      l1.sam_std_dev = l.sam_std_dev ∧
      (2 ≤ l.actual_size → l1.intersect = l.intersect + k) ∧
      (l.actual_size = 1 → l1.intersect = 0 ∧ l.intersect = 0) := by
  obtain ⟨_, _, hc, hn, hf⟩ := Compute_ok_inv sqrt precord hwf l hok
  obtain ⟨l1, hl1, hf1⟩ := Compute_mapSamples sqrt (fun v => v + k) precord hwf l hok
  have hf1 : FinalizedFrom sqrt (addToSamples k precord) (theSums (addToSamples k precord))
      ((sortedInUse (addToSamples k precord)).getD ((inUseList precord).length / 2) 0)
      (bufferAfter (addToSamples k precord)) l1 := hf1
  obtain ⟨hsz, hx, hxx⟩ := theSums_mapSamples_shape (fun v => v + k) precord
  have hsz : (theSums (addToSamples k precord)).actual_size = (theSums precord).actual_size :=
    hsz
  have hx : (theSums (addToSamples k precord)).x_sum = (theSums precord).x_sum := hx
  have hxx : (theSums (addToSamples k precord)).xx_sum = (theSums precord).xx_sum := hxx
  obtain ⟨ha, haa, hxa⟩ := theSums_addToSamples k precord hwf hc
  have hcard := inUseSet_card_pos precord hn
  have hn0 : ((theSums precord).actual_size : K) ≠ 0 := by
    rw [theSums_card]
    have : (0 : K) < ((inUseSet precord).card : K) := by exact_mod_cast hcard
    simpa using this.ne'
  have e_mean : l1.a_mean = l.a_mean + k := by
    rw [hf1.a_mean, hf.a_mean, ha, hsz]; field_simp; ring
  have e_sqm : l1.a_squared_mean = l.a_squared_mean + 2 * k * l.a_mean + k ^ 2 := by
    rw [hf1.a_squared_mean, hf.a_squared_mean, hf.a_mean, haa, hsz]; field_simp; ring
  have e_pv : l1.pop_variance = l.pop_variance := by
    rw [hf1.pop_variance, hf.pop_variance, e_mean, e_sqm]; ring
  have e_sv : l1.sam_variance = l.sam_variance := by
    rw [hf1.sam_variance, hf.sam_variance, hsz, e_pv]
  have e_delta : l1.delta = l.delta := by
    rw [hf1.delta, hf.delta, hsz, hx, hxx]
  have hmono : Monotone (fun v : K => v + k) := fun a b hab => add_le_add_right hab k
  refine ⟨l1, hl1, by rw [hf1.actual_size, hf.actual_size, hsz], e_mean, ?_, ?_, ?_,
    by rw [hf1.pop_std_dev, hf.pop_std_dev, e_pv],
    by rw [hf1.sam_std_dev, hf.sam_std_dev, e_sv], fun h2 => ?_, fun h1 => ?_⟩
  · rw [hf1.a_min, hf.a_min]
    exact a_min_map_mono _ hmono precord hwf hc hn
  · rw [hf1.a_max, hf.a_max]
    exact a_max_map_mono _ hmono precord hwf hc hn
  · rw [hf1.slope, hf.slope, e_delta, hsz, hxa, hx, ha]
    congr 1; ring
  · have hcard2 : 2 ≤ (inUseSet precord).card := by
      have := hf.actual_size
      rw [theSums_card] at this
      omega
    have hD := (theSums_delta_pos precord hcard2).ne'
    obtain ⟨hd, _, hi⟩ := fit_of_two sqrt precord _ _ _ l hf hD
    rw [hf1.intersect, e_delta, hd, hi, hxa, hx, hxx, ha]
    field_simp; ring
  · have hcard1 : (inUseSet precord).card = 1 := by
      have := hf.actual_size
      rw [theSums_card] at this
      omega
    obtain ⟨hd0, hi0⟩ := theSums_single precord hcard1
    have hd : l.delta = 1 := by rw [hf.delta, if_pos hd0]
    constructor
    · rw [hf1.intersect, e_delta, hd, hxa, hx, hxx, ha, div_one]
      linear_combination hi0 + k * hd0
    · rw [hf.intersect, hd, hi0, div_one]

/-- C8 at the record with samples `[1, 2, 3, 4, 5]` and `k = 10`. -/
theorem C8_add_constant_witness :
    (recordOf ℚ [1, 2, 3, 4, 5] 5 0 menuFtype.DOUBLE [0]).WellFormed ∧
      ∃ l l1, Waveform_Statistics_Compute id
          (recordOf ℚ [1, 2, 3, 4, 5] 5 0 menuFtype.DOUBLE [0]) = .ok l ∧
        Waveform_Statistics_Compute id
          (addToSamples 10 (recordOf ℚ [1, 2, 3, 4, 5] 5 0 menuFtype.DOUBLE [0])) = .ok l1 ∧
        l1.a_mean = l.a_mean + 10 ∧ l1.slope = l.slope := by
  obtain ⟨l, hl, _⟩ := Compute_ok id (recordOf ℚ [1, 2, 3, 4, 5] 5 0 menuFtype.DOUBLE [0])
    (by decide) (by decide) (by decide) (by decide) (by decide)
  obtain ⟨l1, hl1, _, h1, _, _, h2, _⟩ := C8_add_constant_shifts_location id
    (recordOf ℚ [1, 2, 3, 4, 5] 5 0 menuFtype.DOUBLE [0]) (by decide) l hl 10
  exact ⟨by decide, l, l1, hl, hl1, h1, h2⟩

/-- C8 as stated fails for a single sample: for samples `[7]`, offset 0, requested
size 1, no mask and `k = 1` both runs succeed and the intercept of the second is
not the intercept of the first plus 1 (both are 0). -/
theorem C8_single_sample_intercept_not_shifted :
    ∃ l l1, Waveform_Statistics_Compute Real.sqrt (recordOf ℝ [7] 1 0 menuFtype.DOUBLE [0])
        = .ok l ∧
      Waveform_Statistics_Compute Real.sqrt
        (addToSamples 1 (recordOf ℝ [7] 1 0 menuFtype.DOUBLE [0])) = .ok l1 ∧
      l.actual_size = 1 ∧ l1.intersect ≠ l.intersect + 1 := by
  obtain ⟨l, hl, _, h1, _, _, _, h3, _⟩ := single_sample_run
    Real.sqrt (recordOf ℝ [7] 1 0 menuFtype.DOUBLE [0]) 7 (by decide) rfl rfl rfl rfl
    (by decide)
  obtain ⟨l1, hl1, _, _, _, _, _, h4, _⟩ := single_sample_run
    Real.sqrt (addToSamples 1 (recordOf ℝ [7] 1 0 menuFtype.DOUBLE [0])) (7 + 1) (by decide)
    rfl rfl rfl rfl (by decide)
  exact ⟨l, l1, hl, hl1, h1, by rw [h3, h4]; norm_num⟩

/-! ## Multiplying every sample by a constant -/

theorem getD_map_of_lt {K : Type} (f : K → K) (L : List K) (i : Nat) (d1 d2 : K)
    (h : i < L.length) : (L.map f).getD i d1 = f (L.getD i d2) := by
  rw [List.getD_eq_getElem _ _ (by rw [List.length_map]; exact h), List.getD_eq_getElem _ _ h,
    List.getElem_map]

theorem getD_reverse_map_of_lt {K : Type} (f : K → K) (L : List K) (i : Nat) (d1 d2 : K)
    (h : i < L.length) :
    ((L.map f).reverse).getD i d1 = f (L.getD (L.length - 1 - i) d2) := by
  have h1 : L.length - 1 - i < L.length := by omega
  rw [List.getD_eq_getElem?_getD, List.getElem?_reverse (by rw [List.length_map]; exact h),
    List.length_map, List.getElem?_map, List.getElem?_eq_getElem h1,
    List.getD_eq_getElem _ _ h1]
  rfl

/-- C9, as amended: when a run succeeds on a well-formed record with `n` in-use
samples, the run on the record with every sample multiplied by `alpha` succeeds
too. For `alpha ≥ 0` its `a_min`, `a_max` and `a_median` are `alpha` times those of
the first run. For `alpha < 0` its `a_min` is `alpha` times the first `a_max`, its
`a_max` is `alpha` times the first `a_min`, and its `a_median` is `alpha` times the
element at index `(n - 1) / 2` of the ascending sort of the in-use samples, which
is the first `a_median` when `n` is odd. -/
theorem C9_scale_min_max_median {K : Type} [LinearOrderedField K] (sqrt : K → K)
    (precord : aSubRecord K) (hwf : precord.WellFormed) (l : Locals K)
    (hok : Waveform_Statistics_Compute sqrt precord = .ok l) (alpha : K) :
    ∃ l1, Waveform_Statistics_Compute sqrt (scaleSamples alpha precord) = .ok l1 ∧
      l1.actual_size = l.actual_size ∧
      (0 ≤ alpha →
        l1.a_min = alpha * l.a_min ∧ l1.a_max = alpha * l.a_max ∧
        l1.a_median = alpha * l.a_median) ∧
      (alpha < 0 →
        l1.a_min = alpha * l.a_max ∧ l1.a_max = alpha * l.a_min ∧
        (∃ v, (Multiset.sort (fun x y => x ≤ y)
              ((inUseSet precord).val.map (sample precord)))[
                ((inUseSet precord).card - 1) / 2]? = some v ∧
            l1.a_median = alpha * v) ∧
        ((inUseSet precord).card % 2 = 1 → l1.a_median = alpha * l.a_median)) := by
  obtain ⟨_, _, hc, hn, hf⟩ := Compute_ok_inv sqrt precord hwf l hok
  obtain ⟨l1, hl1, hf1⟩ := Compute_mapSamples sqrt (fun v => alpha * v) precord hwf l hok
  obtain ⟨hsz, _, _⟩ := theSums_mapSamples_shape (fun v => alpha * v) precord
  have hcard := inUseSet_card_pos precord hn
  have hlen := length_sortedInUse precord
  have hLlen := length_inUseList precord
  have hlt : (inUseList precord).length / 2 < (sortedInUse precord).length := by
    rw [hlen, hLlen]; omega
  refine ⟨l1, hl1, by rw [hf1.actual_size, hf.actual_size, hsz], fun h0 => ?_, fun h0 => ?_⟩
  · have hmono : Monotone (fun v : K => alpha * v) :=
      fun a b hab => mul_le_mul_of_nonneg_left hab h0
    refine ⟨?_, ?_, ?_⟩
    · rw [hf1.a_min, hf.a_min]
      exact a_min_map_mono _ hmono precord hwf hc hn
    · rw [hf1.a_max, hf.a_max]
      exact a_max_map_mono _ hmono precord hwf hc hn
    · rw [hf1.a_median, hf.a_median, sortedInUse_map_mono _ hmono precord hwf hc]
      exact getD_map_of_lt _ _ _ _ _ hlt
  · have hanti : Antitone (fun v : K => alpha * v) :=
      fun a b hab => mul_le_mul_of_nonpos_left hab h0.le
    have hmed : l1.a_median = alpha * (sortedInUse precord).getD
        ((sortedInUse precord).length - 1 - (inUseList precord).length / 2) 0 := by
      rw [hf1.a_median, sortedInUse_map_anti _ hanti precord hwf hc]
      exact getD_reverse_map_of_lt _ _ _ _ _ hlt
    have hidx : (sortedInUse precord).length - 1 - (inUseList precord).length / 2
        = ((inUseSet precord).card - 1) / 2 := by
      rw [hlen, hLlen]; omega
    rw [hidx] at hmed
    refine ⟨?_, ?_, ?_, fun hodd => ?_⟩
    · rw [hf1.a_min, hf.a_max]
      exact a_min_map_anti _ hanti precord hwf hc hn
    · rw [hf1.a_max, hf.a_min]
      exact a_max_map_anti _ hanti precord hwf hc hn
    · refine ⟨_, ?_, hmed⟩
      rw [← sortedInUse_eq, List.getElem?_eq_getElem (by rw [hlen]; omega),
        List.getD_eq_getElem _ _ (by rw [hlen]; omega)]
    · rw [hmed, hf.a_median, hLlen]
      have : ((inUseSet precord).card - 1) / 2 = (inUseSet precord).card / 2 := by omega
      rw [this]

/-- C9 at the record with samples `[1, 2]` and `alpha = 3`. -/
theorem C9_scale_witness :
    (recordOf ℚ [1, 2] 2 0 menuFtype.DOUBLE [0]).WellFormed ∧
      ∃ l l1, Waveform_Statistics_Compute id (recordOf ℚ [1, 2] 2 0 menuFtype.DOUBLE [0])
          = .ok l ∧
        Waveform_Statistics_Compute id
          (scaleSamples 3 (recordOf ℚ [1, 2] 2 0 menuFtype.DOUBLE [0])) = .ok l1 ∧
        l1.a_min = 3 * l.a_min ∧ l1.a_max = 3 * l.a_max ∧ l1.a_median = 3 * l.a_median := by
  obtain ⟨l, hl, _⟩ := Compute_ok id (recordOf ℚ [1, 2] 2 0 menuFtype.DOUBLE [0])
    (by decide) (by decide) (by decide) (by decide) (by decide)
  obtain ⟨l1, hl1, _, h1, _⟩ := C9_scale_min_max_median id
    (recordOf ℚ [1, 2] 2 0 menuFtype.DOUBLE [0]) (by decide) l hl 3
  exact ⟨by decide, l, l1, hl, hl1, h1 (by norm_num)⟩

/-- The extrema of the run on samples `[1, 2]`. -/
theorem one_two_extrema (l : Locals ℝ)
    (hl : Waveform_Statistics_Compute Real.sqrt (recordOf ℝ [1, 2] 2 0 menuFtype.DOUBLE [0])
      = .ok l) : l.a_min = 1 ∧ l.a_max = 2 := by
  have hwf : (recordOf ℝ [1, 2] 2 0 menuFtype.DOUBLE [0]).WellFormed := by decide
  obtain ⟨_, _, _, hn, hf⟩ := Compute_ok_inv Real.sqrt _ hwf l hl
  have hmin := theSums_a_min _ hn
  have hmax := theSums_a_max _ hn
  rw [← hf.a_min] at hmin
  rw [← hf.a_max] at hmax
  have h0 : (0 : Int) ∈ inUseSet (recordOf ℝ [1, 2] 2 0 menuFtype.DOUBLE [0]) := by decide
  have h1 : (1 : Int) ∈ inUseSet (recordOf ℝ [1, 2] 2 0 menuFtype.DOUBLE [0]) := by decide
  have hs0 : sample (recordOf ℝ [1, 2] 2 0 menuFtype.DOUBLE [0]) 0 = 1 := by
    simp [sample, recordOf]
  have hs1 : sample (recordOf ℝ [1, 2] 2 0 menuFtype.DOUBLE [0]) 1 = 2 := by
    simp [sample, recordOf]
  have hall : ∀ j ∈ inUseSet (recordOf ℝ [1, 2] 2 0 menuFtype.DOUBLE [0]), j = 0 ∨ j = 1 := by
    intro j hj
    have := (Finset.mem_filter.mp hj).1
    rw [window, Finset.mem_Ico] at this
    have hs : selectedSize (recordOf ℝ [1, 2] 2 0 menuFtype.DOUBLE [0]) = 2 := by decide
    rw [hs] at this
    have hc : (recordOf ℝ [1, 2] 2 0 menuFtype.DOUBLE [0]).c = 0 := rfl
    rw [hc] at this
    omega
  constructor
  · refine least_unique _ _ _ _ hmin ⟨⟨0, h0, hs0.symm⟩, fun j hj => ?_⟩
    rcases hall j hj with rfl | rfl
    · rw [hs0]
    · rw [hs1]; norm_num
  · refine greatest_unique _ _ _ _ hmax ⟨⟨1, h1, hs1.symm⟩, fun j hj => ?_⟩
    rcases hall j hj with rfl | rfl
    · rw [hs0]; norm_num
    · rw [hs1]

/-- C9 as stated fails for a negative factor: for samples `[1, 2]`, the whole
window, no mask and `alpha = -1` both runs succeed, the first with minimum 1 and
the second with minimum -2, which is not `-1 * 1`. -/
theorem C9_negative_scale_min_not_scaled :
    ∃ l l1, Waveform_Statistics_Compute Real.sqrt (recordOf ℝ [1, 2] 2 0 menuFtype.DOUBLE [0])
        = .ok l ∧
      Waveform_Statistics_Compute Real.sqrt
        (scaleSamples (-1) (recordOf ℝ [1, 2] 2 0 menuFtype.DOUBLE [0])) = .ok l1 ∧
      l.a_min = 1 ∧ l1.a_min = -2 ∧ l1.a_min ≠ -1 * l.a_min := by
  have hwf : (recordOf ℝ [1, 2] 2 0 menuFtype.DOUBLE [0]).WellFormed := by decide
  obtain ⟨l, hl, hf⟩ := Compute_ok Real.sqrt (recordOf ℝ [1, 2] 2 0 menuFtype.DOUBLE [0])
    hwf (by decide) (by decide) (by decide) (by decide)
  obtain ⟨_, _, hc, hn, _⟩ := Compute_ok_inv Real.sqrt _ hwf l hl
  obtain ⟨l1, hl1, hf1⟩ := Compute_mapSamples Real.sqrt (fun v => -1 * v) _ hwf l hl
  obtain ⟨hmin, hmax⟩ := one_two_extrema l hl
  have hanti : Antitone (fun v : ℝ => -1 * v) :=
    fun a b hab => mul_le_mul_of_nonpos_left hab (by norm_num)
  have h1 : l1.a_min = -2 := by
    rw [hf1.a_min, a_min_map_anti _ hanti _ hwf hc hn, ← hf.a_max, hmax]; norm_num
  exact ⟨l, l1, hl, hl1, hmin, h1, by rw [h1, hmin]; norm_num⟩

theorem sqrt_sq_mul (alpha y : ℝ) : Real.sqrt (alpha ^ 2 * y) = |alpha| * Real.sqrt y := by
  rw [Real.sqrt_mul (sq_nonneg alpha), Real.sqrt_sq_eq_abs]

/-- C10: over the reals, when a run succeeds on a well-formed record, the run on
the record with every sample multiplied by `alpha` (of any sign) succeeds too,
with `a_mean`, `a_sum`, `slope` and `intersect` multiplied by `alpha` and `a_rms`,
`a_max_abs`, `pop_std_dev` and `sam_std_dev` multiplied by `|alpha|`. -/
theorem C10_scale_linear_and_absolute (precord : aSubRecord ℝ) (hwf : precord.WellFormed)
    (l : Locals ℝ) (hok : Waveform_Statistics_Compute Real.sqrt precord = .ok l) (alpha : ℝ) :
    ∃ l1, Waveform_Statistics_Compute Real.sqrt (scaleSamples alpha precord) = .ok l1 ∧
      l1.actual_size = l.actual_size ∧
      l1.a_mean = alpha * l.a_mean ∧ l1.a_sum = alpha * l.a_sum ∧
      l1.slope = alpha * l.slope ∧ l1.intersect = alpha * l.intersect ∧
      l1.a_rms = |alpha| * l.a_rms ∧ l1.a_max_abs = |alpha| * l.a_max_abs ∧
      l1.pop_std_dev = |alpha| * l.pop_std_dev ∧
      l1.sam_std_dev = |alpha| * l.sam_std_dev := by
  obtain ⟨_, _, hc, hn, hf⟩ := Compute_ok_inv Real.sqrt precord hwf l hok
  obtain ⟨l1, hl1, hf1⟩ := Compute_mapSamples Real.sqrt (fun v => alpha * v) precord hwf l hok
  have hf1 : FinalizedFrom Real.sqrt (scaleSamples alpha precord)
      (theSums (scaleSamples alpha precord))
      ((sortedInUse (scaleSamples alpha precord)).getD ((inUseList precord).length / 2) 0)
      (bufferAfter (scaleSamples alpha precord)) l1 := hf1
  obtain ⟨hsz, hx, hxx⟩ := theSums_mapSamples_shape (fun v => alpha * v) precord
  have hsz : (theSums (scaleSamples alpha precord)).actual_size
      = (theSums precord).actual_size := hsz
  have hx : (theSums (scaleSamples alpha precord)).x_sum = (theSums precord).x_sum := hx
  have hxx : (theSums (scaleSamples alpha precord)).xx_sum = (theSums precord).xx_sum := hxx
  obtain ⟨ha, haa, hxa⟩ := theSums_scaleSamples alpha precord hwf hc
  have e_mean : l1.a_mean = alpha * l.a_mean := by
    rw [hf1.a_mean, hf.a_mean, ha, hsz, mul_div_assoc]
  have e_sqm : l1.a_squared_mean = alpha ^ 2 * l.a_squared_mean := by
    rw [hf1.a_squared_mean, hf.a_squared_mean, haa, hsz, mul_div_assoc]
  have e_pv : l1.pop_variance = alpha ^ 2 * l.pop_variance := by
    rw [hf1.pop_variance, hf.pop_variance, e_mean, e_sqm]; ring
  have e_sv : l1.sam_variance = alpha ^ 2 * l.sam_variance := by
    rw [hf1.sam_variance, hf.sam_variance, hsz, e_pv]
    split_ifs
    · ring
    · ring
  have e_delta : l1.delta = l.delta := by
    rw [hf1.delta, hf.delta, hsz, hx, hxx]
  refine ⟨l1, hl1, by rw [hf1.actual_size, hf.actual_size, hsz], e_mean,
    by rw [hf1.a_sum, hf.a_sum, ha], ?_, ?_, ?_, ?_, ?_, ?_⟩
  · rw [hf1.slope, hf.slope, e_delta, hsz, hxa, hx, ha]; ring
  · rw [hf1.intersect, hf.intersect, e_delta, hxa, hx, hxx, ha]; ring
  · rw [hf1.a_rms, hf.a_rms, e_sqm, sqrt_sq_mul]
  · rw [hf1.a_max_abs, hf.a_max_abs]
    exact a_max_abs_scale alpha precord hwf hc hn
  · rw [hf1.pop_std_dev, hf.pop_std_dev, e_pv, sqrt_sq_mul]
  · rw [hf1.sam_std_dev, hf.sam_std_dev, e_sv, sqrt_sq_mul]

/-- C10 at the record with samples `[1, 2, 3]` and `alpha = -2`. -/
theorem C10_scale_witness :
    (recordOf ℝ [1, 2, 3] 3 0 menuFtype.DOUBLE [0]).WellFormed ∧
      ∃ l l1, Waveform_Statistics_Compute Real.sqrt
          (recordOf ℝ [1, 2, 3] 3 0 menuFtype.DOUBLE [0]) = .ok l ∧
        Waveform_Statistics_Compute Real.sqrt
          (scaleSamples (-2) (recordOf ℝ [1, 2, 3] 3 0 menuFtype.DOUBLE [0])) = .ok l1 ∧
        l1.a_mean = -2 * l.a_mean ∧ l1.a_rms = |(-2 : ℝ)| * l.a_rms := by
  obtain ⟨l, hl, _⟩ := Compute_ok Real.sqrt (recordOf ℝ [1, 2, 3] 3 0 menuFtype.DOUBLE [0])
    (by decide) (by decide) (by decide) (by decide) (by decide)
  obtain ⟨l1, hl1, _, h1, _, _, _, h2, _⟩ := C10_scale_linear_and_absolute
    (recordOf ℝ [1, 2, 3] 3 0 menuFtype.DOUBLE [0]) (by decide) l hl (-2)
  exact ⟨by decide, l, l1, hl, hl1, h1, h2⟩

/-! ## Variance, standard deviations and root mean square -/

/-- The locals of a successful run that the variance is made of. -/
theorem moments_of_run {K : Type} [LinearOrderedField K] (sqrt : K → K)
    (precord : aSubRecord K) (hwf : precord.WellFormed) (l : Locals K)
    (hok : Waveform_Statistics_Compute sqrt precord = .ok l) :
    (l.actual_size : K) = ((inUseSet precord).card : K) ∧
    (0 : K) < (l.actual_size : K) ∧
    l.a_sum = ∑ j in inUseSet precord, sample precord j ∧
    l.a_squared_sum = ∑ j in inUseSet precord, sample precord j * sample precord j ∧
    l.a_mean = l.a_sum / (l.actual_size : K) ∧
    l.a_squared_mean = l.a_squared_sum / (l.actual_size : K) ∧
    l.pop_variance = l.a_squared_sum / (l.actual_size : K) - l.a_mean * l.a_mean ∧
    l.sam_variance =
      (if l.actual_size ≥ 2 then
        (l.actual_size : K) * l.pop_variance / ((l.actual_size : K) - 1)
      else 0) := by
  obtain ⟨_, _, _, hn, hf⟩ := Compute_ok_inv sqrt precord hwf l hok
  have hcard := inUseSet_card_pos precord hn
  have hsz : (l.actual_size : K) = ((inUseSet precord).card : K) := by
    rw [hf.actual_size, theSums_card]; simp
  have hpos : (0 : K) < (l.actual_size : K) := by
    rw [hsz]; exact_mod_cast hcard
  refine ⟨hsz, hpos, by rw [hf.a_sum, theSums_a_sum],
    by rw [hf.a_squared_sum, theSums_a_squared_sum],
    by rw [hf.a_mean, hf.a_sum, hf.actual_size],
    by rw [hf.a_squared_mean, hf.a_squared_sum, hf.actual_size], ?_, ?_⟩
  · rw [hf.pop_variance, hf.a_squared_mean, hf.a_squared_sum, hf.actual_size]
  · rw [hf.sam_variance, hf.actual_size]

/-- The population variance of a successful run is the mean squared deviation from
the mean, and is not negative. -/
theorem pop_variance_reference {K : Type} [LinearOrderedField K] (sqrt : K → K)
    (precord : aSubRecord K) (hwf : precord.WellFormed) (l : Locals K)
    (hok : Waveform_Statistics_Compute sqrt precord = .ok l) :
    l.pop_variance
        = 1 / (l.actual_size : K) * ∑ j in inUseSet precord, (sample precord j - l.a_mean) ^ 2 ∧
      0 ≤ l.pop_variance := by
  obtain ⟨hsz, hpos, hs, hss, hm, _, hpv, _⟩ := moments_of_run sqrt precord hwf l hok
  have href : l.pop_variance
      = 1 / (l.actual_size : K) * ∑ j in inUseSet precord, (sample precord j - l.a_mean) ^ 2 := by
    have hexp : ∑ j in inUseSet precord, (sample precord j - l.a_mean) ^ 2
        = l.a_squared_sum - 2 * l.a_mean * l.a_sum + (l.actual_size : K) * l.a_mean ^ 2 := by
      have : ∀ j ∈ inUseSet precord, (sample precord j - l.a_mean) ^ 2
          = sample precord j * sample precord j - 2 * l.a_mean * sample precord j
            + l.a_mean ^ 2 := by
        intro j _; ring
      rw [Finset.sum_congr rfl this, Finset.sum_add_distrib, Finset.sum_sub_distrib,
        ← Finset.mul_sum, Finset.sum_const, nsmul_eq_mul, ← hs, ← hss, hsz]
    rw [hexp, hpv]
    have hne := hpos.ne'
    have hsum : l.a_sum = l.a_mean * (l.actual_size : K) := by
      rw [hm, div_mul_cancel₀ _ hne]
    rw [hsum]
    field_simp
    ring
  refine ⟨href, ?_⟩
  rw [href]
  exact mul_nonneg (by positivity) (Finset.sum_nonneg (fun j _ => sq_nonneg _))

/-- C11: over the reals, after a successful run on a well-formed record with count
`n`: if `n ≥ 2` then `sam_std_dev ^ 2 * (n - 1) = pop_std_dev ^ 2 * n` and
`sam_std_dev ≥ pop_std_dev ≥ 0`; if `n = 1` then `sam_std_dev = 0`. -/
theorem C11_sample_and_population_stddev (precord : aSubRecord ℝ) (hwf : precord.WellFormed)
    (l : Locals ℝ) (hok : Waveform_Statistics_Compute Real.sqrt precord = .ok l) :
    (2 ≤ l.actual_size →
      l.sam_std_dev ^ 2 * ((l.actual_size : ℝ) - 1) = l.pop_std_dev ^ 2 * (l.actual_size : ℝ) ∧
      l.pop_std_dev ≤ l.sam_std_dev ∧ 0 ≤ l.pop_std_dev) ∧
    (l.actual_size = 1 → l.sam_std_dev = 0) := by
  obtain ⟨_, _, _, _, hf⟩ := Compute_ok_inv Real.sqrt precord hwf l hok
  obtain ⟨_, hpos, _, _, _, _, _, hsv⟩ := moments_of_run Real.sqrt precord hwf l hok
  obtain ⟨_, hpv0⟩ := pop_variance_reference Real.sqrt precord hwf l hok
  constructor
  · intro h2
    have hn1 : (0 : ℝ) < (l.actual_size : ℝ) - 1 := by
      have : (1 : ℝ) < (l.actual_size : ℝ) := by exact_mod_cast (by omega : 1 < l.actual_size)
      linarith
    rw [if_pos h2] at hsv
    have hsv0 : 0 ≤ l.sam_variance := by
      rw [hsv]; exact div_nonneg (mul_nonneg hpos.le hpv0) hn1.le
    have hle : l.pop_variance ≤ l.sam_variance := by
      rw [hsv, le_div_iff₀ hn1]
      nlinarith
    refine ⟨?_, ?_, ?_⟩
    · rw [hf.sam_std_dev, hf.pop_std_dev, Real.sq_sqrt hsv0, Real.sq_sqrt hpv0, hsv,
        div_mul_cancel₀ _ hn1.ne']
      ring
    · rw [hf.sam_std_dev, hf.pop_std_dev]
      exact Real.sqrt_le_sqrt hle
    · rw [hf.pop_std_dev]; exact Real.sqrt_nonneg _
  · intro h1
    rw [if_neg (by omega)] at hsv
    rw [hf.sam_std_dev, hsv, Real.sqrt_zero]

/-- C11 at the record with samples `[1, 2, 3, 4, 5]`, where the count is 5. -/
theorem C11_stddev_witness :
    (recordOf ℝ [1, 2, 3, 4, 5] 5 0 menuFtype.DOUBLE [0]).WellFormed ∧
      ∃ l, Waveform_Statistics_Compute Real.sqrt
          (recordOf ℝ [1, 2, 3, 4, 5] 5 0 menuFtype.DOUBLE [0]) = .ok l ∧
        2 ≤ l.actual_size ∧
        l.sam_std_dev ^ 2 * ((l.actual_size : ℝ) - 1)
          = l.pop_std_dev ^ 2 * (l.actual_size : ℝ) ∧
        l.pop_std_dev ≤ l.sam_std_dev := by
  obtain ⟨l, hl, hf⟩ := Compute_ok Real.sqrt
    (recordOf ℝ [1, 2, 3, 4, 5] 5 0 menuFtype.DOUBLE [0])
    (by decide) (by decide) (by decide) (by decide) (by decide)
  have h2 : 2 ≤ l.actual_size := by
    rw [hf.actual_size, theSums_card]; decide
  have h := (C11_sample_and_population_stddev
    (recordOf ℝ [1, 2, 3, 4, 5] 5 0 menuFtype.DOUBLE [0]) (by decide) l hl).1 h2
  exact ⟨by decide, l, hl, h2, h.1, h.2.1⟩

/-- C12: over the reals, after a successful run on a well-formed record with `n`
in-use samples `a_j`, the quantity `pop_variance = (sum a_j ^ 2) / n - a_mean ^ 2`
that the run computes is `(1 / n) * sum (a_j - a_mean) ^ 2`, so it is not negative,
`pop_std_dev ^ 2` is that reference variance, and
`a_rms ^ 2 = (sum a_j ^ 2) / n ≥ a_mean ^ 2`. -/
theorem C12_pop_variance_is_reference_variance (precord : aSubRecord ℝ)
    (hwf : precord.WellFormed) (l : Locals ℝ)
    (hok : Waveform_Statistics_Compute Real.sqrt precord = .ok l) :
    l.actual_size = ((inUseSet precord).card : Int) ∧
    l.a_mean = (∑ j in inUseSet precord, sample precord j) / (l.actual_size : ℝ) ∧
    l.pop_variance
      = (∑ j in inUseSet precord, sample precord j ^ 2) / (l.actual_size : ℝ) - l.a_mean ^ 2 ∧
    l.pop_variance
      = 1 / (l.actual_size : ℝ) * ∑ j in inUseSet precord, (sample precord j - l.a_mean) ^ 2 ∧
    0 ≤ l.pop_variance ∧
    l.pop_std_dev ^ 2
      = 1 / (l.actual_size : ℝ) * ∑ j in inUseSet precord, (sample precord j - l.a_mean) ^ 2 ∧
    l.a_rms ^ 2 = (∑ j in inUseSet precord, sample precord j ^ 2) / (l.actual_size : ℝ) ∧
    l.a_mean ^ 2 ≤ l.a_rms ^ 2 := by
  obtain ⟨_, _, _, _, hf⟩ := Compute_ok_inv Real.sqrt precord hwf l hok
  obtain ⟨_, hpos, hs, hss, hm, hsm, hpv, _⟩ := moments_of_run Real.sqrt precord hwf l hok
  obtain ⟨href, hpv0⟩ := pop_variance_reference Real.sqrt precord hwf l hok
  have hsq : ∑ j in inUseSet precord, sample precord j ^ 2 = l.a_squared_sum := by
    rw [hss]; exact Finset.sum_congr rfl (fun j _ => by ring)
  have hsm0 : 0 ≤ l.a_squared_mean := by
    rw [hsm, ← hsq]
    exact div_nonneg (Finset.sum_nonneg (fun j _ => sq_nonneg _)) hpos.le
  have hrms : l.a_rms ^ 2 = l.a_squared_sum / (l.actual_size : ℝ) := by
    rw [hf.a_rms, Real.sq_sqrt hsm0, hsm]
  refine ⟨by rw [hf.actual_size, theSums_card], by rw [hm, hs], by rw [hpv, hsq]; ring,
    href, hpv0, by rw [hf.pop_std_dev, Real.sq_sqrt hpv0, href], by rw [hrms, hsq], ?_⟩
  rw [hrms]
  have := hpv0
  rw [hpv] at this
  nlinarith

/-- C12 at the record with samples `[1, 2, 3, 4, 5]`. -/
theorem C12_pop_variance_witness :
    (recordOf ℝ [1, 2, 3, 4, 5] 5 0 menuFtype.DOUBLE [0]).WellFormed ∧
      ∃ l, Waveform_Statistics_Compute Real.sqrt
          (recordOf ℝ [1, 2, 3, 4, 5] 5 0 menuFtype.DOUBLE [0]) = .ok l ∧
        0 ≤ l.pop_variance ∧ l.a_mean ^ 2 ≤ l.a_rms ^ 2 := by
  obtain ⟨l, hl, _⟩ := Compute_ok Real.sqrt
    (recordOf ℝ [1, 2, 3, 4, 5] 5 0 menuFtype.DOUBLE [0])
    (by decide) (by decide) (by decide) (by decide) (by decide)
  have h := C12_pop_variance_is_reference_variance
    (recordOf ℝ [1, 2, 3, 4, 5] 5 0 menuFtype.DOUBLE [0]) (by decide) l hl
  exact ⟨by decide, l, hl, h.2.2.2.2.1, h.2.2.2.2.2.2.2⟩

/-! ## Maximum absolute value -/

/-- C13: after a successful run on a well-formed record, `a_max_abs` is the
greatest `|a_j|` over the in-use samples, it equals `max |a_min| |a_max|` of the
reported minimum and maximum, and it is not negative (over any linear ordered
field, so over the reals). -/
theorem C13_max_abs_is_max_of_abs_min_abs_max {K : Type} [LinearOrderedField K] (sqrt : K → K)
    (precord : aSubRecord K) (hwf : precord.WellFormed) (l : Locals K)
    (hok : Waveform_Statistics_Compute sqrt precord = .ok l) :
    ((∃ j ∈ inUseSet precord, l.a_max_abs = |sample precord j|) ∧
      ∀ j ∈ inUseSet precord, |sample precord j| ≤ l.a_max_abs) ∧
    l.a_max_abs = max |l.a_min| |l.a_max| ∧
    0 ≤ l.a_max_abs := by
  obtain ⟨_, _, _, hn, hf⟩ := Compute_ok_inv sqrt precord hwf l hok
  have habs := theSums_a_max_abs precord hn
  obtain ⟨⟨j0, hj0, e0⟩, hmin⟩ := theSums_a_min precord hn
  obtain ⟨⟨j1, hj1, e1⟩, hmax⟩ := theSums_a_max precord hn
  rw [← hf.a_max_abs] at habs
  rw [← hf.a_min] at e0 hmin
  rw [← hf.a_max] at e1 hmax
  have heq : l.a_max_abs = max |l.a_min| |l.a_max| := by
    refine greatest_unique (inUseSet precord) (fun j => |sample precord j|) _ _ habs
      ⟨?_, fun j hj => abs_le_max_abs_abs (hmin j hj) (hmax j hj)⟩
    rcases max_choice |l.a_min| |l.a_max| with h | h
    · exact ⟨j0, hj0, by rw [h, e0]⟩
    · exact ⟨j1, hj1, by rw [h, e1]⟩
  refine ⟨habs, heq, ?_⟩
  rw [heq]
  exact le_max_of_le_left (abs_nonneg _)

/-- C13 at the record with samples `[1, 2, 3, 4, 5]`. -/
theorem C13_max_abs_witness :
    (recordOf ℚ [1, 2, 3, 4, 5] 5 0 menuFtype.DOUBLE [0]).WellFormed ∧
      ∃ l, Waveform_Statistics_Compute id (recordOf ℚ [1, 2, 3, 4, 5] 5 0 menuFtype.DOUBLE [0])
          = .ok l ∧
        l.a_max_abs = max |l.a_min| |l.a_max| ∧ 0 ≤ l.a_max_abs := by
  obtain ⟨l, hl, _⟩ := Compute_ok id (recordOf ℚ [1, 2, 3, 4, 5] 5 0 menuFtype.DOUBLE [0])
    (by decide) (by decide) (by decide) (by decide) (by decide)
  have h := C13_max_abs_is_max_of_abs_min_abs_max id
    (recordOf ℚ [1, 2, 3, 4, 5] 5 0 menuFtype.DOUBLE [0]) (by decide) l hl
  exact ⟨by decide, l, hl, h.2.1, h.2.2⟩

/-! ## A constant window -/

/-- The median of a successful run is one of the in-use samples. -/
theorem median_is_sample {K : Type} [LinearOrderedField K] (sqrt : K → K)
    (precord : aSubRecord K) (hwf : precord.WellFormed) (l : Locals K)
    (hok : Waveform_Statistics_Compute sqrt precord = .ok l) :
    ∃ j ∈ inUseSet precord, sample precord j = l.a_median := by
  obtain ⟨_, _, _, hn, hf⟩ := Compute_ok_inv sqrt precord hwf l hok
  have hcard := inUseSet_card_pos precord hn
  have hlen := length_sortedInUse precord
  have hlt : (inUseSet precord).card / 2 < (sortedInUse precord).length := by
    rw [hlen]; omega
  have hmed : l.a_median = (sortedInUse precord)[(inUseSet precord).card / 2] := by
    rw [hf.a_median, length_inUseList, List.getD_eq_getElem _ _ hlt]
  have hmem : l.a_median ∈ sortedInUse precord := by
    rw [hmed]; exact List.getElem_mem _
  exact (mem_sortedInUse precord _).mp hmem

/-- C16: over the reals, after a successful run on a well-formed record whose
in-use samples all equal `v`, the run reports `a_median = a_min = a_max = a_mean = v`
and `pop_std_dev = sam_std_dev = 0`. -/
theorem C16_constant_window (precord : aSubRecord ℝ) (hwf : precord.WellFormed)
    (l : Locals ℝ) (hok : Waveform_Statistics_Compute Real.sqrt precord = .ok l) (v : ℝ)
    (hv : ∀ j ∈ inUseSet precord, sample precord j = v) :
    l.a_median = v ∧ l.a_min = v ∧ l.a_max = v ∧ l.a_mean = v ∧
      l.pop_std_dev = 0 ∧ l.sam_std_dev = 0 := by
  obtain ⟨_, _, _, hn, hf⟩ := Compute_ok_inv Real.sqrt precord hwf l hok
  obtain ⟨hsz, hpos, hs, hss, hm, _, hpv, hsv⟩ := moments_of_run Real.sqrt precord hwf l hok
  obtain ⟨jm, hjm, em⟩ := median_is_sample Real.sqrt precord hwf l hok
  obtain ⟨⟨j0, hj0, e0⟩, _⟩ := theSums_a_min precord hn
  obtain ⟨⟨j1, hj1, e1⟩, _⟩ := theSums_a_max precord hn
  have hsum : l.a_sum = (l.actual_size : ℝ) * v := by
    rw [hs, Finset.sum_congr rfl hv, Finset.sum_const, nsmul_eq_mul, hsz]
  have hsqs : l.a_squared_sum = (l.actual_size : ℝ) * (v * v) := by
    rw [hss, Finset.sum_congr rfl (fun j hj => by rw [hv j hj]), Finset.sum_const,
      nsmul_eq_mul, hsz]
  have hmean : l.a_mean = v := by
    rw [hm, hsum, mul_div_cancel_left₀ _ hpos.ne']
  have hpv0 : l.pop_variance = 0 := by
    rw [hpv, hsqs, hmean, mul_div_cancel_left₀ _ hpos.ne', sub_self]
  have hsv0 : l.sam_variance = 0 := by
    rw [hsv, hpv0]
    split_ifs <;> simp
  refine ⟨by rw [← em, hv jm hjm], by rw [hf.a_min, e0, hv j0 hj0],
    by rw [hf.a_max, e1, hv j1 hj1], hmean,
    by rw [hf.pop_std_dev, hpv0, Real.sqrt_zero],
    by rw [hf.sam_std_dev, hsv0, Real.sqrt_zero]⟩

/-- C16 at the record with samples `[4, 4, 4]`. -/
theorem C16_constant_window_witness :
    (recordOf ℝ [4, 4, 4] 3 0 menuFtype.DOUBLE [0]).WellFormed ∧
      ∃ l, Waveform_Statistics_Compute Real.sqrt (recordOf ℝ [4, 4, 4] 3 0 menuFtype.DOUBLE [0])
          = .ok l ∧
        l.a_median = 4 ∧ l.a_min = 4 ∧ l.a_max = 4 ∧ l.a_mean = 4 ∧
        l.pop_std_dev = 0 ∧ l.sam_std_dev = 0 := by
  obtain ⟨l, hl, _⟩ := Compute_ok Real.sqrt (recordOf ℝ [4, 4, 4] 3 0 menuFtype.DOUBLE [0])
    (by decide) (by decide) (by decide) (by decide) (by decide)
  have h := C16_constant_window (recordOf ℝ [4, 4, 4] 3 0 menuFtype.DOUBLE [0]) (by decide)
    l hl 4
    (by
      intro j hj
      have hj1 : 0 ≤ j ∧ j < 3 := by
        have := (Finset.mem_filter.mp hj).1
        rw [window, Finset.mem_Ico] at this
        have hs : selectedSize (recordOf ℝ [4, 4, 4] 3 0 menuFtype.DOUBLE [0]) = 3 := by decide
        rw [hs] at this
        exact this
      obtain ⟨h0, h3⟩ := hj1
      interval_cases j <;> simp [sample, recordOf])
  exact ⟨by decide, l, hl, h⟩

/-! ## The least-squares denominator of a run -/

/-- C19: after a successful run on a well-formed record with count `n`, the
interval in effect is not zero, distinct in-use indices have distinct abscissas,
and the denominator `n * xx_sum - x_sum * x_sum` is zero if and only if `n = 1`,
in which case `delta` is set to 1; for `n ≥ 2` it is positive and is `delta` (over
any linear ordered field, so over the reals). -/
theorem C19_delta_zero_iff_single_sample {K : Type} [LinearOrderedField K] (sqrt : K → K)
    (precord : aSubRecord K) (hwf : precord.WellFormed) (l : Locals K)
    (hok : Waveform_Statistics_Compute sqrt precord = .ok l) :
    l.sample_interval ≠ 0 ∧
    (∀ i j : Int, ((i - l.last_point : Int) : K) * l.sample_interval
        = ((j - l.last_point : Int) : K) * l.sample_interval → i = j) ∧
    ((l.actual_size : K) * l.xx_sum - l.x_sum * l.x_sum = 0 ↔ l.actual_size = 1) ∧
    (l.actual_size = 1 → l.delta = 1) ∧
    (2 ≤ l.actual_size →
      0 < (l.actual_size : K) * l.xx_sum - l.x_sum * l.x_sum ∧
      l.delta = (l.actual_size : K) * l.xx_sum - l.x_sum * l.x_sum) := by
  obtain ⟨_, _, _, hn, hf⟩ := Compute_ok_inv sqrt precord hwf l hok
  have hcard := inUseSet_card_pos precord hn
  have hsz : l.actual_size = ((inUseSet precord).card : Int) := by
    rw [hf.actual_size, theSums_card]
  have hraw : (l.actual_size : K) * l.xx_sum - l.x_sum * l.x_sum
      = ((theSums precord).actual_size : K) * (theSums precord).xx_sum
        - (theSums precord).x_sum * (theSums precord).x_sum := by
    rw [hf.actual_size, hf.xx_sum, hf.x_sum]
  have hone : l.actual_size = 1 →
      (l.actual_size : K) * l.xx_sum - l.x_sum * l.x_sum = 0 := by
    intro h1
    rw [hraw]
    exact (theSums_single precord (by omega)).1
  have htwo : 2 ≤ l.actual_size →
      0 < (l.actual_size : K) * l.xx_sum - l.x_sum * l.x_sum := by
    intro h2
    rw [hraw]
    exact theSums_delta_pos precord (by omega)
  refine ⟨by rw [hf.sample_interval]; exact sampleInterval_ne_zero precord, fun i j h => ?_,
    ⟨fun h0 => ?_, hone⟩, fun h1 => ?_, fun h2 => ⟨htwo h2, ?_⟩⟩
  · rw [hf.last_point, hf.sample_interval] at h
    exact abscissa_injective precord i j h
  · by_contra hne
    have h2 : 2 ≤ l.actual_size := by omega
    exact (htwo h2).ne' h0
  · rw [hf.delta, if_pos (by rw [← hraw]; exact hone h1)]
  · rw [hf.delta, if_neg (by rw [← hraw]; exact (htwo h2).ne'), ← hraw]

/-- C19 at the record with samples `[1, 2, 3, 4, 5]`, where the count is 5 and the
denominator is positive. -/
theorem C19_delta_witness :
    (recordOf ℚ [1, 2, 3, 4, 5] 5 0 menuFtype.DOUBLE [0]).WellFormed ∧
      ∃ l, Waveform_Statistics_Compute id (recordOf ℚ [1, 2, 3, 4, 5] 5 0 menuFtype.DOUBLE [0])
          = .ok l ∧
        2 ≤ l.actual_size ∧
        0 < (l.actual_size : ℚ) * l.xx_sum - l.x_sum * l.x_sum := by
  obtain ⟨l, hl, hf⟩ := Compute_ok id (recordOf ℚ [1, 2, 3, 4, 5] 5 0 menuFtype.DOUBLE [0])
    (by decide) (by decide) (by decide) (by decide) (by decide)
  have h2 : 2 ≤ l.actual_size := by
    rw [hf.actual_size, theSums_card]; decide
  have h := C19_delta_zero_iff_single_sample id
    (recordOf ℚ [1, 2, 3, 4, 5] 5 0 menuFtype.DOUBLE [0]) (by decide) l hl
  exact ⟨by decide, l, hl, h2, (h.2.2.2.2 h2).1⟩

/-! ## Multiplying the interval by a constant -/

theorem sampleInterval_scaleInterval {K : Type} [LinearOrderedField K] (beta : K)
    (precord : aSubRecord K) (hd : precord.ftd = menuFtype.DOUBLE) (hd0 : precord.d ≠ 0)
    (hb : beta ≠ 0) :
    sampleInterval (scaleInterval beta precord) = beta * sampleInterval precord := by
  have h1 : sampleInterval precord = precord.d := by
    unfold sampleInterval; rw [if_pos hd, if_neg hd0]
  have h2 : sampleInterval (scaleInterval beta precord) = beta * precord.d := by
    unfold sampleInterval
    have hd1 : (scaleInterval beta precord).ftd = menuFtype.DOUBLE := hd
    have hd2 : (scaleInterval beta precord).d = beta * precord.d := rfl
    rw [if_pos hd1, hd2, if_neg (mul_ne_zero hb hd0)]
  rw [h2, h1]

theorem abscissa_scaleInterval {K : Type} [LinearOrderedField K] (beta : K)
    (precord : aSubRecord K) (hd : precord.ftd = menuFtype.DOUBLE) (hd0 : precord.d ≠ 0)
    (hb : beta ≠ 0) (j : Int) :
    abscissa (scaleInterval beta precord) j = beta * abscissa precord j := by
  have h := sampleInterval_scaleInterval beta precord hd hd0 hb
  unfold abscissa
  rw [h]
  have hc : (scaleInterval beta precord).c = precord.c := rfl
  have hs : selectedSize (scaleInterval beta precord) = selectedSize precord := rfl
  rw [hc, hs]
  ring

theorem theSums_scaleInterval {K : Type} [LinearOrderedField K] (beta : K)
    (precord : aSubRecord K) (hd : precord.ftd = menuFtype.DOUBLE) (hd0 : precord.d ≠ 0)
    (hb : beta ≠ 0) :
    (theSums (scaleInterval beta precord)).actual_size = (theSums precord).actual_size ∧
    (theSums (scaleInterval beta precord)).a_sum = (theSums precord).a_sum ∧
    (theSums (scaleInterval beta precord)).x_sum = beta * (theSums precord).x_sum ∧
    (theSums (scaleInterval beta precord)).xx_sum = beta ^ 2 * (theSums precord).xx_sum ∧
    (theSums (scaleInterval beta precord)).xa_sum = beta * (theSums precord).xa_sum := by
  have hU : inUseSet (scaleInterval beta precord) = inUseSet precord := rfl
  have hs : ∀ j, sample (scaleInterval beta precord) j = sample precord j := fun _ => rfl
  have hx := abscissa_scaleInterval beta precord hd hd0 hb
  refine ⟨?_, ?_, ?_, ?_, ?_⟩
  · rw [theSums_card, theSums_card, hU]
  · rw [theSums_a_sum, theSums_a_sum, hU]
    exact Finset.sum_congr rfl (fun j _ => hs j)
  · rw [theSums_x_sum, theSums_x_sum, hU, Finset.mul_sum]
    exact Finset.sum_congr rfl (fun j _ => hx j)
  · rw [theSums_xx_sum, theSums_xx_sum, hU, Finset.mul_sum]
    exact Finset.sum_congr rfl (fun j _ => by rw [hx j]; ring)
  · rw [theSums_xa_sum, theSums_xa_sum, hU, Finset.mul_sum]
    exact Finset.sum_congr rfl (fun j _ => by rw [hx j, hs j]; ring)

/-- With one in-use sample the numerator of the slope is zero. -/
theorem theSums_single_slope {K : Type} [LinearOrderedField K] (precord : aSubRecord K)
    (h1 : (inUseSet precord).card = 1) :
    ((theSums precord).actual_size : K) * (theSums precord).xa_sum
      - (theSums precord).x_sum * (theSums precord).a_sum = 0 := by
  obtain ⟨j, hj⟩ := Finset.card_eq_one.mp h1
  rw [theSums_card, theSums_xa_sum, theSums_x_sum, theSums_a_sum, hj]
  simp only [Finset.sum_singleton, Finset.card_singleton]
  push_cast; ring

/-- C14: when a run succeeds on a well-formed record whose interval field is
advertised as `DOUBLE` with a value that is not zero, then for every `beta ≠ 0` the
run on the record with that value multiplied by `beta` succeeds too, its interval in
effect is `beta` times the first one, its slope is the first slope divided by `beta`
and its intercept is the first intercept (over any linear ordered field, so over
the reals). -/
theorem C14_scale_interval_divides_slope {K : Type} [LinearOrderedField K] (sqrt : K → K)
    (precord : aSubRecord K) (hwf : precord.WellFormed) (l : Locals K)
    (hok : Waveform_Statistics_Compute sqrt precord = .ok l)
    (hd : precord.ftd = menuFtype.DOUBLE) (hd0 : precord.d ≠ 0) (beta : K) (hb : beta ≠ 0) :
    ∃ l1, Waveform_Statistics_Compute sqrt (scaleInterval beta precord) = .ok l1 ∧
      l.sample_interval = precord.d ∧
      l1.sample_interval = beta * precord.d ∧
      l1.slope = l.slope / beta ∧ l1.intersect = l.intersect := by
  obtain ⟨ht, hs, hc, hn, hf⟩ := Compute_ok_inv sqrt precord hwf l hok
  obtain ⟨l1, hl1, hf1⟩ := Compute_ok sqrt (scaleInterval beta precord) hwf ht hs hc hn
  obtain ⟨hsz, ha, hx, hxx, hxa⟩ := theSums_scaleInterval beta precord hd hd0 hb
  have hsi : l.sample_interval = precord.d := by
    rw [hf.sample_interval]; unfold sampleInterval; rw [if_pos hd, if_neg hd0]
  have hsi1 : l1.sample_interval = beta * precord.d := by
    rw [hf1.sample_interval, sampleInterval_scaleInterval beta precord hd hd0 hb,
      ← hf.sample_interval, hsi]
  have hcard := inUseSet_card_pos precord hn
  refine ⟨l1, hl1, hsi, hsi1, ?_⟩
  by_cases h2 : 2 ≤ (inUseSet precord).card
  · have hD := (theSums_delta_pos precord h2).ne'
    have hD1 : ((theSums (scaleInterval beta precord)).actual_size : K)
          * (theSums (scaleInterval beta precord)).xx_sum
        - (theSums (scaleInterval beta precord)).x_sum
          * (theSums (scaleInterval beta precord)).x_sum ≠ 0 :=
      (theSums_delta_pos (scaleInterval beta precord) h2).ne'
    obtain ⟨_, hsl, hic⟩ := fit_of_two sqrt precord _ _ _ l hf hD
    obtain ⟨_, hsl1, hic1⟩ := fit_of_two sqrt (scaleInterval beta precord) _ _ _ l1 hf1 hD1
    rw [hsl1, hic1, hsl, hic, hsz, ha, hx, hxx, hxa]
    have hden : ((theSums precord).actual_size : K) * (beta ^ 2 * (theSums precord).xx_sum)
          - beta * (theSums precord).x_sum * (beta * (theSums precord).x_sum)
        = beta ^ 2 * (((theSums precord).actual_size : K) * (theSums precord).xx_sum
          - (theSums precord).x_sum * (theSums precord).x_sum) := by ring
    rw [hden]
    constructor
    · field_simp; ring
    · field_simp; ring
  · have h1 : (inUseSet precord).card = 1 := by omega
    obtain ⟨hd0a, hi0⟩ := theSums_single precord h1
    obtain ⟨hd0b, hi1⟩ := theSums_single (scaleInterval beta precord) h1
    have hs0 := theSums_single_slope precord h1
    have hs1 := theSums_single_slope (scaleInterval beta precord) h1
    have hdl : l.delta = 1 := by rw [hf.delta, if_pos hd0a]
    have hdl1 : l1.delta = 1 := by rw [hf1.delta, if_pos hd0b]
    constructor
    · rw [hf1.slope, hf.slope, hdl, hdl1, hs0, hs1]; simp
    · rw [hf1.intersect, hf.intersect, hdl, hdl1, hi0, hi1]

/-- C14 at the record with samples `[1, 2, 3, 4, 5]`, interval 1 and `beta = 2`. -/
theorem C14_scale_interval_witness :
    (recordOf ℚ [1, 2, 3, 4, 5] 5 0 menuFtype.DOUBLE [0]).WellFormed ∧
      (recordOf ℚ [1, 2, 3, 4, 5] 5 0 menuFtype.DOUBLE [0]).d ≠ 0 ∧
      ∃ l l1, Waveform_Statistics_Compute id
          (recordOf ℚ [1, 2, 3, 4, 5] 5 0 menuFtype.DOUBLE [0]) = .ok l ∧
        Waveform_Statistics_Compute id
          (scaleInterval 2 (recordOf ℚ [1, 2, 3, 4, 5] 5 0 menuFtype.DOUBLE [0])) = .ok l1 ∧
        l1.slope = l.slope / 2 ∧ l1.intersect = l.intersect := by
  have hd0 : (recordOf ℚ [1, 2, 3, 4, 5] 5 0 menuFtype.DOUBLE [0]).d ≠ 0 := by
    show (1 : ℚ) ≠ 0
    exact one_ne_zero
  obtain ⟨l, hl, _⟩ := Compute_ok id (recordOf ℚ [1, 2, 3, 4, 5] 5 0 menuFtype.DOUBLE [0])
    (by decide) (by decide) (by decide) (by decide) (by decide)
  obtain ⟨l1, hl1, _, _, h1, h2⟩ := C14_scale_interval_divides_slope id
    (recordOf ℚ [1, 2, 3, 4, 5] 5 0 menuFtype.DOUBLE [0]) (by decide) l hl rfl hd0 2
    (by norm_num)
  exact ⟨by decide, hd0, l, l1, hl, hl1, h1, h2⟩

/-! ## Reversing the samples of the window -/

theorem reversed_length {K : Type} (a : List K) (c s : Nat) (h : c + s ≤ a.length) :
    (a.take c ++ ((a.drop c).take s).reverse ++ a.drop (c + s)).length = a.length := by
  simp only [List.length_append, List.length_take, List.length_reverse, List.length_drop]
  omega

theorem reversed_getElem_inside {K : Type} (a : List K) (c s k : Nat)
    (h : c + s ≤ a.length) (hk : k < s) :
    (a.take c ++ ((a.drop c).take s).reverse ++ a.drop (c + s))[c + k]?
      = a[c + (s - 1 - k)]? := by
  have hA : (a.take c).length = c := by rw [List.length_take]; omega
  have hM : ((a.drop c).take s).length = s := by
    rw [List.length_take, List.length_drop]; omega
  rw [List.getElem?_append_left (by rw [List.length_append, hA, List.length_reverse, hM]; omega),
    List.getElem?_append_right (by rw [hA]; omega), hA,
    List.getElem?_reverse (by rw [hM]; omega), hM,
    List.getElem?_take_of_lt (by omega), List.getElem?_drop]
  congr 1
  omega

theorem reversed_getElem_before {K : Type} (a : List K) (c s i : Nat)
    (h : c + s ≤ a.length) (hi : i < c) :
    (a.take c ++ ((a.drop c).take s).reverse ++ a.drop (c + s))[i]? = a[i]? := by
  have hA : (a.take c).length = c := by rw [List.length_take]; omega
  rw [List.append_assoc, List.getElem?_append_left (by rw [hA]; exact hi),
    List.getElem?_take_of_lt hi]

theorem reversed_getElem_after {K : Type} (a : List K) (c s i : Nat)
    (h : c + s ≤ a.length) (hi : c + s ≤ i) :
    (a.take c ++ ((a.drop c).take s).reverse ++ a.drop (c + s))[i]? = a[i]? := by
  have hA : (a.take c).length = c := by rw [List.length_take]; omega
  have hM : ((a.drop c).take s).length = s := by
    rw [List.length_take, List.length_drop]; omega
  rw [List.getElem?_append_right
      (by rw [List.length_append, hA, List.length_reverse, hM]; exact hi),
    List.length_append, hA, List.length_reverse, hM, List.getElem?_drop]
  congr 1
  omega

theorem window_bounds {K : Type} (precord : aSubRecord K) (hwf : precord.WellFormed)
    (hc : 0 ≤ precord.c) (hs : 0 ≤ selectedSize precord) :
    precord.c.toNat + (selectedSize precord).toNat ≤ precord.a.length := by
  have h1 := selectedSize_le precord hc hs
  have h2 := hwf.1
  omega

theorem wellFormed_reverseWindow {K : Type} (precord : aSubRecord K)
    (hwf : precord.WellFormed) (hc : 0 ≤ precord.c) (hs : 0 ≤ selectedSize precord) :
    (reverseWindow precord).WellFormed := by
  refine ⟨?_, hwf.2⟩
  show (precord.a.take precord.c.toNat
      ++ ((precord.a.drop precord.c.toNat).take (selectedSize precord).toNat).reverse
      ++ precord.a.drop (precord.c.toNat + (selectedSize precord).toNat)).length = precord.noa
  rw [reversed_length _ _ _ (window_bounds precord hwf hc hs)]
  exact hwf.1

theorem sample_reverseWindow_inside {K : Type} [Zero K] (precord : aSubRecord K)
    (hwf : precord.WellFormed) (hc : 0 ≤ precord.c) (hs : 0 ≤ selectedSize precord) (j : Int)
    (h1 : precord.c ≤ j) (h2 : j < precord.c + selectedSize precord) :
    sample (reverseWindow precord) j
      = sample precord (precord.c + (precord.c + selectedSize precord - 1) - j) := by
  have hb := window_bounds precord hwf hc hs
  have e1 : j.toNat = precord.c.toNat + (j - precord.c).toNat := by omega
  have e2 : (precord.c + (precord.c + selectedSize precord - 1) - j).toNat
      = precord.c.toNat + ((selectedSize precord).toNat - 1 - (j - precord.c).toNat) := by
    omega
  show (precord.a.take precord.c.toNat
      ++ ((precord.a.drop precord.c.toNat).take (selectedSize precord).toNat).reverse
      ++ precord.a.drop (precord.c.toNat + (selectedSize precord).toNat)).getD j.toNat 0
    = precord.a.getD (precord.c + (precord.c + selectedSize precord - 1) - j).toNat 0
  rw [List.getD_eq_getElem?_getD, List.getD_eq_getElem?_getD, e1, e2,
    reversed_getElem_inside _ _ _ _ hb (by omega)]

theorem sample_reverseWindow_outside {K : Type} [Zero K] (precord : aSubRecord K)
    (hwf : precord.WellFormed) (hc : 0 ≤ precord.c) (hs : 0 ≤ selectedSize precord) (j : Int)
    (h0 : 0 ≤ j) (h : j < precord.c ∨ precord.c + selectedSize precord ≤ j) :
    sample (reverseWindow precord) j = sample precord j := by
  have hb := window_bounds precord hwf hc hs
  show (precord.a.take precord.c.toNat
      ++ ((precord.a.drop precord.c.toNat).take (selectedSize precord).toNat).reverse
      ++ precord.a.drop (precord.c.toNat + (selectedSize precord).toNat)).getD j.toNat 0
    = precord.a.getD j.toNat 0
  rw [List.getD_eq_getElem?_getD, List.getD_eq_getElem?_getD]
  rcases h with h | h
  · rw [reversed_getElem_before _ _ _ _ hb (by omega)]
  · rw [reversed_getElem_after _ _ _ _ hb (by omega)]

/-- A sum over an interval of integers read backwards. -/
theorem sum_Ico_reflect_int {M : Type} [AddCommMonoid M] (lo hi : Int) (f : Int → M) :
    ∑ j in Finset.Ico lo hi, f (lo + (hi - 1) - j) = ∑ j in Finset.Ico lo hi, f j := by
  refine Finset.sum_nbij' (fun j => lo + (hi - 1) - j) (fun j => lo + (hi - 1) - j) ?_ ?_ ?_ ?_ ?_
  · intro j hj
    rw [Finset.mem_Ico] at hj
    show lo + (hi - 1) - j ∈ Finset.Ico lo hi
    rw [Finset.mem_Ico]
    omega
  · intro j hj
    rw [Finset.mem_Ico] at hj
    show lo + (hi - 1) - j ∈ Finset.Ico lo hi
    rw [Finset.mem_Ico]
    omega
  · intro j _
    show lo + (hi - 1) - (lo + (hi - 1) - j) = j
    omega
  · intro j _
    show lo + (hi - 1) - (lo + (hi - 1) - j) = j
    omega
  · intro j _
    rfl

theorem inUseSet_eq_window_of_card {K : Type} (precord : aSubRecord K)
    (hs : 0 ≤ selectedSize precord)
    (h : ((inUseSet precord).card : Int) = selectedSize precord) :
    inUseSet precord = window precord := by
  have hL := inUseList_eq_of_length precord hs (by rw [length_inUseList]; omega)
  rw [← toFinset_inUseList, hL]
  ext j
  rw [List.mem_toFinset, mem_intRange, window, Finset.mem_Ico]

/-- C15: when a run succeeds on a well-formed record with no sample of the window
masked out (count = size), the run on the record whose samples within the window
`[offset, offset + size)` are in reversed order (and are as they were outside it)
succeeds too, again with count = size, and its slope is the negation of the first
slope (over any linear ordered field, so over the reals). -/
theorem C15_reverse_window_negates_slope {K : Type} [LinearOrderedField K] (sqrt : K → K)
    (precord : aSubRecord K) (hwf : precord.WellFormed) (l : Locals K)
    (hok : Waveform_Statistics_Compute sqrt precord = .ok l)
    (hall : l.actual_size = l.size) :
    (reverseWindow precord).a.length = precord.a.length ∧
    (∀ j, precord.c ≤ j → j < precord.c + l.size →
      sample (reverseWindow precord) j
        = sample precord (precord.c + (precord.c + l.size - 1) - j)) ∧
    (∀ j, 0 ≤ j → (j < precord.c ∨ precord.c + l.size ≤ j) →
      sample (reverseWindow precord) j = sample precord j) ∧
    ∃ l1, Waveform_Statistics_Compute sqrt (reverseWindow precord) = .ok l1 ∧
      l1.actual_size = l1.size ∧ l1.slope = -l.slope := by
  obtain ⟨ht, hs, hc, hn, hf⟩ := Compute_ok_inv sqrt precord hwf l hok
  have hs0 : 0 ≤ selectedSize precord := by omega
  have hwf1 := wellFormed_reverseWindow precord hwf hc hs0
  obtain ⟨l1, hl1, hf1⟩ := Compute_ok sqrt (reverseWindow precord) hwf1 ht hs hc hn
  have hcardsz : ((inUseSet precord).card : Int) = selectedSize precord := by
    rw [← theSums_card, ← hf.actual_size, hall, hf.size]
  have hU := inUseSet_eq_window_of_card precord hs0 hcardsz
  have hU1 : inUseSet (reverseWindow precord) = inUseSet precord := rfl
  have hinside := sample_reverseWindow_inside precord hwf hc hs0
  -- the sums of the second run
  have hsz : (theSums (reverseWindow precord)).actual_size = (theSums precord).actual_size := by
    rw [theSums_card, theSums_card, hU1]
  have hx : (theSums (reverseWindow precord)).x_sum = (theSums precord).x_sum := by
    rw [theSums_x_sum, theSums_x_sum]; rfl
  have hxx : (theSums (reverseWindow precord)).xx_sum = (theSums precord).xx_sum := by
    rw [theSums_xx_sum, theSums_xx_sum]; rfl
  have hmem : ∀ j ∈ window precord,
      precord.c ≤ j ∧ j < precord.c + selectedSize precord := by
    intro j hj; rw [window, Finset.mem_Ico] at hj; exact hj
  have ha : (theSums (reverseWindow precord)).a_sum = (theSums precord).a_sum := by
    rw [theSums_a_sum, theSums_a_sum, hU1, hU, window,
      ← sum_Ico_reflect_int precord.c (precord.c + selectedSize precord) (sample precord)]
    exact Finset.sum_congr rfl (fun j hj => hinside j (hmem j hj).1 (hmem j hj).2)
  have hrefl : ∀ j : Int,
      abscissa precord (precord.c + (precord.c + selectedSize precord - 1) - j)
        = -(((selectedSize precord - 1 : Int) : K) * sampleInterval precord)
          - abscissa precord j := by
    intro j
    unfold abscissa
    push_cast
    ring
  have hxa : (theSums (reverseWindow precord)).xa_sum
      = -(((selectedSize precord - 1 : Int) : K) * sampleInterval precord)
          * (theSums precord).a_sum - (theSums precord).xa_sum := by
    rw [theSums_xa_sum, theSums_xa_sum, theSums_a_sum, hU1, hU, window]
    have h1 : ∑ j in Finset.Ico precord.c (precord.c + selectedSize precord),
          abscissa (reverseWindow precord) j * sample (reverseWindow precord) j
        = ∑ j in Finset.Ico precord.c (precord.c + selectedSize precord),
          abscissa precord (precord.c + (precord.c + selectedSize precord - 1) - j)
            * sample precord j := by
      rw [← sum_Ico_reflect_int precord.c (precord.c + selectedSize precord)
        (fun j => abscissa precord (precord.c + (precord.c + selectedSize precord - 1) - j)
          * sample precord j)]
      refine Finset.sum_congr rfl (fun j hj => ?_)
      have hj' := hmem j hj
      rw [hinside j hj'.1 hj'.2]
      have e : precord.c + (precord.c + selectedSize precord - 1)
          - (precord.c + (precord.c + selectedSize precord - 1) - j) = j := by omega
      rw [e]
      rfl
    rw [h1, Finset.sum_congr rfl (fun j _ => by rw [hrefl j])]
    simp only [sub_mul, Finset.sum_sub_distrib, ← Finset.mul_sum]
  have hxsum : 2 * (theSums precord).x_sum
      = ((theSums precord).actual_size : K)
        * -(((selectedSize precord - 1 : Int) : K) * sampleInterval precord) := by
    have h1 : (theSums precord).x_sum
        = ∑ j in Finset.Ico precord.c (precord.c + selectedSize precord),
          abscissa precord (precord.c + (precord.c + selectedSize precord - 1) - j) := by
      rw [theSums_x_sum, hU, window, sum_Ico_reflect_int]
    have h2 : (theSums precord).x_sum
        = ∑ j in Finset.Ico precord.c (precord.c + selectedSize precord),
          abscissa precord j := by
      rw [theSums_x_sum, hU, window]
    have h3 : (theSums precord).x_sum + (theSums precord).x_sum
        = ∑ j in Finset.Ico precord.c (precord.c + selectedSize precord),
          -(((selectedSize precord - 1 : Int) : K) * sampleInterval precord) := by
      nth_rewrite 1 [h1]
      rw [h2, ← Finset.sum_add_distrib]
      exact Finset.sum_congr rfl (fun j _ => by rw [hrefl j]; ring)
    rw [Finset.sum_const, nsmul_eq_mul, Int.card_Ico] at h3
    have h4i : (theSums precord).actual_size
        = (((precord.c + selectedSize precord - precord.c).toNat : Nat) : Int) := by
      rw [theSums_card, hcardsz]; omega
    have h4 : ((theSums precord).actual_size : K)
        = (((precord.c + selectedSize precord - precord.c).toNat : Nat) : K) := by
      rw [h4i]; exact Int.cast_natCast _
    rw [h4, ← h3]; ring
  have e_delta : l1.delta = l.delta := by
    rw [hf1.delta, hf.delta, hsz, hx, hxx]
  refine ⟨reversed_length _ _ _ (window_bounds precord hwf hc hs0), ?_, ?_, l1, hl1, ?_, ?_⟩
  · intro j h1 h2
    rw [hf.size] at h2 ⊢
    exact hinside j h1 h2
  · intro j h0 h
    rw [hf.size] at h
    exact sample_reverseWindow_outside precord hwf hc hs0 j h0 h
  · rw [hf1.actual_size, hf1.size, hsz, ← hf.actual_size, hall, hf.size]
    rfl
  · rw [hf1.slope, hf.slope, e_delta, hsz, hx, ha, hxa, ← neg_div]
    congr 1
    linear_combination (-(theSums precord).a_sum) * hxsum

/-- C15 at the record with samples `[1, 2, 4]`, the whole window and no mask. -/
theorem C15_reverse_window_witness :
    (recordOf ℚ [1, 2, 4] 3 0 menuFtype.DOUBLE [0]).WellFormed ∧
      ∃ l l1, Waveform_Statistics_Compute id (recordOf ℚ [1, 2, 4] 3 0 menuFtype.DOUBLE [0])
          = .ok l ∧
        l.actual_size = l.size ∧
        Waveform_Statistics_Compute id
          (reverseWindow (recordOf ℚ [1, 2, 4] 3 0 menuFtype.DOUBLE [0])) = .ok l1 ∧
        l1.slope = -l.slope := by
  obtain ⟨l, hl, hf⟩ := Compute_ok id (recordOf ℚ [1, 2, 4] 3 0 menuFtype.DOUBLE [0])
    (by decide) (by decide) (by decide) (by decide) (by decide)
  have hall : l.actual_size = l.size := by
    rw [hf.actual_size, hf.size, theSums_card]; decide
  obtain ⟨_, _, _, l1, hl1, _, h⟩ := C15_reverse_window_negates_slope id
    (recordOf ℚ [1, 2, 4] 3 0 menuFtype.DOUBLE [0]) (by decide) l hl hall
  exact ⟨by decide, l, l1, hl, hall, hl1, h⟩

/-! ## What a run changes -/

/-- The failures a run can end with: the type-contract violation only with wrong
tags, and otherwise one of the four other failures. -/
theorem Compute_error_cases {K : Type} [LinearOrderedField K] (sqrt : K → K)
    (precord : aSubRecord K) (e : Status)
    (hc : Waveform_Statistics_Compute sqrt precord = .error e) :
    (e = Status.TypeContractViolation ∧ ¬ tagsCorrect precord) ∨
      e = Status.InvalidRange ∨ e = Status.EmptyAfterMask ∨ e = Status.OutOfRange ∨
      e = Status.DivisionByZero := by
  by_cases htc : tagsCorrect precord
  swap
  · rw [Compute_tags sqrt precord htc] at hc
    cases hc
    exact Or.inl ⟨rfl, htc⟩
  right
  unfold Waveform_Statistics_Compute at hc
  rw [if_neg (not_bad_tags precord htc)] at hc
  simp only at hc
  by_cases hs : selectedSize precord < 1
  · rw [if_pos hs] at hc; cases hc; exact Or.inl rfl
  rw [if_neg hs] at hc
  rcases hl : forLoop (precord.c + selectedSize precord)
      (accumulate precord (precord.c + selectedSize precord - 1) (sampleInterval precord))
      precord.c (Sums.init K) with e1 | s
  · rw [hl] at hc
    have := forLoop_error _ _ (fun e => e = Status.OutOfRange)
      (fun j s e => accumulate_error precord _ _ j s e) _ _ _ _ rfl hl
    subst this
    cases hc
    exact Or.inr (Or.inr (Or.inl rfl))
  · rw [hl] at hc
    simp only at hc
    by_cases hz : s.actual_size < 1
    · rw [if_pos hz] at hc; cases hc; exact Or.inr (Or.inl rfl)
    rw [if_neg hz] at hc
    rcases hfin : finalize sqrt precord s 0 precord.a with e1 | l
    · rw [hfin] at hc
      have := finalize_error _ _ _ _ _ _ hfin
      subst this
      cases hc
      exact Or.inr (Or.inr (Or.inr rfl))
    · rw [hfin] at hc
      simp only at hc
      rcases hm : medianStage precord precord.c (selectedSize precord) s.actual_size
        with e1 | ⟨m, buf⟩
      · rw [hm] at hc
        have := medianStage_error _ _ _ _ _ hm
        subst this
        cases hc
        exact Or.inr (Or.inr (Or.inl rfl))
      · rw [hm] at hc
        cases hc

theorem Process_ok_inv {K : Type} [LinearOrderedField K] (sqrt : K → K)
    (precord : aSubRecord K)
    (h : (Waveform_Statistics_Process sqrt precord).1 = Status.OK) :
    ∃ l, Waveform_Statistics_Compute sqrt precord = .ok l ∧
      Waveform_Statistics_Process sqrt precord = (Status.OK, writeOutputs precord l) := by
  rcases hc : Waveform_Statistics_Compute sqrt precord with e | l
  · rw [Process_of_error sqrt precord e hc] at h
    simp only at h
    subst h
    rcases Compute_error_cases sqrt precord _ hc with h | h | h | h | h
    · cases h.1
    all_goals cases h
  · exact ⟨l, rfl, Process_of_ok sqrt precord l hc⟩

theorem inUseList_eq_sort {K : Type} (precord : aSubRecord K) :
    inUseList precord = Finset.sort (fun x y => x ≤ y) (inUseSet precord) := by
  refine List.eq_of_perm_of_sorted ?_ ((sorted_inUseList precord).imp (fun h => le_of_lt h))
    (Finset.sort_sorted _ _)
  refine List.perm_of_nodup_nodup_toFinset_eq (nodup_inUseList precord) (Finset.sort_nodup _ _) ?_
  rw [toFinset_inUseList, Finset.sort_toFinset]

theorem card_inUse_below_le {K : Type} (precord : aSubRecord K) (j : Int)
    (hj : precord.c ≤ j) :
    (((inUseSet precord).filter (fun i => i < j)).card : Int) ≤ j - precord.c := by
  have hsub : (inUseSet precord).filter (fun i => i < j) ⊆ Finset.Ico precord.c j := by
    intro i hi
    rw [Finset.mem_filter] at hi
    have h1 := (Finset.mem_Ico.mp (Finset.mem_filter.mp hi.1).1).1
    exact Finset.mem_Ico.mpr ⟨h1, hi.2⟩
  have := Finset.card_le_card hsub
  rw [Int.card_Ico] at this
  omega

/-- C17: after a successful run on a well-formed record, with `n` the number of
in-use samples: `0 ≤ offset` and `n ≤ size`; if `n = size` the samples buffer is
the one before the call; if `n < size` it has the same length, is as before the
call at every index from `n` on, and holds at the indices `0 .. n - 1` the in-use
samples of the buffer before the call, in increasing index order. When the
compaction reads index `j` the positions written so far are below the number of
in-use indices below `j`, which is at most `j - offset`. -/
theorem C17_buffer_after_successful_run {K : Type} [LinearOrderedField K] (sqrt : K → K)
    (precord : aSubRecord K) (hwf : precord.WellFormed)
    (hok : (Waveform_Statistics_Process sqrt precord).1 = Status.OK) :
    0 ≤ precord.c ∧
    ((inUseSet precord).card : Int) ≤ selectedSize precord ∧
    (((inUseSet precord).card : Int) = selectedSize precord →
      (Waveform_Statistics_Process sqrt precord).2.a = precord.a) ∧
    (((inUseSet precord).card : Int) < selectedSize precord →
      (Waveform_Statistics_Process sqrt precord).2.a.length = precord.a.length ∧
      (∀ i : Nat, (inUseSet precord).card ≤ i →
        (Waveform_Statistics_Process sqrt precord).2.a[i]? = precord.a[i]?) ∧
      (Waveform_Statistics_Process sqrt precord).2.a.take (inUseSet precord).card
        = (Finset.sort (fun x y => x ≤ y) (inUseSet precord)).map (sample precord)) ∧
    (∀ j ∈ window precord,
      (((inUseSet precord).filter (fun i => i < j)).card : Int) ≤ j - precord.c) := by
  obtain ⟨l, hl, hp⟩ := Process_ok_inv sqrt precord hok
  obtain ⟨_, hs, hc, hn, hf⟩ := Compute_ok_inv sqrt precord hwf l hl
  have hbuf : (Waveform_Statistics_Process sqrt precord).2.a = bufferAfter precord := by
    rw [hp, ← hf.a_ptr]; rfl
  have hle := length_inUseList_le precord (by omega : 0 ≤ selectedSize precord)
  have hlen := length_inUseList precord
  have hN := selectedSize_le precord hc (by omega)
  have hlenA := hwf.1
  refine ⟨hc, by omega, fun heq => ?_, fun hlt => ?_, fun j hj => ?_⟩
  · rw [hbuf, bufferAfter, if_neg (by omega)]
  · have hb : bufferAfter precord
        = inUseValues precord ++ precord.a.drop (inUseList precord).length := by
      rw [bufferAfter, if_pos (by omega)]
    have hvl := length_inUseValues precord
    rw [hbuf, hb]
    refine ⟨?_, fun i hi => ?_, ?_⟩
    · rw [List.length_append, List.length_drop, hvl]; omega
    · rw [List.getElem?_append_right (by rw [hvl]; omega), List.getElem?_drop, hvl]
      congr 1
      omega
    · rw [← hlen, List.take_left' hvl, inUseValues, inUseList_eq_sort]
  · exact card_inUse_below_le precord j (Finset.mem_Ico.mp hj).1

/-- C17 at the record with samples `[1, 2, 3, 4, 5]` and mask `[1, 0, 1, 0, 1]`: the
run succeeds, three samples are in use, and the buffer is as before the call from
index 3 on. -/
theorem C17_buffer_witness :
    (recordOf ℚ [1, 2, 3, 4, 5] 5 0 menuFtype.LONG [1, 0, 1, 0, 1]).WellFormed ∧
      (Waveform_Statistics_Process id
        (recordOf ℚ [1, 2, 3, 4, 5] 5 0 menuFtype.LONG [1, 0, 1, 0, 1])).1 = Status.OK ∧
      (Waveform_Statistics_Process id
        (recordOf ℚ [1, 2, 3, 4, 5] 5 0 menuFtype.LONG [1, 0, 1, 0, 1])).2.a.length = 5 ∧
      (Waveform_Statistics_Process id
        (recordOf ℚ [1, 2, 3, 4, 5] 5 0 menuFtype.LONG [1, 0, 1, 0, 1])).2.a[4]? = some 5 := by
  obtain ⟨l, hl, _⟩ := Compute_ok id
    (recordOf ℚ [1, 2, 3, 4, 5] 5 0 menuFtype.LONG [1, 0, 1, 0, 1])
    (by decide) (by decide) (by decide) (by decide) (by decide)
  have hok : (Waveform_Statistics_Process id
      (recordOf ℚ [1, 2, 3, 4, 5] 5 0 menuFtype.LONG [1, 0, 1, 0, 1])).1 = Status.OK := by
    rw [Process_of_ok id _ l hl]
  have h := (C17_buffer_after_successful_run id
    (recordOf ℚ [1, 2, 3, 4, 5] 5 0 menuFtype.LONG [1, 0, 1, 0, 1]) (by decide) hok).2.2.2.1
    (by decide)
  refine ⟨by decide, hok, by rw [h.1]; rfl, ?_⟩
  rw [h.2.1 4 (by decide)]
  rfl

/-- C18: the run fails with the type-contract violation exactly when the FTA, FTB,
FTC tags are not the required ones; on each of the three failures the record, with
every output slot and every sample, is as it was; the run returns 0 exactly when
it succeeds; and on success every other input field is as it was and each output
slot holds its statistic if its tag matches (`DOUBLE` for VALA .. VALK, `LONG` for
VALL) and its previous value otherwise. -/
theorem C18_outputs_written_only_on_success_and_matching_tag {K : Type}
    [LinearOrderedField K] (sqrt : K → K) (precord : aSubRecord K) :
    ((Waveform_Statistics_Process sqrt precord).1 = Status.TypeContractViolation ↔
      ¬ tagsCorrect precord) ∧
    ((Waveform_Statistics_Process sqrt precord).1 = Status.TypeContractViolation ∨
      (Waveform_Statistics_Process sqrt precord).1 = Status.InvalidRange ∨
      (Waveform_Statistics_Process sqrt precord).1 = Status.EmptyAfterMask →
        (Waveform_Statistics_Process sqrt precord).2 = precord) ∧
    ((Waveform_Statistics_Process sqrt precord).1.returnCode = some 0 ↔
      (Waveform_Statistics_Process sqrt precord).1 = Status.OK) ∧
    ((Waveform_Statistics_Process sqrt precord).1 = Status.OK →
      ∃ l, Waveform_Statistics_Compute sqrt precord = .ok l ∧
        (Waveform_Statistics_Process sqrt precord).2
          = { precord with
              a := l.a_ptr
              vala := if precord.ftva = menuFtype.DOUBLE then l.a_mean else precord.vala
              valb := if precord.ftvb = menuFtype.DOUBLE then l.a_min else precord.valb
              valc := if precord.ftvc = menuFtype.DOUBLE then l.a_max else precord.valc
              vald := if precord.ftvd = menuFtype.DOUBLE then l.sam_std_dev else precord.vald
              vale := if precord.ftve = menuFtype.DOUBLE then l.a_sum else precord.vale
              valf := if precord.ftvf = menuFtype.DOUBLE then l.a_median else precord.valf
              valg := if precord.ftvg = menuFtype.DOUBLE then l.slope else precord.valg
              valh := if precord.ftvh = menuFtype.DOUBLE then l.intersect else precord.valh
              vali := if precord.ftvi = menuFtype.DOUBLE then l.a_max_abs else precord.vali
              valj := if precord.ftvj = menuFtype.DOUBLE then l.a_rms else precord.valj
              valk := if precord.ftvk = menuFtype.DOUBLE then l.pop_std_dev else precord.valk
              vall := if precord.ftvl = menuFtype.LONG then l.actual_size else precord.vall }) := by
  refine ⟨⟨fun h => ?_, fun h => ?_⟩, fun h => ?_, ⟨fun h => ?_, fun h => by rw [h]; rfl⟩,
    fun h => ?_⟩
  · rcases hc : Waveform_Statistics_Compute sqrt precord with e | l
    · rw [Process_of_error sqrt precord e hc] at h
      simp only at h
      subst h
      rcases Compute_error_cases sqrt precord _ hc with h | h | h | h | h
      · exact h.2
      all_goals cases h
    · rw [Process_of_ok sqrt precord l hc] at h
      cases h
  · rw [Process_of_error sqrt precord _ (Compute_tags sqrt precord h)]
  · unfold Waveform_Statistics_Process at h ⊢
    rcases hc : Waveform_Statistics_Compute sqrt precord with e | l
    · rfl
    · rw [hc] at h
      simp only at h
      rcases h with h | h | h <;> cases h
  · rcases hst : (Waveform_Statistics_Process sqrt precord).1 with _ | _ | _ | _ | _ | _ <;>
      rw [hst] at h <;> first | rfl | (simp [Status.returnCode] at h)
  · obtain ⟨l, hl, hp⟩ := Process_ok_inv sqrt precord h
    exact ⟨l, hl, by rw [hp]; rfl⟩

/-- C20: for a record with correct type tags, `0 ≤ offset` and buffers of `NOA`
samples and `NOE` mask words, the run ends with `InvalidRange`, `EmptyAfterMask`
or success, never in an access outside a buffer or a division by zero. The loop
indices lie in `[0, NOA)` and a mask word is read only at an index in `[0, NOE)`;
on success `1 ≤ n ≤ size ≤ NOA - offset` for the count `n`, the median index `n / 2`
lies in `[0, n)`, and the divisors `n`, `n - 1` (used when `n ≥ 2`) and `delta` are
not zero. An access that does not end the run is inside its buffer and a division
that does not end it has a divisor that is not zero. -/
theorem C20_no_access_out_of_range_no_division_by_zero {K : Type} [LinearOrderedField K]
    (sqrt : K → K) (precord : aSubRecord K) (htags : tagsCorrect precord)
    (hoff : 0 ≤ precord.c) (hwf : precord.WellFormed) :
    (Waveform_Statistics_Process sqrt precord).1 ≠ Status.OutOfRange ∧
    (Waveform_Statistics_Process sqrt precord).1 ≠ Status.DivisionByZero ∧
    ((Waveform_Statistics_Process sqrt precord).1 = Status.InvalidRange ∨
      (Waveform_Statistics_Process sqrt precord).1 = Status.EmptyAfterMask ∨
      (Waveform_Statistics_Process sqrt precord).1 = Status.OK) ∧
    (∀ j ∈ window precord, 0 ≤ j ∧ j < (precord.noa : Int) ∧ j.toNat < precord.a.length) ∧
    (∀ j ∈ window precord, precord.fte = menuFtype.LONG → j < (precord.noe : Int) →
      ∃ m, readAt precord.e j = .ok m) ∧
    ((Waveform_Statistics_Process sqrt precord).1 = Status.OK →
      ∃ l, Waveform_Statistics_Compute sqrt precord = .ok l ∧
        1 ≤ l.actual_size ∧ l.actual_size ≤ l.size ∧
        l.offset + l.size ≤ (precord.noa : Int) ∧
        0 ≤ Int.tdiv l.actual_size 2 ∧ Int.tdiv l.actual_size 2 < l.actual_size ∧
        (l.actual_size : K) ≠ 0 ∧
        (2 ≤ l.actual_size → (l.actual_size : K) - 1 ≠ 0) ∧
        l.delta ≠ 0) ∧
    (∀ (buf : List K) (i : Int) (v : K), readAt buf i = .ok v → 0 ≤ i ∧ i < buf.length) ∧
    (∀ (buf : List Int) (i : Int) (m : Int), readAt buf i = .ok m → 0 ≤ i ∧ i < buf.length) ∧
    (∀ (buf : List K) (i : Int) (v : K) (b : List K),
      writeAt buf i v = .ok b → 0 ≤ i ∧ i < buf.length) ∧
    (∀ x y q : K, fdiv x y = .ok q → y ≠ 0) := by
  have hread : ∀ {α : Type} (buf : List α) (i : Int) (v : α),
      readAt buf i = .ok v → 0 ≤ i ∧ i < buf.length := by
    intro α buf i v h
    unfold readAt at h
    by_cases h0 : 0 ≤ i
    · rw [if_pos h0] at h
      by_cases h1 : i.toNat < buf.length
      · exact ⟨h0, by omega⟩
      · rw [List.getElem?_eq_none (by omega)] at h
        cases h
    · rw [if_neg h0] at h; cases h
  have hcases : (Waveform_Statistics_Process sqrt precord).1 = Status.InvalidRange ∨
      (Waveform_Statistics_Process sqrt precord).1 = Status.EmptyAfterMask ∨
      (Waveform_Statistics_Process sqrt precord).1 = Status.OK := by
    by_cases hs : selectedSize precord < 1
    · left
      rw [Process_of_error sqrt precord _ (Compute_range sqrt precord htags hs)]
    by_cases hn : inUseList precord = []
    · right; left
      rw [Process_of_error sqrt precord _
        (Compute_empty sqrt precord hwf htags (by omega) hoff hn)]
    · right; right
      obtain ⟨l, hl, _⟩ := Compute_ok sqrt precord hwf htags (by omega) hoff hn
      rw [Process_of_ok sqrt precord l hl]
  have hN := selectedSize_le precord hoff
  have hlenA := hwf.1
  refine ⟨?_, ?_, hcases, fun j hj => ?_, fun j hj hL hlt => ?_, fun hok => ?_,
    hread, hread, fun buf i v b h => ?_, fun x y q h => ?_⟩
  · rcases hcases with h | h | h <;> rw [h] <;> decide
  · rcases hcases with h | h | h <;> rw [h] <;> decide
  · have := Finset.mem_Ico.mp hj
    omega
  · have := Finset.mem_Ico.mp hj
    have hlenE := hwf.2 hL
    exact ⟨_, readAt_ok precord.e j 0 (by omega) (by omega)⟩
  · obtain ⟨l, hl, _⟩ := Process_ok_inv sqrt precord hok
    obtain ⟨_, hs, _, hn, hf⟩ := Compute_ok_inv sqrt precord hwf l hl
    have hpos : 1 ≤ (inUseList precord).length := by
      rcases hL : inUseList precord with _ | ⟨x, xs⟩
      · exact absurd hL hn
      · simp
    have hle := length_inUseList_le precord (by omega : 0 ≤ selectedSize precord)
    have hsz : l.actual_size = ((inUseList precord).length : Int) := by
      rw [hf.actual_size, theSums_actual_size]
    have hK : (0 : K) < (l.actual_size : K) := by
      exact_mod_cast (by omega : 0 < l.actual_size)
    refine ⟨l, hl, by omega, by rw [hf.size]; omega,
      by rw [hf.offset, hf.size]; exact hN (by omega),
      ?_, ?_, hK.ne', fun h2 => ?_, ?_⟩
    · rw [Int.tdiv_eq_ediv (by omega) (by omega)]; omega
    · rw [Int.tdiv_eq_ediv (by omega) (by omega)]; omega
    · have : (1 : K) < (l.actual_size : K) := by exact_mod_cast (by omega : 1 < l.actual_size)
      exact (sub_pos.mpr this).ne'
    · rw [hf.delta]
      split_ifs with h0
      · exact one_ne_zero
      · exact h0
  · unfold writeAt at h
    by_cases hc : 0 ≤ i ∧ i.toNat < buf.length
    · exact ⟨hc.1, by omega⟩
    · rw [if_neg hc] at h; cases h
  · unfold fdiv at h
    by_cases hy : y = 0
    · rw [if_pos hy] at h; cases h
    · exact hy

/-- C20 at the record with samples `[1, 2, 3, 4, 5]` and mask `[1, 0, 1, 0, 1]`. -/
theorem C20_no_fault_witness :
    tagsCorrect (recordOf ℚ [1, 2, 3, 4, 5] 5 0 menuFtype.LONG [1, 0, 1, 0, 1]) ∧
      (recordOf ℚ [1, 2, 3, 4, 5] 5 0 menuFtype.LONG [1, 0, 1, 0, 1]).WellFormed ∧
      (Waveform_Statistics_Process id
        (recordOf ℚ [1, 2, 3, 4, 5] 5 0 menuFtype.LONG [1, 0, 1, 0, 1])).1
          ≠ Status.OutOfRange ∧
      (Waveform_Statistics_Process id
        (recordOf ℚ [1, 2, 3, 4, 5] 5 0 menuFtype.LONG [1, 0, 1, 0, 1])).1
          ≠ Status.DivisionByZero := by
  have h := C20_no_access_out_of_range_no_division_by_zero id
    (recordOf ℚ [1, 2, 3, 4, 5] 5 0 menuFtype.LONG [1, 0, 1, 0, 1])
    (by decide) (by decide) (by decide)
  exact ⟨by decide, by decide, h.1, h.2.1⟩

end WaveformStatistics
